import Mathlib

/-!
# Reboot dashboard: decision agent, analytics engine and log store

A shallow embedding of `js/services/AIAgent.js`, `js/services/AnalyticsService.js`,
`getAllLogs`, `saveLog` and `deleteLog` of `js/services/DataService.js`, and the agent and
`calculateStats` of `app-bundle.js`.

Modelling conventions.

* JavaScript numbers are rationals (`ℚ`); the values the UI stores in a log
  (`timestamp`, `preFatigue`, `postRecovery`, `duration`) are integers (`parseInt`,
  `Date.getTime`), whose sums and differences are exact below `2 ^ 53`. Where the rounding of
  double arithmetic reaches a result (the one-decimal texts of `toFixed(1)` and the health
  snapshot), a Number is the rational `toDouble` of the exact result of its operation. The
  decision agent compares its values with thresholds only, and its arithmetic is kept exact.
* `Date.now()` is the explicit argument `now` (epoch milliseconds).
* A plain object used as a table (`typeStats`, `typeRecovery`) is an association list in
  insertion order, which is the order of `Object.keys` / `Object.entries` for the property
  names this program stores (reboot type names such as `spa`; names that are canonical array
  indices or members of `Object.prototype` are outside the model). The table `hourCounts`,
  whose keys are hours, is kept in ascending order of its keys, the order in which array
  indices are enumerated.
* `Array.prototype.sort` is a stable sort.
* A `null` / `undefined` log list is `Option.none`.
* A function that can throw, or a promise that can be rejected, returns `Except JSError`.
* Local time is UTC shifted by a fixed offset `tz` (milliseconds): the model covers time zones
  of a constant offset, zones with daylight-saving transitions are outside it. A `date` field
  is read by `new Date` as a date-only ISO string.
-/

set_option autoImplicit false

/-! ## Data model -/

/-- A stored log record (`DataService.saveLog`). -/
structure LogEntry where
  id : Int
  timestamp : Int
  date : String
  duration : Int
  type : String
  preFatigue : Int
  postRecovery : Int
  deriving DecidableEq

/-! ## JavaScript primitives -/

/-- `Math.round`: the nearest integer, a half goes up. -/
def mathRound (x : ℚ) : Int := ⌊x + 1 / 2⌋

/-- `Math.floor`. -/
def mathFloor (x : ℚ) : Int := ⌊x⌋

/-- The remainder operator `a % b`: the result has the sign of the dividend. -/
def jsRem (a b : ℚ) : ℚ :=
  a - b * (if 0 ≤ a / b then ⌊a / b⌋ else ⌈a / b⌉)

/-- The integer nearest to `x`, a tie goes to the even one. -/
def roundHalfEven (x : ℚ) : Int :=
  let f := ⌊x⌋
  if x - f < 1 / 2 then f
  else if 1 / 2 < x - f then f + 1
  else if f % 2 = 0 then f else f + 1

/-- The Number (IEEE 754 binary64 value) nearest to the real `x`, a tie goes to the even
significand of 53 bits: the result of an arithmetic operation of the language is its exact
result rounded so. The exponent is not bounded: the values of this program neither overflow nor
reach the subnormal range. -/
def toDouble (x : ℚ) : ℚ :=
  if x = 0 then 0
  else
    let ulp : ℚ := 2 ^ (Int.log 2 |x| - 52)
    roundHalfEven (x / ulp) * ulp

/-- The text with one decimal of the multiple of 0.1 nearest to `x`, a tie goes away from
zero. -/
def decimalText1 (x : ℚ) : String :=
  let n : Nat := ⌊|x| * 10 + 1 / 2⌋.toNat
  (if x < 0 then "-" else "") ++ toString (n / 10) ++ "." ++ toString (n % 10)

/-- `x.toFixed(1)` of the Number that holds the real `x`: the text with one decimal of the
multiple of 0.1 nearest to that Number (of two, the larger in magnitude). -/
def toFixed1 (x : ℚ) : String := decimalText1 (toDouble x)

/-- The comparison `a < b` of two values either of which may be `undefined`. -/
def jsLt (a b : Option Int) : Bool :=
  match a, b with
  | some x, some y => decide (x < y)
  | _, _ => false

/-- `Array.prototype.sort(compareFn)`: stable, `a` stays before `b` unless
`compareFn(a, b) > 0`. -/
def jsSort {α : Type} (compareFn : α → α → ℚ) (xs : List α) : List α :=
  xs.insertionSort (fun a b => compareFn a b ≤ 0)

/-- Either of the two kinds of value a statistics field can hold. -/
inductive JSValue where
  | number (x : ℚ)
  | string (s : String)
  deriving DecidableEq

/-- A plain object used as a table keyed by strings, in insertion order. -/
abbrev JSObject (α : Type) := List (String × α)

namespace JSObject

/-- Truthiness of `obj[key]` for a table whose values are objects. -/
def has {α : Type} (obj : JSObject α) (key : String) : Bool :=
  obj.any (fun e => e.1 == key)

/-- The assignment `obj[key] = v` for a key that is not yet present. -/
def add {α : Type} (obj : JSObject α) (key : String) (v : α) : JSObject α :=
  obj ++ [(key, v)]

/-- In-place update of the value stored under `key`. -/
def modify {α : Type} (obj : JSObject α) (key : String) (f : α → α) : JSObject α :=
  obj.map (fun e => if e.1 = key then (e.1, f e.2) else e)

end JSObject

/-! ## Calendar primitives (`Date`) -/

/-- Milliseconds in 24 hours. -/
def dayMs : Int := 24 * 60 * 60 * 1000

/-- Days from 1970-01-01 to the date `y-m-d` of the proleptic Gregorian calendar. -/
def daysFromCivil (y m d : Int) : Int :=
  let y := if m ≤ 2 then y - 1 else y
  let era := y / 400
  let yoe := y - era * 400
  let mp := if m > 2 then m - 3 else m + 9
  let doy := (153 * mp + 2) / 5 + d - 1
  let doe := yoe * 365 + yoe / 4 - yoe / 100 + doy
  era * 146097 + doe - 719468

/-- Number of days of month `m` in year `y`. -/
def daysInMonth (y m : Int) : Int :=
  if m = 2 then (if y % 4 = 0 ∧ (y % 100 ≠ 0 ∨ y % 400 = 0) then 29 else 28)
  else if m = 4 ∨ m = 6 ∨ m = 9 ∨ m = 11 then 30
  else 31

/-- The time value of `new Date(s)` for a date-only string `YYYY-MM-DD`, which is read as
midnight UTC of that date; `none` is an invalid date (time value `NaN`). Only well-formed dates
of the calendar are accepted. -/
def parseDate (s : String) : Option Int :=
  match s.toList with
  | [y1, y2, y3, y4, '-', m1, m2, '-', d1, d2] =>
    if [y1, y2, y3, y4, m1, m2, d1, d2].all Char.isDigit then
      let digit : Char → Int := fun c => (c.toNat : Int) - 48
      let y := digit y1 * 1000 + digit y2 * 100 + digit y3 * 10 + digit y4
      let m := digit m1 * 10 + digit m2
      let d := digit d1 * 10 + digit d2
      if 1 ≤ m ∧ m ≤ 12 ∧ 1 ≤ d ∧ d ≤ daysInMonth y m then some (daysFromCivil y m d * dayMs)
      else none
    else none
  | _ => none

/-- The effect of `setHours(0, 0, 0, 0)` on the time value `t`: the latest local midnight not
after `t`, for a local time that is `tz` milliseconds ahead of UTC (a fixed offset). -/
def setHoursMidnight (tz t : Int) : Int := t - (t + tz) % dayMs

/-! ## Decision agent (`AIAgent.js`) -/

namespace AIAgent

structure Config where
  fatigueThreshold : Int
  maxContinuousHours : Int
  optimalRebootInterval : Int
  lowRecoveryThreshold : Int

def config : Config :=
  { fatigueThreshold := 7
    maxContinuousHours := 4
    optimalRebootInterval := 180
    lowRecoveryThreshold := 4 }

inductive FatiguePattern where
  | insufficient_data
  | declining
  | chronic
  | normal
  deriving DecidableEq

inductive Action where
  | none
  | reboot_now
  | reboot_soon
  | take_break
  | change_method
  deriving DecidableEq

/-- An entry of `typeStats`. -/
structure TypeStat where
  count : Nat
  totalRecovery : Int
  avgRecovery : ℚ
  deriving DecidableEq

/-- The result of `findBestRebootType`; `avgRecovery` is the `toFixed(1)` string. -/
structure BestType where
  type : String
  avgRecovery : String
  deriving DecidableEq

structure Analysis where
  timeSinceLastReboot : ℚ
  avgRecovery : ℚ
  fatiguePattern : FatiguePattern
  bestRebootType : Option BestType
  estimatedFatigue : ℚ
  recentRebootCount : Nat
  weeklyRebootCount : Nat
  deriving DecidableEq

structure Decision where
  shouldAlert : Bool
  confidence : Int
  message : String
  action : Action
  analysis : Option Analysis
  deriving DecidableEq

def detectFatiguePattern (recentLogs : List LogEntry) : FatiguePattern :=
  if recentLogs.length < 3 then FatiguePattern.insufficient_data
  else
    let recoveryTrend := (recentLogs.take 3).map (fun log => log.postRecovery)
    let isDecreasing :=
      jsLt recoveryTrend[0]? recoveryTrend[1]? && jsLt recoveryTrend[1]? recoveryTrend[2]?
    if isDecreasing then FatiguePattern.declining
    else
      let highFatigueCount :=
        (recentLogs.filter (fun log => decide (log.preFatigue ≥ config.fatigueThreshold))).length
      if (highFatigueCount : ℚ) ≥ (recentLogs.length : ℚ) * (7 / 10) then FatiguePattern.chronic
      else FatiguePattern.normal

/-- One step of the `logs.forEach` loop of `findBestRebootType`. -/
def recordLog (typeStats : JSObject TypeStat) (log : LogEntry) : JSObject TypeStat :=
  let typeStats :=
    if typeStats.has log.type then typeStats
    else typeStats.add log.type { count := 0, totalRecovery := 0, avgRecovery := 0 }
  typeStats.modify log.type
    (fun s => { s with count := s.count + 1, totalRecovery := s.totalRecovery + log.postRecovery })

def findBestRebootType (logs : List LogEntry) : Option BestType :=
  if logs.length < 5 then none
  else
    let typeStats := logs.foldl recordLog []
    let typeStats :=
      typeStats.map (fun e => (e.1, { e.2 with avgRecovery := (e.2.totalRecovery : ℚ) / e.2.count }))
    let bestType :=
      (jsSort (fun a b => b.2.avgRecovery - a.2.avgRecovery) typeStats)[0]?
    match bestType with
    | some b => some { type := b.1, avgRecovery := toFixed1 b.2.avgRecovery }
    | none => none

def estimateCurrentFatigue (logs : List LogEntry) (timeSinceLastReboot : ℚ) : ℚ :=
  match logs with
  | [] => 5
  | lastLog :: _ =>
    let baselineFatigue : ℚ := lastLog.preFatigue - (lastLog.postRecovery - lastLog.preFatigue)
    let fatigueAccumulation := min ((timeSinceLastReboot / 60) * (1 / 2)) 5
    min (max (baselineFatigue + fatigueAccumulation) 1) 10

/-- The analysis of a non-empty log list `lastReboot :: older`; `analyzeAndDecide` calls it
only with such a list, so `logs[0]` is `lastReboot`. -/
def performDeepAnalysis (lastReboot : LogEntry) (older : List LogEntry) (now : Int) : Analysis :=
  let logs := lastReboot :: older
  let recentLogs := logs.filter (fun log => decide (now - log.timestamp < 24 * 60 * 60 * 1000))
  let timeSinceLastReboot : ℚ := ((now - lastReboot.timestamp : Int) : ℚ) / (60 * 1000)
  let weekLogs := logs.filter (fun log => decide (now - log.timestamp < 7 * 24 * 60 * 60 * 1000))
  let avgRecovery : ℚ :=
    if weekLogs.length > 0 then
      ((weekLogs.foldl (fun sum log => sum + log.postRecovery) (0 : Int) : Int) : ℚ) / weekLogs.length
    else 5
  let fatiguePattern := detectFatiguePattern recentLogs
  let bestRebootType := findBestRebootType logs
  let estimatedFatigue := estimateCurrentFatigue logs timeSinceLastReboot
  { timeSinceLastReboot := timeSinceLastReboot
    avgRecovery := avgRecovery
    fatiguePattern := fatiguePattern
    bestRebootType := bestRebootType
    estimatedFatigue := estimatedFatigue
    recentRebootCount := recentLogs.length
    weeklyRebootCount := weekLogs.length }

def getRebootTypeEmoji (type : String) : String :=
  if type = "spa" then "♨️"
  else if type = "sleep" then "😴"
  else if type = "cycling" then "🚴"
  else if type = "meditation" then "🧘"
  else "🔄"

def getRebootTypeName (type : String) : String :=
  if type = "spa" then "スパ・サウナ"
  else if type = "sleep" then "仮眠"
  else if type = "cycling" then "サイクリング"
  else if type = "meditation" then "瞑想"
  else type

/-- The four mutable locals of `makeDecision`. -/
structure Verdict where
  shouldAlert : Bool
  message : String
  action : Action
  confidence : ℚ

/-- Rule 1 of `makeDecision`: no reboot for a long time. -/
def ruleLongGap (a : Analysis) (v : Verdict) : Verdict :=
  if a.timeSinceLastReboot > config.optimalRebootInterval then
    let message :=
      "⚠️ 前回のリブートから" ++ toString (mathFloor (a.timeSinceLastReboot / 60)) ++ "時間"
        ++ toString (mathFloor (jsRem a.timeSinceLastReboot 60)) ++ "分が経過しています。"
    let message :=
      match a.bestRebootType with
      | some best =>
        message ++ "\n💡 おすすめ: " ++ getRebootTypeEmoji best.type ++ " "
          ++ getRebootTypeName best.type ++ "（平均回復度: " ++ best.avgRecovery ++ "）"
      | none => message
    { shouldAlert := true
      confidence := min (70 + (a.timeSinceLastReboot - config.optimalRebootInterval) / 10) 95
      action := Action.reboot_now
      message := message }
  else v

/-- Rule 2 of `makeDecision`: chronic fatigue pattern. -/
def ruleChronic (a : Analysis) (v : Verdict) : Verdict :=
  if a.fatiguePattern = FatiguePattern.chronic then
    { shouldAlert := true
      confidence := 85
      action := Action.take_break
      message := "🚨 慢性的な疲労パターンを検知しました。本格的な休息が必要です。" }
  else v

/-- Rule 3 of `makeDecision`: declining recovery. -/
def ruleDeclining (a : Analysis) (v : Verdict) : Verdict :=
  if a.fatiguePattern = FatiguePattern.declining ∧ a.avgRecovery < config.lowRecoveryThreshold then
    { shouldAlert := true
      confidence := 75
      action := Action.change_method
      message := "📉 リブート効果が低下しています。別のリブート手法を試してみましょう。" }
  else v

/-- Rule 4 of `makeDecision`: high estimated fatigue, only when nothing alerted yet. -/
def ruleEstimated (a : Analysis) (v : Verdict) : Verdict :=
  if a.estimatedFatigue ≥ config.fatigueThreshold ∧ v.shouldAlert = false then
    { shouldAlert := true
      confidence := 65
      action := Action.reboot_soon
      message :=
        "💭 現在の推定疲労度: " ++ toFixed1 a.estimatedFatigue
          ++ "/10\nそろそろリブートのタイミングです。" }
  else v

def makeDecision (analysis : Analysis) : Decision :=
  let v : Verdict := { shouldAlert := false, message := "", action := Action.none, confidence := 0 }
  let v := ruleLongGap analysis v
  let v := ruleChronic analysis v
  let v := ruleDeclining analysis v
  let v := ruleEstimated analysis v
  { shouldAlert := v.shouldAlert
    confidence := mathRound v.confidence
    message := v.message
    action := v.action
    analysis := some analysis }

def analyzeAndDecide (logs : Option (List LogEntry)) (now : Int) : Decision :=
  match logs with
  | none | some [] =>
    { shouldAlert := false, confidence := 0, message := "", action := Action.none, analysis := none }
  | some (lastReboot :: older) => makeDecision (performDeepAnalysis lastReboot older now)

end AIAgent

/-! ## Analytics engine (`AnalyticsService.js`) -/

namespace AnalyticsService

/-- An entry of `typeRecovery`. -/
structure TypeRecovery where
  total : Int
  count : Nat
  deriving DecidableEq

/-- An element of the array that `calculateStats` sorts. -/
structure TypeAverage where
  type : String
  avg : ℚ
  deriving DecidableEq

structure Stats where
  totalReboots : Nat
  avgRecovery : JSValue
  bestReboot : Option String
  streakDays : Nat
  totalMinutes : Int
  avgDuration : Int
  deriving DecidableEq

structure Health where
  score : Int
  focus : Int
  fatigue : Int
  recovery : Int
  deriving DecidableEq

/-- The `for` loop of `calculateStreak` over the remaining dates. -/
def streakLoop (currentDate tz : Int) : List String → Nat → Nat
  | [], streak => streak
  | dateStr :: rest, streak =>
    match parseDate dateStr with
    | none => streak
    | some t =>
      let logDate := setHoursMidnight tz t
      let diffDays := (currentDate - logDate) / dayMs
      if diffDays = (streak : Int) then streakLoop currentDate tz rest (streak + 1) else streak

def calculateStreak (logs : List LogEntry) (now tz : Int) : Nat :=
  if logs.length = 0 then 0
  else
    let dates :=
      (((logs.map (fun log => log.date)).eraseDups).insertionSort (fun a b => a ≤ b)).reverse
    let currentDate := setHoursMidnight tz now
    streakLoop currentDate tz dates 0

/-- One step of the `logs.forEach` loop of `calculateStats`. -/
def recordRecovery (typeRecovery : JSObject TypeRecovery) (log : LogEntry) :
    JSObject TypeRecovery :=
  let typeRecovery :=
    if typeRecovery.has log.type then typeRecovery
    else typeRecovery.add log.type { total := 0, count := 0 }
  typeRecovery.modify log.type
    (fun data => { total := data.total + log.postRecovery, count := data.count + 1 })

def calculateStats (logs : Option (List LogEntry)) (now tz : Int) : Stats :=
  match logs with
  | none | some [] =>
    { totalReboots := 0, avgRecovery := JSValue.number 0, bestReboot := none, streakDays := 0,
      totalMinutes := 0, avgDuration := 0 }
  | some (first :: rest) =>
    let logs := first :: rest
    let totalReboots := logs.length
    let avgRecovery : ℚ :=
      ((logs.foldl (fun sum log => sum + log.postRecovery) (0 : Int) : Int) : ℚ) / totalReboots
    -- `parseInt(log.duration)` of a stored integer is that integer
    let totalMinutes : Int := logs.foldl (fun sum log => sum + log.duration) 0
    let avgDuration : ℚ := (totalMinutes : ℚ) / totalReboots
    let typeRecovery := logs.foldl recordRecovery []
    let bestReboot :=
      (jsSort (fun a b => b.avg - a.avg)
        (typeRecovery.map
          (fun e => ({ type := e.1, avg := (e.2.total : ℚ) / e.2.count } : TypeAverage))))[0]?
    let streakDays := calculateStreak logs now tz
    { totalReboots := totalReboots
      avgRecovery := JSValue.string (toFixed1 avgRecovery)
      bestReboot := bestReboot.map (fun b => b.type)
      streakDays := streakDays
      totalMinutes := totalMinutes
      avgDuration := mathRound avgDuration }

def getCurrentHealth (logs : Option (List LogEntry)) (now : Int) : Health :=
  match logs with
  | none | some [] => { score := 50, focus := 50, fatigue := 50, recovery := 50 }
  | some (lastLog :: rest) =>
    let logs := lastLog :: rest
    let recentLogs := logs.filter (fun log => decide (now - log.timestamp < 24 * 60 * 60 * 1000))
    if recentLogs.length = 0 then { score := 50, focus := 50, fatigue := 70, recovery := 30 }
    else
      let timeSinceLastReboot : ℚ :=
        toDouble (((now - lastLog.timestamp : Int) : ℚ) / (60 * 60 * 1000))
      let baseRecovery : ℚ := (lastLog.postRecovery : ℚ) * 10
      let timePenalty := min (toDouble (timeSinceLastReboot * 5)) 30
      let recovery := max (toDouble (baseRecovery - timePenalty)) 0
      let fatigue := min (toDouble (toDouble (100 - recovery) + 20)) 100
      let focus := max (toDouble (recovery - 10)) 0
      let score : Int :=
        mathRound (toDouble (toDouble (toDouble (recovery * (1 / 2))
          + toDouble (focus * toDouble (3 / 10)))
          + toDouble (toDouble (100 - fatigue) * toDouble (1 / 5))))
      { score := mathRound (score : ℚ)
        focus := mathRound focus
        fatigue := mathRound fatigue
        recovery := mathRound recovery }

end AnalyticsService

/-! ## Vocabulary of the statements -/

/-- The logs whose age at `now` is below `window` milliseconds, in their original order. -/
def logsWithin (window : Int) (logs : List LogEntry) (now : Int) : List LogEntry :=
  logs.filter (fun log => decide (now - log.timestamp < window))

/-- Minutes between `now` and the instant `ts`. -/
def minutesSince (now ts : Int) : ℚ := ((now - ts : Int) : ℚ) / 60000

/-- Arithmetic mean of `postRecovery` over a list of logs. -/
def meanRecovery (logs : List LogEntry) : ℚ :=
  (((logs.map (fun log => log.postRecovery)).sum : Int) : ℚ) / (logs.length : ℚ)

/-- Hours between `now` and the instant `ts`. -/
def hoursSince (now ts : Int) : ℚ := ((now - ts : Int) : ℚ) / 3600000

/-- The unrounded recovery of the health formula, `h` hours after a log with the given
`postRecovery`. -/
def rawRecovery (postRecovery : Int) (h : ℚ) : ℚ :=
  max ((postRecovery : ℚ) * 10 - min (5 * h) 30) 0

/-- The unrounded fatigue of the health formula for the unrounded recovery `r`. -/
def rawFatigue (r : ℚ) : ℚ := min (100 - r + 20) 100

/-- The unrounded focus of the health formula for the unrounded recovery `r`. -/
def rawFocus (r : ℚ) : ℚ := max (r - 10) 0

/-- The fixed tuple returned for a stale history. -/
def staleHealth : AnalyticsService.Health :=
  { score := 50, focus := 50, fatigue := 70, recovery := 30 }

/-- The health snapshot of the formula, `h` hours after a log with the given `postRecovery`:
every component is rounded from the unrounded values. -/
def formulaHealth (postRecovery : Int) (h : ℚ) : AnalyticsService.Health :=
  { score := mathRound ((1 / 2) * rawRecovery postRecovery h
      + (3 / 10) * rawFocus (rawRecovery postRecovery h)
      + (1 / 5) * (100 - rawFatigue (rawRecovery postRecovery h)))
    focus := mathRound (rawFocus (rawRecovery postRecovery h))
    fatigue := mathRound (rawFatigue (rawRecovery postRecovery h))
    recovery := mathRound (rawRecovery postRecovery h) }

/-- The unrounded recovery of the health formula evaluated in double arithmetic, `age`
milliseconds after a log with the given `postRecovery`: every operation is rounded to a
Number. -/
def doubleRecovery (postRecovery age : Int) : ℚ :=
  max (toDouble ((postRecovery : ℚ) * 10
    - min (toDouble (toDouble ((age : ℚ) / 3600000) * 5)) 30)) 0

/-- The unrounded fatigue of the health formula in double arithmetic, for the unrounded
recovery `r`. -/
def doubleFatigue (r : ℚ) : ℚ := min (toDouble (toDouble (100 - r) + 20)) 100

/-- The unrounded focus of the health formula in double arithmetic, for the unrounded
recovery `r`. -/
def doubleFocus (r : ℚ) : ℚ := max (toDouble (r - 10)) 0

/-- The unrounded score of the health formula in double arithmetic, for the unrounded
recovery `r`: the three products are rounded, then the two sums, from left to right. -/
def doubleScore (r : ℚ) : ℚ :=
  toDouble (toDouble (toDouble (r * (1 / 2)) + toDouble (doubleFocus r * toDouble (3 / 10)))
    + toDouble (toDouble (100 - doubleFatigue r) * toDouble (1 / 5)))

/-- The health snapshot of the formula in double arithmetic: every component is rounded to an
integer from its unrounded Number. -/
def doubleHealth (postRecovery age : Int) : AnalyticsService.Health :=
  { score := mathRound (doubleScore (doubleRecovery postRecovery age))
    focus := mathRound (doubleFocus (doubleRecovery postRecovery age))
    fatigue := mathRound (doubleFatigue (doubleRecovery postRecovery age))
    recovery := mathRound (doubleRecovery postRecovery age) }

/-- The logs of reboot type `t`. -/
def logsOfType (logs : List LogEntry) (t : String) : List LogEntry :=
  logs.filter (fun log => decide (log.type = t))

/-- Mean `postRecovery` of the logs of type `t`. -/
def typeMean (logs : List LogEntry) (t : String) : ℚ := meanRecovery (logsOfType logs t)

/-- The reboot types of a history in the order in which they are first seen. -/
def firstSeenTypes (logs : List LogEntry) : List String :=
  logs.foldl (fun seen log => if log.type ∈ seen then seen else seen ++ [log.type]) []

/-- A log list is sorted newest first: timestamps never increase along the list. -/
def SortedNewestFirst (logs : List LogEntry) : Prop :=
  logs.Pairwise (fun a b => b.timestamp ≤ a.timestamp)

/-- A log with the given timestamp, type and scores. -/
def mkLog (ts : Int) (ty : String) (pre post : Int) : LogEntry :=
  { id := ts, timestamp := ts, date := "", duration := 0, type := ty,
    preFatigue := pre, postRecovery := post }

/-- The `postRecovery` of the `i`-th log of a list (0 when there is none). -/
def recoveryAt (L : List LogEntry) (i : Nat) : Int :=
  ((L.map (fun log => log.postRecovery))[i]?).getD 0

/-- The fatigue pattern in the words of the specification: fewer than three logs, then a strict
rise of recovery over the three most recent logs (most recent first), then at least 70% of the
logs with `preFatigue` at least 7. -/
def fatiguePatternSpec (L : List LogEntry) : AIAgent.FatiguePattern :=
  if L.length < 3 then AIAgent.FatiguePattern.insufficient_data
  else if recoveryAt L 0 < recoveryAt L 1 ∧ recoveryAt L 1 < recoveryAt L 2 then
    AIAgent.FatiguePattern.declining
  else if 70 * L.length ≤ 100 * L.countP (fun log => decide (7 ≤ log.preFatigue)) then
    AIAgent.FatiguePattern.chronic
  else AIAgent.FatiguePattern.normal

/-! ### Sample histories -/

/-- Three logs of the last three hours, all entered with high fatigue. -/
def chronicLogs : List LogEntry :=
  [mkLog 0 "spa" 8 5, mkLog (-3600000) "sleep" 8 5, mkLog (-7200000) "spa" 9 5]

/-- Recoveries 3, 5, 7 (most recent first) in the last hours and three poor logs two days
before: the weekly mean is 3. -/
def decliningLogs : List LogEntry :=
  [mkLog 0 "spa" 5 3, mkLog (-3600000) "spa" 5 5, mkLog (-7200000) "spa" 5 7,
   mkLog (-172800000) "sleep" 5 1, mkLog (-172800001) "sleep" 5 1, mkLog (-172800002) "sleep" 5 1]

/-- Recoveries 8, 6, 4 for the types spa, spa, sleep. -/
def spaSleepLogs : List LogEntry :=
  [mkLog 0 "spa" 5 8, mkLog (-3600000) "spa" 5 6, mkLog (-7200000) "sleep" 5 4]


/-! ## Number parsing (`parseFloat`) -/

/-- Value of a run of decimal digits. -/
def digitsValue (cs : List Char) : Nat :=
  cs.foldl (fun acc c => acc * 10 + (c.toNat - 48)) 0

/-- The function `parseFloat` on a string: an optional sign, digits and an optional fraction are
read from the start of the string and the rest is ignored; `none` is `NaN`. Leading blanks,
exponents and the word `Infinity` are not read (the strings this program parses are results of
`toFixed`). -/
def parseFloatString (s : String) : Option ℚ :=
  let cs := s.toList
  let negative : Bool := cs.head? = some '-'
  let cs := if negative ∨ cs.head? = some '+' then cs.tail else cs
  let intDigits := cs.takeWhile Char.isDigit
  let fracDigits :=
    match cs.dropWhile Char.isDigit with
    | '.' :: more => more.takeWhile Char.isDigit
    | _ => []
  if intDigits = [] ∧ fracDigits = [] then none
  else
    let magnitude : ℚ :=
      (digitsValue intDigits : ℚ) + (digitsValue fracDigits : ℚ) / 10 ^ fracDigits.length
    some (if negative then -magnitude else magnitude)

/-- The function `parseFloat` on a statistics value: a number is read back from its own text. -/
def parseFloat (v : JSValue) : Option ℚ :=
  match v with
  | JSValue.number x => some x
  | JSValue.string s => parseFloatString s

/-- The value of `x` rounded to one decimal, a tie going away from zero. -/
def roundToTenth (x : ℚ) : ℚ :=
  (if x < 0 then -1 else 1) * ((⌊|x| * 10 + 1 / 2⌋.toNat : ℚ) / 10)

/-! ## Failure -/

/-- An exception thrown by the program. -/
inductive JSError where
  | typeError
  | rangeError
  | constraintError
  deriving DecidableEq

/-! ## Objects keyed by array indices -/

namespace JSObject

/-- The assignment `obj[k] = v` on an object whose keys are array indices (hours of the day):
such keys are enumerated in ascending numeric order, whatever the order of insertion. -/
def setIndex {α : Type} (obj : List (Nat × α)) (k : Nat) (v : α) : List (Nat × α) :=
  match obj with
  | [] => [(k, v)]
  | e :: rest =>
    if k < e.1 then (k, v) :: e :: rest
    else if k = e.1 then (k, v) :: rest
    else e :: setIndex rest k v

/-- The read `obj[k]`; `none` is `undefined`. -/
def getIndex {α : Type} (obj : List (Nat × α)) (k : Nat) : Option α :=
  (obj.find? (fun e => e.1 == k)).map (fun e => e.2)

end JSObject

/-! ## Analytics engine: insights -/

namespace AnalyticsService

inductive Priority where
  | high
  | medium
  | low
  deriving DecidableEq

structure Insight where
  icon : String
  text : String
  priority : Priority
  deriving DecidableEq

/-- The table `priority` of the comparator that sorts the insights. -/
def priorityWeight : Priority → Int
  | Priority.high => 3
  | Priority.medium => 2
  | Priority.low => 1

/-- The text of `typeEmoji[type]` inside a template. -/
def typeEmojiText (type : String) : String :=
  if type = "spa" then "♨️"
  else if type = "sleep" then "😴"
  else if type = "cycling" then "🚴"
  else if type = "meditation" then "🧘"
  else "undefined"

/-- The text of `typeName[type]` inside a template. -/
def typeNameText (type : String) : String :=
  if type = "spa" then "スパ・サウナ"
  else if type = "sleep" then "仮眠"
  else if type = "cycling" then "サイクリング"
  else if type = "meditation" then "瞑想"
  else "undefined"

/-- The text of a statistics value inside a template; the numbers this field holds are
integers. -/
def valueText (v : JSValue) : String :=
  match v with
  | JSValue.number x => toString (mathFloor x)
  | JSValue.string s => s

/-- The local hour of the day of `new Date(timestamp).getHours()`. -/
def getHours (tz timestamp : Int) : Nat :=
  (((timestamp + tz) % dayMs) / 3600000).toNat

/-- One step of the `hours.forEach` loop of `analyzeTimePatterns`. -/
def countHour (hourCounts : List (Nat × Nat)) (hour : Nat) : List (Nat × Nat) :=
  JSObject.setIndex hourCounts hour ((JSObject.getIndex hourCounts hour).getD 0 + 1)

/-- The label of the period of the day of an hour. -/
def timeLabel (mostCommonHour : Nat) : String :=
  if mostCommonHour < 12 then "午前"
  else if mostCommonHour < 18 then "午後"
  else "夜"

/-- The result is `none` for `null`; reading `[0][0]` of an empty table is a `TypeError`. -/
def analyzeTimePatterns (logs : List LogEntry) (tz : Int) : Except JSError (Option String) :=
  if logs.length < 10 then Except.ok none
  else
    let hours := logs.map (fun log => getHours tz log.timestamp)
    let hourCounts := hours.foldl countHour []
    match (jsSort (fun a b => ((b.2 : ℚ) - (a.2 : ℚ))) hourCounts)[0]? with
    | none => Except.error JSError.typeError
    | some top =>
      let mostCommonHour := top.1
      Except.ok (some ("最もリブートが多いのは" ++ timeLabel mostCommonHour
        ++ toString mostCommonHour ++ "時台です"))

/-- Insight 1 of `generateInsights`: the most effective reboot type. -/
def bestTypeInsight (stats : Stats) : List Insight :=
  match stats.bestReboot with
  | some best =>
    if best ≠ "" then
      [{ icon := "🏆"
         text := "あなたに最も効果的なのは" ++ typeEmojiText best ++ typeNameText best ++ "です"
         priority := Priority.high }]
    else []
  | none => []

/-- Insight 2 of `generateInsights`: the reboot frequency of the week, for the number of logs
of the trailing 7 days. -/
def frequencyInsight (recentCount : Nat) : Insight :=
  if recentCount < 7 then
    { icon := "⚠️"
      text := "今週のリブート回数は" ++ toString recentCount ++ "回。理想は週7回以上です"
      priority := Priority.medium }
  else
    { icon := "✨"
      text := "素晴らしい！今週は" ++ toString recentCount ++ "回のリブートを実施"
      priority := Priority.low }

/-- Insight 3 of `generateInsights`: the average recovery, read back from the statistics. -/
def recoveryInsight (stats : Stats) : List Insight :=
  match parseFloat stats.avgRecovery with
  | none => []
  | some avg =>
    if avg < 5 then
      [{ icon := "📉"
         text := "リブートの効果が低下しています。方法を見直しましょう"
         priority := Priority.high }]
    else if avg ≥ 7 then
      [{ icon := "🎯"
         text := "平均回復度" ++ valueText stats.avgRecovery ++ "点！最適化が成功しています"
         priority := Priority.low }]
    else []

/-- Insight 4 of `generateInsights`: the streak. -/
def streakInsight (stats : Stats) : List Insight :=
  if stats.streakDays ≥ 7 then
    [{ icon := "🔥"
       text := toString stats.streakDays ++ "日連続記録中！習慣化できています"
       priority := Priority.low }]
  else []

/-- Insight 5 of `generateInsights`: the time pattern. -/
def timeInsight (timeAnalysis : Option String) : List Insight :=
  match timeAnalysis with
  | some text =>
    if text ≠ "" then [{ icon := "⏰", text := text, priority := Priority.medium }] else []
  | none => []

/-- The array `insights` of `generateInsights` for a non-empty history, before it is sorted. -/
def collectInsights (logs : List LogEntry) (now tz : Int) : Except JSError (List Insight) :=
  let stats := calculateStats (some logs) now tz
  let recentLogs :=
    logs.filter (fun log => decide (now - log.timestamp < 7 * 24 * 60 * 60 * 1000))
  match analyzeTimePatterns logs tz with
  | Except.error e => Except.error e
  | Except.ok timeAnalysis =>
    Except.ok (bestTypeInsight stats ++ [frequencyInsight recentLogs.length]
      ++ recoveryInsight stats ++ streakInsight stats ++ timeInsight timeAnalysis)

def generateInsights (logs : Option (List LogEntry)) (now tz : Int) :
    Except JSError (List Insight) :=
  match logs with
  | none | some [] =>
    Except.ok [{ icon := "💡", text := "データを記録するとインサイトが表示されます",
                 priority := Priority.low }]
  | some (first :: rest) =>
    match collectInsights (first :: rest) now tz with
    | Except.error e => Except.error e
    | Except.ok insights =>
      Except.ok (jsSort
        (fun a b => ((priorityWeight b.priority - priorityWeight a.priority : Int) : ℚ)) insights)

end AnalyticsService

/-! ## Analytics engine of the standalone bundle (`app-bundle.js`) -/

namespace Bundle

/-- The statistics object of the bundle: it has no duration fields. -/
structure Stats where
  totalReboots : Nat
  avgRecovery : JSValue
  bestReboot : Option String
  streakDays : Nat
  deriving DecidableEq

/-- The bundle repeats `calculateStats` of the service, `calculateStreak` included, without the
duration statistics. -/
def calculateStats (logs : Option (List LogEntry)) (now tz : Int) : Stats :=
  match logs with
  | none | some [] =>
    { totalReboots := 0, avgRecovery := JSValue.number 0, bestReboot := none, streakDays := 0 }
  | some (first :: rest) =>
    let logs := first :: rest
    let totalReboots := logs.length
    let avgRecovery : ℚ :=
      ((logs.foldl (fun sum log => sum + log.postRecovery) (0 : Int) : Int) : ℚ) / totalReboots
    let typeRecovery := logs.foldl AnalyticsService.recordRecovery []
    let bestReboot :=
      (jsSort (fun a b => b.avg - a.avg)
        (typeRecovery.map
          (fun e => ({ type := e.1, avg := (e.2.total : ℚ) / e.2.count } :
            AnalyticsService.TypeAverage))))[0]?
    let streakDays := AnalyticsService.calculateStreak logs now tz
    { totalReboots := totalReboots
      avgRecovery := JSValue.string (toFixed1 avgRecovery)
      bestReboot := bestReboot.map (fun b => b.type)
      streakDays := streakDays }

end Bundle

/-! ## Log store (`DataService.js`) -/

namespace DataService

/-- The state of the service: `db` is `null` until `init` has run; afterwards it holds the
records of the object store `logs`, in the order in which the engine scans them (ascending key
`id`). Failures of the storage engine other than a key conflict are not modelled. -/
structure State where
  db : Option (List LogEntry)
  deriving DecidableEq

/-- The promise of `getAllLogs`: `Except.error` is a rejection. -/
def getAllLogs (s : State) : Except JSError (List LogEntry) :=
  match s.db with
  | none => Except.error JSError.typeError
  | some records =>
    Except.ok (jsSort (fun a b => ((b.timestamp - a.timestamp : Int) : ℚ)) records)

end DataService

/-- The records of an object store are in key order: ids ascend strictly. -/
def KeyOrdered (records : List LogEntry) : Prop :=
  records.Pairwise (fun a b => a.id < b.id)

/-- A log with a given id, timestamp and date. -/
def mkEntry (id ts : Int) (date : String) : LogEntry :=
  { id := id, timestamp := ts, date := date, duration := 30, type := "spa",
    preFatigue := 5, postRecovery := 7 }

/-- Five logs of three types: spa and cycling both have mean 7, sleep has mean 6.5. -/
def fiveLogs : List LogEntry :=
  [mkLog 0 "spa" 5 8, mkLog (-3600000) "spa" 5 6, mkLog (-7200000) "sleep" 5 4,
   mkLog (-10800000) "sleep" 5 9, mkLog (-14400000) "cycling" 5 7]

/-- The keys of an object keyed by array indices ascend strictly. -/
def AscendingKeys {α : Type} (obj : List (Nat × α)) : Prop :=
  obj.Pairwise (fun a b => a.1 < b.1)

/-- The local hours of the day of the logs of a history. -/
def hoursOf (logs : List LogEntry) (tz : Int) : List Nat :=
  logs.map (fun log => AnalyticsService.getHours tz log.timestamp)

/-- The key by which `generateInsights` sorts: the weight of the priority. -/
def priorityKey (i : AnalyticsService.Insight) : ℚ :=
  ((AnalyticsService.priorityWeight i.priority : Int) : ℚ)

/-- The insights of a non-empty history in the order in which `generateInsights` produces them,
for the result `timeAnalysis` of `analyzeTimePatterns`: best type, weekly frequency, average
recovery, streak, peak hour. -/
def generatedInsights (logs : List LogEntry) (now tz : Int) (timeAnalysis : Option String) :
    List AnalyticsService.Insight :=
  AnalyticsService.bestTypeInsight (AnalyticsService.calculateStats (some logs) now tz)
    ++ [AnalyticsService.frequencyInsight (logsWithin (7 * dayMs) logs now).length]
    ++ AnalyticsService.recoveryInsight (AnalyticsService.calculateStats (some logs) now tz)
    ++ AnalyticsService.streakInsight (AnalyticsService.calculateStats (some logs) now tz)
    ++ AnalyticsService.timeInsight timeAnalysis

instance {α : Type} [DecidableEq α] : DecidableEq (Except JSError α) := fun a b =>
  match a, b with
  | Except.ok x, Except.ok y =>
    if h : x = y then isTrue (by rw [h]) else isFalse (fun h2 => by cases h2; exact h rfl)
  | Except.error x, Except.error y =>
    if h : x = y then isTrue (by rw [h]) else isFalse (fun h2 => by cases h2; exact h rfl)
  | Except.ok _, Except.error _ => isFalse (fun h2 => by cases h2)
  | Except.error _, Except.ok _ => isFalse (fun h2 => by cases h2)

/-- The placeholder insight of an empty history. -/
def placeholderInsight : AnalyticsService.Insight :=
  { icon := "💡", text := "データを記録するとインサイトが表示されます",
    priority := AnalyticsService.Priority.low }

/-- Twenty logs of recovery 5 and one of recovery 4: the mean is 104/21, about 4.952. -/
def nearFiveLogs : List LogEntry :=
  List.replicate 20 (mkLog 0 "spa" 5 5) ++ [mkLog 0 "spa" 5 4]

/-- Twelve logs of recovery 8 taken at 09:00 UTC. -/
def twelveLogs : List LogEntry :=
  List.replicate 12 (mkLog 32400000 "spa" 5 8)

/-- Noon UTC of 2026-11-06, the "now" of the streak examples. -/
def streakNow : Int := 1793966400000

/-- Logs dated today, yesterday and three days ago for `streakNow`. -/
def streakLogs : List LogEntry :=
  [mkEntry 3 1793962800000 "2026-11-06", mkEntry 2 1793876400000 "2026-11-05",
   mkEntry 1 1793703600000 "2026-11-03"]

/-- Logs dated tomorrow, today and yesterday for `streakNow`. -/
def futureDatedLogs : List LogEntry :=
  [mkEntry 3 1794049200000 "2026-11-07", mkEntry 2 1793962800000 "2026-11-06",
   mkEntry 1 1793876400000 "2026-11-05"]

/-- The decimal value of a digit character. -/
def digitOf (c : Char) : Int := (c.toNat : Int) - 48

/-- The day number (days since 1970-01-01) of a date string, when it is a date. -/
def dayOfDate (s : String) : Option Int :=
  (parseDate s).map (fun t => t / dayMs)

/-- The local day number of the instant `now`, for a local time `tz` milliseconds ahead of
UTC. -/
def localDay (now tz : Int) : Int := (now + tz) / dayMs

/-- Some log of the history is dated on the day with number `day`. -/
def DayHasLog (logs : List LogEntry) (day : Int) : Prop :=
  ∃ log ∈ logs, dayOfDate log.date = some day

/-! ## Vocabulary of the decision rules -/

/-- The locals of `makeDecision` before any rule has run: no alert. -/
def noAlert : AIAgent.Verdict :=
  { shouldAlert := false, message := "", action := AIAgent.Action.none, confidence := 0 }

/-- The rules read as first match wins, in the order R3, R2, R1, R4, in the words of the
specification: the verdict is what the first rule whose condition holds assigns on its own, and
the no-alert default when no condition holds. -/
def firstMatchVerdict (a : AIAgent.Analysis) : AIAgent.Verdict :=
  if a.fatiguePattern = AIAgent.FatiguePattern.declining ∧ a.avgRecovery < 4 then
    AIAgent.ruleDeclining a noAlert
  else if a.fatiguePattern = AIAgent.FatiguePattern.chronic then AIAgent.ruleChronic a noAlert
  else if a.timeSinceLastReboot > 180 then AIAgent.ruleLongGap a noAlert
  else if a.estimatedFatigue ≥ 7 then AIAgent.ruleEstimated a noAlert
  else noAlert

/-- The decision object built from a verdict: the confidence is rounded. -/
def decisionOf (a : AIAgent.Analysis) (v : AIAgent.Verdict) : AIAgent.Decision :=
  { shouldAlert := v.shouldAlert
    confidence := mathRound v.confidence
    message := v.message
    action := v.action
    analysis := some a }

/-! ## Decision agent of the standalone bundle (`app-bundle.js`) -/

namespace Bundle

/-- The analysis object of the bundle's agent: it has no fatigue pattern and no counts. -/
structure Analysis where
  timeSinceLastReboot : ℚ
  avgRecovery : ℚ
  bestRebootType : Option AIAgent.BestType
  estimatedFatigue : ℚ
  deriving DecidableEq

/-- The decision object of the bundle's agent; only the answer to an empty history carries an
`action` (the text `none`). -/
structure Decision where
  shouldAlert : Bool
  confidence : Int
  message : String
  action : Option AIAgent.Action
  deriving DecidableEq

/-- One step of the `logs.forEach` loop of the bundle's `findBestRebootType`; an entry has no
`avgRecovery` yet, which the model holds as 0. -/
def recordLog (typeStats : JSObject AIAgent.TypeStat) (log : LogEntry) :
    JSObject AIAgent.TypeStat :=
  let typeStats :=
    if typeStats.has log.type then typeStats
    else typeStats.add log.type { count := 0, totalRecovery := 0, avgRecovery := 0 }
  typeStats.modify log.type
    (fun s => { s with count := s.count + 1, totalRecovery := s.totalRecovery + log.postRecovery })

def findBestRebootType (logs : List LogEntry) : Option AIAgent.BestType :=
  if logs.length < 5 then none
  else
    let typeStats := logs.foldl recordLog []
    let typeStats :=
      typeStats.map (fun e => (e.1, { e.2 with avgRecovery := (e.2.totalRecovery : ℚ) / e.2.count }))
    let bestType :=
      (jsSort (fun a b => b.2.avgRecovery - a.2.avgRecovery) typeStats)[0]?
    match bestType with
    | some b => some { type := b.1, avgRecovery := toFixed1 b.2.avgRecovery }
    | none => none

def estimateCurrentFatigue (logs : List LogEntry) (timeSinceLastReboot : ℚ) : ℚ :=
  match logs with
  | [] => 5
  | lastLog :: _ =>
    let baselineFatigue : ℚ := lastLog.preFatigue - (lastLog.postRecovery - lastLog.preFatigue)
    let fatigueAccumulation := min ((timeSinceLastReboot / 60) * (1 / 2)) 5
    min (max (baselineFatigue + fatigueAccumulation) 1) 10

/-- The analysis of a non-empty log list `lastReboot :: older`. -/
def performDeepAnalysis (lastReboot : LogEntry) (older : List LogEntry) (now : Int) : Analysis :=
  let logs := lastReboot :: older
  let timeSinceLastReboot : ℚ := ((now - lastReboot.timestamp : Int) : ℚ) / (60 * 1000)
  let weekLogs := logs.filter (fun log => decide (now - log.timestamp < 7 * 24 * 60 * 60 * 1000))
  let avgRecovery : ℚ :=
    if weekLogs.length > 0 then
      ((weekLogs.foldl (fun sum log => sum + log.postRecovery) (0 : Int) : Int) : ℚ) / weekLogs.length
    else 5
  let bestRebootType := findBestRebootType logs
  let estimatedFatigue := estimateCurrentFatigue logs timeSinceLastReboot
  { timeSinceLastReboot := timeSinceLastReboot
    avgRecovery := avgRecovery
    bestRebootType := bestRebootType
    estimatedFatigue := estimatedFatigue }

/-- The text of `typeNames[type]` inside the template of the bundle's `makeDecision`. -/
def typeNames (type : String) : String :=
  if type = "spa" then "スパ・サウナ"
  else if type = "sleep" then "仮眠"
  else if type = "cycling" then "サイクリング"
  else if type = "meditation" then "瞑想"
  else "undefined"

/-- The text of `typeEmojis[type]` inside the template of the bundle's `makeDecision`. -/
def typeEmojis (type : String) : String :=
  if type = "spa" then "♨️"
  else if type = "sleep" then "😴"
  else if type = "cycling" then "🚴"
  else if type = "meditation" then "🧘"
  else "undefined"

/-- The bundle's `makeDecision`: the long-gap rule, then the estimated-fatigue rule. -/
def makeDecision (analysis : Analysis) : Decision :=
  let shouldAlert := false
  let message := ""
  let confidence : ℚ := 0
  let (shouldAlert, confidence, message) :=
    if analysis.timeSinceLastReboot > AIAgent.config.optimalRebootInterval then
      let message :=
        "⚠️ 前回のリブートから" ++ toString (mathFloor (analysis.timeSinceLastReboot / 60)) ++ "時間"
          ++ toString (mathFloor (jsRem analysis.timeSinceLastReboot 60)) ++ "分が経過しています。"
      let message :=
        match analysis.bestRebootType with
        | some best =>
          message ++ "\n💡 おすすめ: " ++ typeEmojis best.type ++ " "
            ++ typeNames best.type ++ "（平均回復度: " ++ best.avgRecovery ++ "）"
        | none => message
      (true,
        min (70 + (analysis.timeSinceLastReboot - AIAgent.config.optimalRebootInterval) / 10) 95,
        message)
    else (shouldAlert, confidence, message)
  let (shouldAlert, confidence, message) :=
    if analysis.estimatedFatigue ≥ AIAgent.config.fatigueThreshold ∧ shouldAlert = false then
      (true, (65 : ℚ),
        "💭 現在の推定疲労度: " ++ toFixed1 analysis.estimatedFatigue
          ++ "/10\nそろそろリブートのタイミングです。")
    else (shouldAlert, confidence, message)
  { shouldAlert := shouldAlert
    confidence := mathRound confidence
    message := message
    action := none }

def analyzeAndDecide (logs : Option (List LogEntry)) (now : Int) : Decision :=
  match logs with
  | none | some [] =>
    { shouldAlert := false, confidence := 0, message := "", action := some AIAgent.Action.none }
  | some (lastReboot :: older) => makeDecision (performDeepAnalysis lastReboot older now)

end Bundle

/-- Three logs of the trailing 24 hours with `preFatigue` 7 and `postRecovery` 10: a chronic
pattern with a low estimated fatigue. -/
def restedChronicLogs : List LogEntry :=
  [mkLog 0 "spa" 7 10, mkLog (-3600000) "spa" 7 10, mkLog (-7200000) "spa" 7 10]

/-- Five logs of an unlisted reboot type, the newest 200 minutes before the instant 12000000. -/
def yogaLogs : List LogEntry :=
  [mkLog 0 "yoga" 5 6, mkLog (-90000000) "yoga" 5 6, mkLog (-90000001) "yoga" 5 6,
   mkLog (-90000002) "yoga" 5 6, mkLog (-90000003) "yoga" 5 6]

/-! ## Log store: writing -/

/-- The calendar date (year, month, day) of the day with number `z` (days since 1970-01-01),
the inverse of `daysFromCivil`: the day is located in its 400-year era, its century, its
four-year cycle and its year, the years starting on 1 March. -/
def civilFromDays (z : Int) : Int × Int × Int :=
  let z := z + 719468
  let era := z / 146097
  let doe := z - era * 146097
  let century := min (doe / 36524) 3
  let doc := doe - century * 36524
  let cycle := min (doc / 1461) 24
  let doq := doc - cycle * 1461
  let yearOfCycle := min (doq / 365) 3
  let doy := doq - yearOfCycle * 365
  let y := era * 400 + century * 100 + cycle * 4 + yearOfCycle
  let mp := (5 * doy + 2) / 153
  let d := doy - (153 * mp + 2) / 5 + 1
  let m := if mp < 10 then mp + 3 else mp - 9
  (if m ≤ 2 then y + 1 else y, m, d)

/-- The last two decimal digits of `n`. -/
def pad2 (n : Nat) : List Char :=
  [Nat.digitChar (n / 10 % 10), Nat.digitChar (n % 10)]

/-- The last four decimal digits of `n`. -/
def pad4 (n : Nat) : List Char :=
  [Nat.digitChar (n / 1000 % 10), Nat.digitChar (n / 100 % 10), Nat.digitChar (n / 10 % 10),
    Nat.digitChar (n % 10)]

/-- The text of `new Date(t).toISOString().split('T')[0]`: the UTC calendar date of the time
value `t`, the year with four digits from 0000 to 9999 and with a sign and six digits
otherwise. -/
def toISODate (t : Int) : String :=
  let date := civilFromDays (t / dayMs)
  let y := date.1
  let year :=
    if 0 ≤ y ∧ y ≤ 9999 then pad4 y.toNat
    else (if y < 0 then '-' else '+') :: (pad2 (y.natAbs / 10000) ++ pad4 y.natAbs)
  String.mk (year ++ '-' :: pad2 date.2.1.toNat ++ '-' :: pad2 date.2.2.toNat)

/-- The time value of `new Date(s)` for the value of a `datetime-local` input,
`YYYY-MM-DDTHH:mm`, which is read as local time (`tz` milliseconds ahead of UTC); `none` is an
invalid date. Other formats are outside the model. -/
def parseDateTimeLocal (tz : Int) (s : String) : Option Int :=
  match s.toList with
  | [y1, y2, y3, y4, '-', m1, m2, '-', d1, d2, 'T', h1, h2, ':', n1, n2] =>
    if [y1, y2, y3, y4, m1, m2, d1, d2, h1, h2, n1, n2].all Char.isDigit then
      let digit : Char → Int := fun c => (c.toNat : Int) - 48
      let y := digit y1 * 1000 + digit y2 * 100 + digit y3 * 10 + digit y4
      let m := digit m1 * 10 + digit m2
      let d := digit d1 * 10 + digit d2
      let hours := digit h1 * 10 + digit h2
      let minutes := digit n1 * 10 + digit n2
      if 1 ≤ m ∧ m ≤ 12 ∧ 1 ≤ d ∧ d ≤ daysInMonth y m ∧ hours ≤ 23 ∧ minutes ≤ 59 then
        some (daysFromCivil y m d * dayMs + hours * 3600000 + minutes * 60000 - tz)
      else none
    else none
  | _ => none

namespace DataService

/-- The draft that the form hands to `saveLog`; the free-text `notes`, which no other function
reads, are left out (as is `createdAt` of the stored record). -/
structure LogData where
  timestamp : String
  duration : Int
  type : String
  preFatigue : Int
  postRecovery : Int
  deriving DecidableEq

/-- The promise of `saveLog` at the instant `now`, with the state it leaves: `toISOString`
throws a `RangeError` for an invalid date, a `null` database a `TypeError`, and `store.add`
fails with a `ConstraintError` when a record with the key `id` exists; a rejection leaves the
store as it was. -/
def saveLog (s : State) (logData : LogData) (now tz : Int) : Except JSError (LogEntry × State) :=
  match parseDateTimeLocal tz logData.timestamp with
  | none => Except.error JSError.rangeError
  | some t =>
    let log : LogEntry :=
      { id := now
        timestamp := t
        date := toISODate t
        duration := logData.duration
        type := logData.type
        preFatigue := logData.preFatigue
        postRecovery := logData.postRecovery }
    match s.db with
    | none => Except.error JSError.typeError
    | some records =>
      if records.any (fun r => r.id == log.id) then Except.error JSError.constraintError
      else Except.ok (log, { db := some (records.orderedInsert (fun a b => a.id ≤ b.id) log) })

/-- The promise of `deleteLog`, with the state it leaves: `store.delete` removes the record of
the key `logId`, if there is one, and succeeds either way. -/
def deleteLog (s : State) (logId : Int) : Except JSError State :=
  match s.db with
  | none => Except.error JSError.typeError
  | some records => Except.ok { db := some (records.filter (fun r => r.id != logId)) }

end DataService

/-- A draft of the form: a spa reboot of 30 minutes at the given local time. -/
def mkDraft (timestamp : String) : DataService.LogData :=
  { timestamp := timestamp, duration := 30, type := "spa", preFatigue := 5, postRecovery := 7 }

/-- A store with one record, saved at noon UTC of 2026-11-06 under the id of that instant. -/
def storeAtNoon : DataService.State :=
  { db := some [mkEntry 1793966400000 1793962800000 "2026-11-06"] }

/-- Three records in key order. -/
def keyedRecords : List LogEntry :=
  [mkEntry 1 1793703600000 "2026-11-03", mkEntry 2 1793876400000 "2026-11-05",
   mkEntry 3 1793962800000 "2026-11-06"]

/-! ## Vocabulary of the statements about the insights: hours of the day, the trailing week -/

/-- The instant `ts` lies in hour `h` of its local day, for a local time `tz` milliseconds
ahead of UTC: at least `h` and fewer than `h + 1` full hours have passed since the local
midnight before it. -/
def InHourOfDay (tz ts : Int) (h : Nat) : Prop :=
  h < 24 ∧ localDay ts tz * dayMs + (h : Int) * 3600000 ≤ ts + tz
    ∧ ts + tz < localDay ts tz * dayMs + ((h : Int) + 1) * 3600000

instance (tz ts : Int) (h : Nat) : Decidable (InHourOfDay tz ts h) := by
  unfold InHourOfDay
  infer_instance

/-- The number of logs of a history that lie in hour `h` of their local day. -/
def logsInHour (logs : List LogEntry) (tz : Int) (h : Nat) : Nat :=
  logs.countP (fun log => decide (InHourOfDay tz log.timestamp h))

/-- The logs of the trailing 7 days at `now`: later than `now` minus 7 days and not later
than `now`. -/
def trailingWeekLogs (logs : List LogEntry) (now : Int) : List LogEntry :=
  logs.filter (fun log => decide (now - 7 * dayMs < log.timestamp ∧ log.timestamp ≤ now))

/-- Seven logs dated 365 days after the instant 0. -/
def yearAheadLogs : List LogEntry :=
  List.replicate 7 (mkLog 31536000000 "spa" 5 8)

/-- Thirteen logs of recovery 6 and seven of recovery 7: the sum is 127, the mean 6.35. -/
def tieLogs : List LogEntry :=
  List.replicate 13 (mkLog 0 "spa" 5 6) ++ List.replicate 7 (mkLog 0 "sleep" 5 7)

/-- Twenty spa logs whose recoveries sum to 127 (mean 6.35) and two sleep logs of mean 5. -/
def tieTypeLogs : List LogEntry :=
  List.replicate 13 (mkLog 0 "spa" 5 6) ++ List.replicate 7 (mkLog 0 "spa" 5 7)
    ++ [mkLog 0 "sleep" 5 4, mkLog 0 "sleep" 5 6]

/-- Twelve logs seen from a local time 9 hours ahead of UTC: seven taken at 00:30 UTC of seven
consecutive days (09:30 local), three at 05:10 UTC (14:10 local) and two at 13:00 UTC (22:00
local). -/
def nineAheadLogs : List LogEntry :=
  (List.range 7).map (fun d => mkLog ((d : Int) * 86400000 + 1800000) "spa" 5 8)
    ++ List.replicate 3 (mkLog 18600000 "sleep" 5 6)
    ++ List.replicate 2 (mkLog 46800000 "walk" 5 7)
/-! ## Facts about the primitives -/

theorem mathRound_intCast (n : Int) : mathRound (n : ℚ) = n := by
  unfold mathRound
  rw [Int.floor_eq_iff]
  constructor <;> norm_num


/-! ## Facts about double arithmetic -/

theorem roundHalfEven_near (x : ℚ) : |(roundHalfEven x : ℚ) - x| ≤ 1 / 2 := by
  have h0 : (⌊x⌋ : ℚ) ≤ x := Int.floor_le x
  have h1 : x < (⌊x⌋ : ℚ) + 1 := Int.lt_floor_add_one x
  unfold roundHalfEven
  simp only []
  rw [abs_le]
  split_ifs with a b c
  · constructor <;> linarith
  · push_cast
    constructor <;> linarith
  · constructor <;> linarith
  · push_cast
    constructor <;> linarith

/-- The relative error of rounding to a Number is at most `2 ^ -53`. -/
theorem toDouble_near (x : ℚ) : |toDouble x - x| ≤ |x| / 2 ^ 53 := by
  unfold toDouble
  by_cases hx : x = 0
  · simp [hx]
  · rw [if_neg hx]
    simp only []
    have habs : 0 < |x| := abs_pos.mpr hx
    have hlog : (2 : ℚ) ^ Int.log 2 |x| ≤ |x| := Int.zpow_log_le_self (by norm_num) habs
    have hulp : (0 : ℚ) < 2 ^ (Int.log 2 |x| - 52) := zpow_pos (by norm_num) _
    have hsplit : (2 : ℚ) ^ (Int.log 2 |x| - 52) = 2 ^ Int.log 2 |x| / 2 ^ 52 := by
      rw [zpow_sub₀ (by norm_num : (2 : ℚ) ≠ 0)]
      norm_num
    have hr := roundHalfEven_near (x / 2 ^ (Int.log 2 |x| - 52))
    have heq : (roundHalfEven (x / 2 ^ (Int.log 2 |x| - 52)) : ℚ) * 2 ^ (Int.log 2 |x| - 52) - x
        = ((roundHalfEven (x / 2 ^ (Int.log 2 |x| - 52)) : ℚ) - x / 2 ^ (Int.log 2 |x| - 52))
          * 2 ^ (Int.log 2 |x| - 52) := by
      field_simp
    rw [heq, abs_mul, abs_of_pos hulp]
    calc |(roundHalfEven (x / 2 ^ (Int.log 2 |x| - 52)) : ℚ) - x / 2 ^ (Int.log 2 |x| - 52)|
          * 2 ^ (Int.log 2 |x| - 52)
        ≤ 1 / 2 * 2 ^ (Int.log 2 |x| - 52) := mul_le_mul_of_nonneg_right hr hulp.le
      _ = 2 ^ Int.log 2 |x| / 2 ^ 53 := by rw [hsplit]; ring
      _ ≤ |x| / 2 ^ 53 := div_le_div_of_nonneg_right hlog (by positivity)

/-- Rounding a value between `lo` and `hi`, both of magnitude at most 1000, moves it by at most
`10 ^ -12`. -/
theorem toDouble_between (x lo hi : ℚ) (hlo : lo ≤ x) (hhi : x ≤ hi) (hl : -1000 ≤ lo)
    (hh : hi ≤ 1000) :
    lo - 1 / 10 ^ 12 ≤ toDouble x ∧ toDouble x ≤ hi + 1 / 10 ^ 12 := by
  have h := toDouble_near x
  have habs : |x| ≤ 1000 := abs_le.mpr ⟨by linarith, by linarith⟩
  have hb : |x| / 2 ^ 53 ≤ 1 / 10 ^ 12 := by
    have : |x| / 2 ^ 53 ≤ 1000 / 2 ^ 53 := div_le_div_of_nonneg_right habs (by positivity)
    have h2 : (1000 : ℚ) / 2 ^ 53 ≤ 1 / 10 ^ 12 := by norm_num
    linarith
  have h3 := abs_le.mp (le_trans h hb)
  constructor <;> linarith [h3.1, h3.2]

/-- Rounding keeps the sign of a value that is not negative. -/
theorem toDouble_nonneg (x : ℚ) (h : 0 ≤ x) : 0 ≤ toDouble x := by
  have h1 := abs_le.mp (toDouble_near x)
  rw [abs_of_nonneg h] at h1
  have h2 : x / 2 ^ 53 ≤ x := div_le_self h (by norm_num)
  linarith [h1.1]

/-- Rounding a value that is not negative loses at most the fraction `2 ^ -53` of it. -/
theorem toDouble_ge (x : ℚ) (h : 0 ≤ x) : x - x / 2 ^ 53 ≤ toDouble x := by
  have h1 := abs_le.mp (toDouble_near x)
  rw [abs_of_nonneg h] at h1
  linarith [h1.1]

/-- The Numbers of the literals `0.3` and `0.2`. -/
theorem toDouble_literals :
    toDouble (3 / 10) = 5404319552844595 / 18014398509481984
      ∧ toDouble (1 / 5) = 3602879701896397 / 18014398509481984 := by
  constructor <;> decide!

/-- Rounding a value of magnitude at most 1000 moves it by at most `10 ^ -12`. -/
theorem toDouble_small (y : ℚ) (h1 : -1000 ≤ y) (h2 : y ≤ 1000) :
    y - 1 / 10 ^ 12 ≤ toDouble y ∧ toDouble y ≤ y + 1 / 10 ^ 12 :=
  toDouble_between y y y (le_refl _) (le_refl _) h1 h2

/-- Two values that are close stay as close under a minimum with a constant. -/
theorem min_near (a b c e : ℚ) (h : |a - b| ≤ e) : |min a c - min b c| ≤ e := by
  have h0 : 0 ≤ e := le_trans (abs_nonneg _) h
  obtain ⟨h1, h2⟩ := abs_le.mp h
  rw [abs_le]
  rcases le_total a c with ha | ha <;> rcases le_total b c with hb | hb
  · rw [min_eq_left ha, min_eq_left hb]
    exact ⟨h1, h2⟩
  · rw [min_eq_left ha, min_eq_right hb]
    constructor <;> linarith
  · rw [min_eq_right ha, min_eq_left hb]
    constructor <;> linarith
  · rw [min_eq_right ha, min_eq_right hb]
    constructor <;> linarith

/-- Two values that are close stay as close under a maximum with a constant. -/
theorem max_near (a b c e : ℚ) (h : |a - b| ≤ e) : |max a c - max b c| ≤ e := by
  have h0 : 0 ≤ e := le_trans (abs_nonneg _) h
  obtain ⟨h1, h2⟩ := abs_le.mp h
  rw [abs_le]
  rcases le_total a c with ha | ha <;> rcases le_total b c with hb | hb
  · rw [max_eq_right ha, max_eq_right hb]
    constructor <;> linarith
  · rw [max_eq_right ha, max_eq_left hb]
    constructor <;> linarith
  · rw [max_eq_left ha, max_eq_right hb]
    constructor <;> linarith
  · rw [max_eq_left ha, max_eq_left hb]
    exact ⟨h1, h2⟩

/-- Rounding a value `y` that is within `e` of `x`, both of magnitude at most 1000, gives a
value within `e + 10 ^ -12` of `x`. -/
theorem toDouble_close (y x e : ℚ) (h : |y - x| ≤ e) (h1 : -1000 ≤ y) (h2 : y ≤ 1000) :
    |toDouble y - x| ≤ e + 1 / 10 ^ 12 := by
  obtain ⟨h3, h4⟩ := toDouble_small y h1 h2
  obtain ⟨h5, h6⟩ := abs_le.mp h
  rw [abs_le]
  constructor <;> linarith

/-- For a `postRecovery` in 1..10 and a log that is not in the future, the recovery computed in
double arithmetic is within `10 ^ -11` of the exact one, which lies in 0..100. -/
theorem doubleRecovery_near (p age : Int) (hp : 1 ≤ p ∧ p ≤ 10) (hage : 0 ≤ age) :
    |doubleRecovery p age - rawRecovery p ((age : ℚ) / 3600000)| ≤ 1 / 10 ^ 11
      ∧ 0 ≤ rawRecovery p ((age : ℚ) / 3600000)
      ∧ rawRecovery p ((age : ℚ) / 3600000) ≤ 100 := by
  have hp1 : (1 : ℚ) ≤ (p : ℚ) := by exact_mod_cast hp.1
  have hp2 : (p : ℚ) ≤ 10 := by exact_mod_cast hp.2
  have hh : (0 : ℚ) ≤ (age : ℚ) / 3600000 := by
    apply div_nonneg
    · exact_mod_cast hage
    · norm_num
  unfold doubleRecovery rawRecovery
  obtain ⟨t, ht⟩ : ∃ t : ℚ, t = (age : ℚ) / 3600000 := ⟨_, rfl⟩
  rw [← ht] at hh ⊢
  have hpen : 0 ≤ min (5 * t) 30 := le_min (by linarith) (by norm_num)
  have hth0 : 0 ≤ toDouble t := toDouble_nonneg t hh
  have ha0 : 0 ≤ toDouble (toDouble t * 5) := toDouble_nonneg _ (by linarith)
  have hpb : 0 ≤ min (toDouble (toDouble t * 5)) 30 := le_min ha0 (by norm_num)
  have hpc : min (toDouble (toDouble t * 5)) 30 ≤ 30 := min_le_right _ _
  -- the penalty in double arithmetic is within `6 * 10 ^ -12` of the exact one
  have hpa : |min (toDouble (toDouble t * 5)) 30 - min (5 * t) 30| ≤ 6 / 10 ^ 12 := by
    by_cases hsmall : 5 * t ≤ 31
    · apply min_near
      obtain ⟨h1, h2⟩ := toDouble_small t (by linarith) (by linarith)
      have hc : |toDouble t * 5 - 5 * t| ≤ 5 / 10 ^ 12 := by
        rw [abs_le]
        constructor <;> linarith
      have := toDouble_close (toDouble t * 5) (5 * t) _ hc (by linarith) (by linarith)
      norm_num at this ⊢
      linarith
    · have hbig : 31 < 5 * t := not_le.mp hsmall
      have h1 := toDouble_ge t hh
      have h2 := toDouble_ge (toDouble t * 5) (by linarith)
      have ha : 30 ≤ toDouble (toDouble t * 5) := by
        norm_num at h1 h2 ⊢
        linarith
      rw [min_eq_right ha, min_eq_right (by linarith : (30 : ℚ) ≤ 5 * t)]
      norm_num
  refine ⟨?_, le_max_right _ _, max_le (by linarith) (by norm_num)⟩
  apply le_trans (max_near _ _ _ _ _) (le_refl _)
  have hc : |((p : ℚ) * 10 - min (toDouble (toDouble t * 5)) 30)
      - ((p : ℚ) * 10 - min (5 * t) 30)| ≤ 6 / 10 ^ 12 := by
    have : ((p : ℚ) * 10 - min (toDouble (toDouble t * 5)) 30) - ((p : ℚ) * 10 - min (5 * t) 30)
        = -(min (toDouble (toDouble t * 5)) 30 - min (5 * t) 30) := by ring
    rw [this, abs_neg]
    exact hpa
  have := toDouble_close _ _ _ hc (by linarith) (by linarith)
  norm_num at this ⊢
  linarith

/-- The fatigue, the focus and the score computed in double arithmetic from a recovery that is
within `10 ^ -11` of an exact recovery in 0..100 are within `10 ^ -10` of the exact ones. -/
theorem doubleParts_near (rd r : ℚ) (hnear : |rd - r| ≤ 1 / 10 ^ 11) (hr0 : 0 ≤ r)
    (hr1 : r ≤ 100) :
    |doubleFatigue rd - rawFatigue r| ≤ 1 / 10 ^ 10
      ∧ |doubleFocus rd - rawFocus r| ≤ 1 / 10 ^ 10
      ∧ |doubleScore rd - (1 / 2 * r + 3 / 10 * rawFocus r + 1 / 5 * (100 - rawFatigue r))|
          ≤ 1 / 10 ^ 10 := by
  obtain ⟨hn1, hn2⟩ := abs_le.mp hnear
  norm_num at hn1 hn2
  -- fatigue
  obtain ⟨f1a, f1b⟩ := toDouble_small (100 - rd) (by linarith) (by linarith)
  obtain ⟨f2a, f2b⟩ := toDouble_small (toDouble (100 - rd) + 20) (by linarith) (by linarith)
  norm_num at f1a f1b f2a f2b
  have hfat : |doubleFatigue rd - rawFatigue r| ≤ 13 / 10 ^ 12 := by
    unfold doubleFatigue rawFatigue
    apply min_near
    rw [abs_le]
    norm_num
    constructor <;> linarith
  have hfatx0 : 20 ≤ rawFatigue r := le_min (by linarith) (by norm_num)
  have hfatx1 : rawFatigue r ≤ 100 := min_le_right _ _
  obtain ⟨hfa, hfb⟩ := abs_le.mp hfat
  norm_num at hfa hfb
  -- focus
  obtain ⟨c1a, c1b⟩ := toDouble_small (rd - 10) (by linarith) (by linarith)
  norm_num at c1a c1b
  have hfoc : |doubleFocus rd - rawFocus r| ≤ 12 / 10 ^ 12 := by
    unfold doubleFocus rawFocus
    apply max_near
    rw [abs_le]
    norm_num
    constructor <;> linarith
  have hfocx0 : 0 ≤ rawFocus r := le_max_right _ _
  have hfocx1 : rawFocus r ≤ 90 := max_le (by linarith) (by norm_num)
  obtain ⟨hca, hcb⟩ := abs_le.mp hfoc
  norm_num at hca hcb
  refine ⟨le_trans hfat (by norm_num), le_trans hfoc (by norm_num), ?_⟩
  -- score
  obtain ⟨k3, k2⟩ := toDouble_literals
  unfold doubleScore
  rw [k3, k2]
  obtain ⟨s1a, s1b⟩ := toDouble_small (rd * (1 / 2)) (by linarith) (by linarith)
  obtain ⟨s2a, s2b⟩ := toDouble_small
    (doubleFocus rd * (5404319552844595 / 18014398509481984)) (by linarith) (by linarith)
  obtain ⟨s3a, s3b⟩ := toDouble_small (100 - doubleFatigue rd) (by linarith) (by linarith)
  norm_num at s1a s1b s2a s2b s3a s3b
  obtain ⟨s4a, s4b⟩ := toDouble_small
    (toDouble (100 - doubleFatigue rd) * (3602879701896397 / 18014398509481984))
    (by linarith) (by linarith)
  obtain ⟨s5a, s5b⟩ := toDouble_small
    (toDouble (rd * (1 / 2))
      + toDouble (doubleFocus rd * (5404319552844595 / 18014398509481984)))
    (by linarith) (by linarith)
  norm_num at s4a s4b s5a s5b
  obtain ⟨s6a, s6b⟩ := toDouble_small
    (toDouble (toDouble (rd * (1 / 2))
        + toDouble (doubleFocus rd * (5404319552844595 / 18014398509481984)))
      + toDouble (toDouble (100 - doubleFatigue rd)
        * (3602879701896397 / 18014398509481984)))
    (by linarith) (by linarith)
  norm_num at s6a s6b
  rw [abs_le]
  norm_num
  constructor <;> linarith

/-- Rounding to an integer moves a value by at most one half. -/
theorem mathRound_near (x : ℚ) : |(mathRound x : ℚ) - x| ≤ 1 / 2 := by
  unfold mathRound
  have h0 : (⌊x + 1 / 2⌋ : ℚ) ≤ x + 1 / 2 := Int.floor_le _
  have h1 : x + 1 / 2 < (⌊x + 1 / 2⌋ : ℚ) + 1 := Int.lt_floor_add_one _
  rw [abs_le]
  constructor <;> linarith

/-- An integer rounded from a value within `e` of `x` is within `1 / 2 + e` of `x`; it is the
rounding of `x` itself unless `x` is within `e` of a half-integer. -/
theorem mathRound_of_near (y x e : ℚ) (h : |y - x| ≤ e) :
    |(mathRound y : ℚ) - x| ≤ 1 / 2 + e
      ∧ ((∀ k : Int, e < |x - ((k : ℚ) + 1 / 2)|) → mathRound y = mathRound x) := by
  obtain ⟨h1, h2⟩ := abs_le.mp h
  obtain ⟨h3, h4⟩ := abs_le.mp (mathRound_near y)
  constructor
  · rw [abs_le]
    constructor <;> linarith
  · intro hfar
    unfold mathRound
    rw [Int.floor_eq_iff]
    have hx0 : (⌊x + 1 / 2⌋ : ℚ) ≤ x + 1 / 2 := Int.floor_le _
    have hx1 : x + 1 / 2 < (⌊x + 1 / 2⌋ : ℚ) + 1 := Int.lt_floor_add_one _
    have hlo := hfar (⌊x + 1 / 2⌋ - 1)
    have hhi := hfar ⌊x + 1 / 2⌋
    push_cast at hlo hhi
    rw [abs_of_nonneg (by linarith)] at hlo
    rw [abs_of_nonpos (by linarith)] at hhi
    constructor <;> linarith

/-! ## Decision agent: auxiliary facts -/

namespace AIAgent

theorem foldl_postRecovery (l : List LogEntry) (init : Int) :
    l.foldl (fun sum log => sum + log.postRecovery) init
      = init + (l.map (fun log => log.postRecovery)).sum := by
  induction l generalizing init with
  | nil => simp
  | cons x xs ih => simp [ih, add_assoc]

theorem analysis_fatiguePattern (newest : LogEntry) (older : List LogEntry) (now : Int) :
    (performDeepAnalysis newest older now).fatiguePattern
      = detectFatiguePattern (logsWithin dayMs (newest :: older) now) := rfl

theorem analysis_timeSince (newest : LogEntry) (older : List LogEntry) (now : Int) :
    (performDeepAnalysis newest older now).timeSinceLastReboot
      = minutesSince now newest.timestamp := by
  simp [performDeepAnalysis, minutesSince]
  norm_num

theorem analysis_estimatedFatigue (newest : LogEntry) (older : List LogEntry) (now : Int) :
    (performDeepAnalysis newest older now).estimatedFatigue
      = estimateCurrentFatigue (newest :: older) (minutesSince now newest.timestamp) := by
  simp [performDeepAnalysis, minutesSince]
  norm_num

theorem analysis_avgRecovery (newest : LogEntry) (older : List LogEntry) (now : Int)
    (h : logsWithin (7 * dayMs) (newest :: older) now ≠ []) :
    (performDeepAnalysis newest older now).avgRecovery
      = meanRecovery (logsWithin (7 * dayMs) (newest :: older) now) := by
  have hlen : 0 < (logsWithin (7 * dayMs) (newest :: older) now).length :=
    List.length_pos.mpr h
  have h7 : (7 * dayMs : Int) = 7 * 24 * 60 * 60 * 1000 := by norm_num [dayMs]
  rw [h7] at hlen
  simp only [performDeepAnalysis, meanRecovery, foldl_postRecovery, h7]
  unfold logsWithin at hlen ⊢
  rw [if_pos hlen]
  simp


theorem makeDecision_chronic (a : Analysis) (h : a.fatiguePattern = FatiguePattern.chronic) :
    (makeDecision a).shouldAlert = true ∧ (makeDecision a).confidence = 85
      ∧ (makeDecision a).action = Action.take_break := by
  have h85 : mathRound 85 = 85 := mathRound_intCast 85
  simp [makeDecision, ruleChronic, ruleDeclining, ruleEstimated, h, h85]

theorem makeDecision_declining (a : Analysis) (h : a.fatiguePattern = FatiguePattern.declining)
    (hlow : a.avgRecovery < 4) :
    (makeDecision a).shouldAlert = true ∧ (makeDecision a).confidence = 75
      ∧ (makeDecision a).action = Action.change_method := by
  have h75 : mathRound 75 = 75 := mathRound_intCast 75
  have hlow2 : a.avgRecovery < ((config.lowRecoveryThreshold : Int) : ℚ) := by
    simpa [config] using hlow
  simp [makeDecision, ruleDeclining, ruleEstimated, h, h75, hlow2]

theorem makeDecision_longGap (a : Analysis) (hgap : 180 < a.timeSinceLastReboot)
    (hc : a.fatiguePattern ≠ FatiguePattern.chronic)
    (hd : ¬ (a.fatiguePattern = FatiguePattern.declining ∧ a.avgRecovery < 4)) :
    (makeDecision a).shouldAlert = true ∧ (makeDecision a).action = Action.reboot_now
      ∧ (makeDecision a).confidence = mathRound (min (70 + (a.timeSinceLastReboot - 180) / 10) 95)
      ∧ (a.bestRebootType = none → (makeDecision a).message =
          "⚠️ 前回のリブートから" ++ toString (mathFloor (a.timeSinceLastReboot / 60)) ++ "時間"
            ++ toString (mathFloor (jsRem a.timeSinceLastReboot 60)) ++ "分が経過しています。") := by
  have hd2 : ¬ (a.fatiguePattern = FatiguePattern.declining
      ∧ a.avgRecovery < ((config.lowRecoveryThreshold : Int) : ℚ)) := by
    simpa [config] using hd
  have h180 : ((config.optimalRebootInterval : Int) : ℚ) = 180 := by simp [config]
  simp only [makeDecision, ruleLongGap, ruleChronic, ruleDeclining, ruleEstimated,
    gt_iff_lt, h180, if_pos hgap, if_neg hc, if_neg hd2]
  refine ⟨by simp, by simp, by simp, ?_⟩
  intro hb
  simp [hb]

theorem makeDecision_quiet (a : Analysis) (hgap : a.timeSinceLastReboot ≤ 180)
    (hc : a.fatiguePattern ≠ FatiguePattern.chronic)
    (hd : ¬ (a.fatiguePattern = FatiguePattern.declining ∧ a.avgRecovery < 4)) :
    (7 ≤ a.estimatedFatigue →
        (makeDecision a).shouldAlert = true ∧ (makeDecision a).confidence = 65
          ∧ (makeDecision a).action = Action.reboot_soon)
      ∧ (a.estimatedFatigue < 7 →
        (makeDecision a).shouldAlert = false ∧ (makeDecision a).confidence = 0
          ∧ (makeDecision a).action = Action.none ∧ (makeDecision a).message = "") := by
  have hgap2 : ¬ ((config.optimalRebootInterval : Int) : ℚ) < a.timeSinceLastReboot := by
    simpa [config] using hgap
  have hd2 : ¬ (a.fatiguePattern = FatiguePattern.declining
      ∧ a.avgRecovery < ((config.lowRecoveryThreshold : Int) : ℚ)) := by
    simpa [config] using hd
  have h7 : ((config.fatigueThreshold : Int) : ℚ) = 7 := by simp [config]
  have h65 : mathRound 65 = 65 := mathRound_intCast 65
  have h0 : mathRound 0 = 0 := mathRound_intCast 0
  simp only [makeDecision, ruleLongGap, ruleChronic, ruleDeclining, ruleEstimated,
    gt_iff_lt, if_neg hgap2, if_neg hc, if_neg hd2, h7, ge_iff_le]
  constructor
  · intro he
    simp [he, h65]
  · intro he
    have : ¬ (7 ≤ a.estimatedFatigue) := not_le.mpr he
    simp [this, h0]


theorem chronic_threshold_iff (c n : Nat) :
    ((c : ℚ) ≥ (n : ℚ) * (7 / 10)) ↔ 70 * n ≤ 100 * c := by
  constructor
  · intro h
    have h2 : (70 * n : ℚ) ≤ 100 * c := by linarith
    exact_mod_cast h2
  · intro h
    have h2 : (70 * n : ℚ) ≤ 100 * c := by exact_mod_cast h
    show (n : ℚ) * (7 / 10) ≤ c
    linarith

theorem detectFatiguePattern_eq_spec (L : List LogEntry) :
    detectFatiguePattern L = fatiguePatternSpec L := by
  match L with
  | [] => simp [detectFatiguePattern, fatiguePatternSpec]
  | [a] => simp [detectFatiguePattern, fatiguePatternSpec]
  | [a, b] => simp [detectFatiguePattern, fatiguePatternSpec]
  | a :: b :: c :: rest =>
    have hlen : ¬ ((a :: b :: c :: rest).length < 3) := by simp
    unfold detectFatiguePattern fatiguePatternSpec
    rw [if_neg hlen, if_neg hlen]
    simp only [chronic_threshold_iff, ← List.countP_eq_length_filter]
    simp [jsLt, recoveryAt, config]

theorem three_le_of_declining (L : List LogEntry)
    (h : detectFatiguePattern L = FatiguePattern.declining) : 3 ≤ L.length := by
  by_contra hlt
  have hlt2 : L.length < 3 := by omega
  simp [detectFatiguePattern, hlt2] at h

theorem week_nonempty_of_declining (logs : List LogEntry) (now : Int)
    (h : detectFatiguePattern (logsWithin dayMs logs now) = FatiguePattern.declining) :
    logsWithin (7 * dayMs) logs now ≠ [] := by
  have h3 := three_le_of_declining _ h
  have hpos : 0 < (logsWithin dayMs logs now).length := by omega
  obtain ⟨x, hx⟩ := List.exists_mem_of_length_pos hpos
  intro hnil
  have hx2 : x ∈ logsWithin (7 * dayMs) logs now := by
    simp only [logsWithin, List.mem_filter, decide_eq_true_eq, dayMs] at hx ⊢
    exact ⟨hx.1, by omega⟩
  rw [hnil] at hx2
  simp at hx2

/-- The rule-3 condition on the analysis is the one on the pattern and the weekly mean. -/
theorem declining_low_iff (newest : LogEntry) (older : List LogEntry) (now : Int) :
    ((performDeepAnalysis newest older now).fatiguePattern = FatiguePattern.declining
        ∧ (performDeepAnalysis newest older now).avgRecovery < 4)
      ↔ (detectFatiguePattern (logsWithin dayMs (newest :: older) now) = FatiguePattern.declining
        ∧ meanRecovery (logsWithin (7 * dayMs) (newest :: older) now) < 4) := by
  rw [analysis_fatiguePattern]
  constructor
  · rintro ⟨h1, h2⟩
    rw [analysis_avgRecovery _ _ _ (week_nonempty_of_declining _ _ h1)] at h2
    exact ⟨h1, h2⟩
  · rintro ⟨h1, h2⟩
    rw [analysis_avgRecovery _ _ _ (week_nonempty_of_declining _ _ h1)]
    exact ⟨h1, h2⟩

end AIAgent

/-! ## Decision agent: the decision rules -/

/-- Claim C1: a chronic fatigue pattern over the trailing 24 hours always yields an alert with
confidence 85 and action `take_break`, whatever the time since the newest log. -/
theorem chronic_pattern_yields_take_break (newest : LogEntry) (older : List LogEntry) (now : Int)
    (hpat : AIAgent.detectFatiguePattern (logsWithin dayMs (newest :: older) now)
      = AIAgent.FatiguePattern.chronic) :
    (AIAgent.analyzeAndDecide (some (newest :: older)) now).shouldAlert = true
      ∧ (AIAgent.analyzeAndDecide (some (newest :: older)) now).confidence = 85
      ∧ (AIAgent.analyzeAndDecide (some (newest :: older)) now).action
          = AIAgent.Action.take_break :=
  AIAgent.makeDecision_chronic _ (by rw [AIAgent.analysis_fatiguePattern]; exact hpat)

/-- The chronic sample history, whose newest log is 200 minutes old (rule 1 holds as well),
is answered with `take_break` at confidence 85. -/
theorem chronic_pattern_yields_take_break_witness :
    180 < minutesSince 12000000 0
      ∧ AIAgent.detectFatiguePattern (logsWithin dayMs chronicLogs 12000000)
          = AIAgent.FatiguePattern.chronic
      ∧ (AIAgent.analyzeAndDecide (some chronicLogs) 12000000).shouldAlert = true
      ∧ (AIAgent.analyzeAndDecide (some chronicLogs) 12000000).confidence = 85
      ∧ (AIAgent.analyzeAndDecide (some chronicLogs) 12000000).action
          = AIAgent.Action.take_break :=
  ⟨by decide!, by decide!,
    chronic_pattern_yields_take_break (mkLog 0 "spa" 8 5)
      [mkLog (-3600000) "sleep" 8 5, mkLog (-7200000) "spa" 9 5] 12000000 (by decide!)⟩

/-- Claim C2: a declining pattern together with a weekly mean recovery below 4 always yields an
alert with confidence 75 and action `change_method`, whether or not rule 1 holds. -/
theorem declining_low_recovery_yields_change_method (newest : LogEntry) (older : List LogEntry)
    (now : Int)
    (hpat : AIAgent.detectFatiguePattern (logsWithin dayMs (newest :: older) now)
      = AIAgent.FatiguePattern.declining)
    (hlow : meanRecovery (logsWithin (7 * dayMs) (newest :: older) now) < 4) :
    (AIAgent.analyzeAndDecide (some (newest :: older)) now).shouldAlert = true
      ∧ (AIAgent.analyzeAndDecide (some (newest :: older)) now).confidence = 75
      ∧ (AIAgent.analyzeAndDecide (some (newest :: older)) now).action
          = AIAgent.Action.change_method := by
  have h := (AIAgent.declining_low_iff newest older now).mpr ⟨hpat, hlow⟩
  exact AIAgent.makeDecision_declining _ h.1 h.2

/-- Recoveries 3, 5, 7 (most recent first) in the trailing 24 hours, weekly mean 3, newest log
100 minutes old: the decision is `change_method` at confidence 75. -/
theorem declining_low_recovery_yields_change_method_witness :
    (logsWithin dayMs decliningLogs 6000000).map (fun log => log.postRecovery) = [3, 5, 7]
      ∧ meanRecovery (logsWithin (7 * dayMs) decliningLogs 6000000) = 3
      ∧ minutesSince 6000000 0 ≤ 180
      ∧ (AIAgent.analyzeAndDecide (some decliningLogs) 6000000).shouldAlert = true
      ∧ (AIAgent.analyzeAndDecide (some decliningLogs) 6000000).confidence = 75
      ∧ (AIAgent.analyzeAndDecide (some decliningLogs) 6000000).action
          = AIAgent.Action.change_method :=
  ⟨by decide!, by decide!, by decide!,
    declining_low_recovery_yields_change_method (mkLog 0 "spa" 5 3)
      [mkLog (-3600000) "spa" 5 5, mkLog (-7200000) "spa" 5 7, mkLog (-172800000) "sleep" 5 1,
        mkLog (-172800001) "sleep" 5 1, mkLog (-172800002) "sleep" 5 1] 6000000
      (by decide!) (by decide!)⟩

/-- Claim C3: when the newest log is more than 180 minutes old and neither rule 2 nor rule 3
applies, the decision is an alert with action `reboot_now` and confidence
`round(min(70 + (t - 180) / 10, 95))`, `t` the minutes since the newest log. -/
theorem long_gap_yields_reboot_now (newest : LogEntry) (older : List LogEntry) (now : Int)
    (hgap : 180 < minutesSince now newest.timestamp)
    (hc : AIAgent.detectFatiguePattern (logsWithin dayMs (newest :: older) now)
      ≠ AIAgent.FatiguePattern.chronic)
    (hd : ¬ (AIAgent.detectFatiguePattern (logsWithin dayMs (newest :: older) now)
        = AIAgent.FatiguePattern.declining
      ∧ meanRecovery (logsWithin (7 * dayMs) (newest :: older) now) < 4)) :
    (AIAgent.analyzeAndDecide (some (newest :: older)) now).shouldAlert = true
      ∧ (AIAgent.analyzeAndDecide (some (newest :: older)) now).action
          = AIAgent.Action.reboot_now
      ∧ (AIAgent.analyzeAndDecide (some (newest :: older)) now).confidence
          = mathRound (min (70 + (minutesSince now newest.timestamp - 180) / 10) 95) := by
  have h := AIAgent.makeDecision_longGap (AIAgent.performDeepAnalysis newest older now)
    (by rw [AIAgent.analysis_timeSince]; exact hgap)
    (by rw [AIAgent.analysis_fatiguePattern]; exact hc)
    (by rw [AIAgent.declining_low_iff]; exact hd)
  rw [AIAgent.analysis_timeSince] at h
  exact ⟨h.1, h.2.1, h.2.2.1⟩

/-- A single log that is 200 minutes old: confidence 72, and the message states 3 hours
20 minutes without a type recommendation. -/
theorem long_gap_yields_reboot_now_witness :
    minutesSince 12000000 0 = 200
      ∧ ((AIAgent.analyzeAndDecide (some [mkLog 0 "spa" 5 5]) 12000000).shouldAlert = true
        ∧ (AIAgent.analyzeAndDecide (some [mkLog 0 "spa" 5 5]) 12000000).action
            = AIAgent.Action.reboot_now
        ∧ (AIAgent.analyzeAndDecide (some [mkLog 0 "spa" 5 5]) 12000000).confidence
            = mathRound (min (70 + (minutesSince 12000000 (mkLog 0 "spa" 5 5).timestamp - 180) / 10) 95))
      ∧ mathRound (min (70 + (minutesSince 12000000 (mkLog 0 "spa" 5 5).timestamp - 180) / 10) 95)
          = 72
      ∧ (AIAgent.analyzeAndDecide (some [mkLog 0 "spa" 5 5]) 12000000).message
          = "⚠️ 前回のリブートから3時間20分が経過しています。" :=
  ⟨by decide!,
    long_gap_yields_reboot_now (mkLog 0 "spa" 5 5) [] 12000000 (by decide!) (by decide!)
      (by decide!),
    by decide!, by decide!⟩

/-- Claim C4: when the newest log is at most 180 minutes old and neither rule 2 nor rule 3
applies, the decision is `reboot_soon` at confidence 65 if the estimated fatigue is at least 7,
and otherwise the silent decision (no alert, confidence 0, action `none`, empty message). -/
theorem quiet_rules_fall_through_to_estimate (newest : LogEntry) (older : List LogEntry)
    (now : Int)
    (hgap : minutesSince now newest.timestamp ≤ 180)
    (hc : AIAgent.detectFatiguePattern (logsWithin dayMs (newest :: older) now)
      ≠ AIAgent.FatiguePattern.chronic)
    (hd : ¬ (AIAgent.detectFatiguePattern (logsWithin dayMs (newest :: older) now)
        = AIAgent.FatiguePattern.declining
      ∧ meanRecovery (logsWithin (7 * dayMs) (newest :: older) now) < 4)) :
    (7 ≤ AIAgent.estimateCurrentFatigue (newest :: older) (minutesSince now newest.timestamp) →
        (AIAgent.analyzeAndDecide (some (newest :: older)) now).shouldAlert = true
          ∧ (AIAgent.analyzeAndDecide (some (newest :: older)) now).confidence = 65
          ∧ (AIAgent.analyzeAndDecide (some (newest :: older)) now).action
              = AIAgent.Action.reboot_soon)
      ∧ (AIAgent.estimateCurrentFatigue (newest :: older) (minutesSince now newest.timestamp) < 7 →
        (AIAgent.analyzeAndDecide (some (newest :: older)) now).shouldAlert = false
          ∧ (AIAgent.analyzeAndDecide (some (newest :: older)) now).confidence = 0
          ∧ (AIAgent.analyzeAndDecide (some (newest :: older)) now).action = AIAgent.Action.none
          ∧ (AIAgent.analyzeAndDecide (some (newest :: older)) now).message = "") := by
  have h := AIAgent.makeDecision_quiet (AIAgent.performDeepAnalysis newest older now)
    (by rw [AIAgent.analysis_timeSince]; exact hgap)
    (by rw [AIAgent.analysis_fatiguePattern]; exact hc)
    (by rw [AIAgent.declining_low_iff]; exact hd)
  rw [AIAgent.analysis_estimatedFatigue] at h
  exact h

/-- One log, 60 minutes old: entered at fatigue 8 with recovery 5 it is answered with
`reboot_soon` at confidence 65; entered at fatigue 3 with recovery 8 it is answered with the
silent decision. -/
theorem quiet_rules_fall_through_to_estimate_witness :
    ((AIAgent.analyzeAndDecide (some [mkLog 0 "spa" 8 5]) 3600000).shouldAlert = true
        ∧ (AIAgent.analyzeAndDecide (some [mkLog 0 "spa" 8 5]) 3600000).confidence = 65
        ∧ (AIAgent.analyzeAndDecide (some [mkLog 0 "spa" 8 5]) 3600000).action
            = AIAgent.Action.reboot_soon)
      ∧ ((AIAgent.analyzeAndDecide (some [mkLog 0 "spa" 3 8]) 3600000).shouldAlert = false
        ∧ (AIAgent.analyzeAndDecide (some [mkLog 0 "spa" 3 8]) 3600000).confidence = 0
        ∧ (AIAgent.analyzeAndDecide (some [mkLog 0 "spa" 3 8]) 3600000).action
            = AIAgent.Action.none
        ∧ (AIAgent.analyzeAndDecide (some [mkLog 0 "spa" 3 8]) 3600000).message = "") :=
  ⟨(quiet_rules_fall_through_to_estimate (mkLog 0 "spa" 8 5) [] 3600000 (by decide!)
      (by decide!) (by decide!)).1 (by decide!),
    (quiet_rules_fall_through_to_estimate (mkLog 0 "spa" 3 8) [] 3600000 (by decide!)
      (by decide!) (by decide!)).2 (by decide!)⟩

/-- Claim C5: on the empty log list, and on an absent one, `analyzeAndDecide` returns exactly
no alert, confidence 0, the empty message and action `none`, at every current time. -/
theorem empty_history_yields_silent_decision (now : Int) :
    AIAgent.analyzeAndDecide (some []) now
        = { shouldAlert := false, confidence := 0, message := "", action := AIAgent.Action.none,
            analysis := none }
      ∧ AIAgent.analyzeAndDecide none now
        = { shouldAlert := false, confidence := 0, message := "", action := AIAgent.Action.none,
            analysis := none } :=
  ⟨rfl, rfl⟩

/-- Claim C6: `detectFatiguePattern` is `insufficient_data` below three logs, else `declining`
when the recoveries of the three most recent logs rise strictly into the past, else `chronic`
when at least 70% of the logs have `preFatigue` at least 7, else `normal`; in particular
`declining` wins over `chronic` when both conditions hold. -/
theorem detectFatiguePattern_meets_spec (L : List LogEntry) :
    AIAgent.detectFatiguePattern L = fatiguePatternSpec L
      ∧ (3 ≤ L.length → recoveryAt L 0 < recoveryAt L 1 → recoveryAt L 1 < recoveryAt L 2 →
          70 * L.length ≤ 100 * L.countP (fun log => decide (7 ≤ log.preFatigue)) →
          AIAgent.detectFatiguePattern L = AIAgent.FatiguePattern.declining) := by
  refine ⟨AIAgent.detectFatiguePattern_eq_spec L, ?_⟩
  intro h3 h01 h12 _
  rw [AIAgent.detectFatiguePattern_eq_spec]
  have hlen : ¬ (L.length < 3) := by omega
  simp [fatiguePatternSpec, hlen, h01, h12]

/-- Claim C7: for a non-empty log list and any elapsed time `t` (minutes),
`estimateCurrentFatigue` is `2 * preFatigue - postRecovery + min(t / 120, 5)` of the newest log
clamped to the interval from 1 to 10, and so lies in that interval. -/
theorem estimateCurrentFatigue_is_clamped_formula (newest : LogEntry) (older : List LogEntry)
    (t : ℚ) :
    AIAgent.estimateCurrentFatigue (newest :: older) t
        = min (max (2 * (newest.preFatigue : ℚ) - newest.postRecovery + min (t / 120) 5) 1) 10
      ∧ 1 ≤ AIAgent.estimateCurrentFatigue (newest :: older) t
      ∧ AIAgent.estimateCurrentFatigue (newest :: older) t ≤ 10 := by
  have hacc : t / 60 * (1 / 2) = t / 120 := by ring
  have hbase : (newest.preFatigue : ℚ) - ((newest.postRecovery : ℚ) - newest.preFatigue)
      = 2 * (newest.preFatigue : ℚ) - newest.postRecovery := by ring
  refine ⟨?_, ?_, ?_⟩
  · simp only [AIAgent.estimateCurrentFatigue, hacc, hbase]
  · simp only [AIAgent.estimateCurrentFatigue]
    exact le_min (le_max_right _ _) (by norm_num)
  · simp only [AIAgent.estimateCurrentFatigue]
    exact min_le_right _ _


/-! ## Analytics engine: current health -/

namespace AnalyticsService

theorem getCurrentHealth_of_recent (newest : LogEntry) (older : List LogEntry) (now : Int)
    (h : now - newest.timestamp < dayMs) :
    getCurrentHealth (some (newest :: older)) now
      = doubleHealth newest.postRecovery (now - newest.timestamp) := by
  have h2 : now - newest.timestamp < 24 * 60 * 60 * 1000 := by simpa [dayMs] using h
  have hne : ¬ ((List.filter (fun log => decide (now - log.timestamp < 24 * 60 * 60 * 1000))
      (newest :: older)).length = 0) := by
    rw [List.filter_cons_of_pos (by simpa using h2)]
    simp
  have hh : ((now - newest.timestamp : Int) : ℚ) / (60 * 60 * 1000)
      = ((now - newest.timestamp : Int) : ℚ) / 3600000 := by norm_num
  simp only [getCurrentHealth, if_neg hne, mathRound_intCast, doubleHealth, doubleRecovery,
    doubleFocus, doubleFatigue, doubleScore, hh]

theorem getCurrentHealth_of_all_old (newest : LogEntry) (older : List LogEntry) (now : Int)
    (h : ∀ log ∈ newest :: older, dayMs ≤ now - log.timestamp) :
    getCurrentHealth (some (newest :: older)) now = staleHealth := by
  have hnil : List.filter (fun log => decide (now - log.timestamp < 24 * 60 * 60 * 1000))
      (newest :: older) = [] := by
    rw [List.filter_eq_nil_iff]
    intro log hlog
    have := h log hlog
    simp only [dayMs] at this
    simp only [decide_eq_true_eq]
    omega
  simp only [getCurrentHealth, hnil, List.length_nil, if_true, staleHealth]

/-- A non-empty history is answered either with the stale tuple or with the formula applied to
its first log. -/
theorem getCurrentHealth_cases (first : LogEntry) (rest : List LogEntry) (now : Int) :
    getCurrentHealth (some (first :: rest)) now = staleHealth
      ∨ (logsWithin dayMs (first :: rest) now ≠ []
        ∧ getCurrentHealth (some (first :: rest)) now
          = doubleHealth first.postRecovery (now - first.timestamp)) := by
  have hd : dayMs = 24 * 60 * 60 * 1000 := rfl
  by_cases hlen : (List.filter (fun log => decide (now - log.timestamp < 24 * 60 * 60 * 1000))
      (first :: rest)).length = 0
  · left
    simp only [getCurrentHealth, if_pos hlen, staleHealth]
  · right
    have hh : ((now - first.timestamp : Int) : ℚ) / (60 * 60 * 1000)
        = ((now - first.timestamp : Int) : ℚ) / 3600000 := by norm_num
    constructor
    · intro hnil
      apply hlen
      unfold logsWithin at hnil
      rw [hd] at hnil
      rw [hnil]
      rfl
    · simp only [getCurrentHealth, if_neg hlen, mathRound_intCast, doubleHealth, doubleRecovery,
        doubleFocus, doubleFatigue, doubleScore, hh]

/-- The health formula never produces the stale tuple: a rounded recovery of 30 forces a
rounded fatigue of at least 89. -/
theorem formula_ne_stale (r : ℚ) (hr : mathRound r = 30) :
    mathRound (doubleFatigue r) ≠ 70 := by
  unfold mathRound at hr
  have hlt : r + 1 / 2 < 31 := by
    have := Int.lt_floor_add_one (r + 1 / 2)
    rw [hr] at this
    norm_num at this
    linarith
  have hge : (30 : ℚ) ≤ r + 1 / 2 := by
    have := Int.floor_le (r + 1 / 2)
    rw [hr] at this
    norm_num at this
    linarith
  obtain ⟨f1a, f1b⟩ := toDouble_small (100 - r) (by linarith) (by linarith)
  obtain ⟨f2a, f2b⟩ := toDouble_small (toDouble (100 - r) + 20) (by linarith) (by linarith)
  norm_num at f1a f1b f2a f2b
  have h89 : (89 : Int) ≤ mathRound (doubleFatigue r) := by
    unfold mathRound doubleFatigue
    rw [Int.le_floor]
    have : (89 : ℚ) ≤ min (toDouble (toDouble (100 - r) + 20)) 100 :=
      le_min (by linarith) (by norm_num)
    push_cast
    linarith
  omega

end AnalyticsService

/-- Claim C8, the counterexample: a single log that is exactly 24 hours old is answered with
the stale tuple, although its age does not exceed 24 hours. -/
theorem stale_tuple_at_exactly_24_hours :
    SortedNewestFirst [mkLog 0 "spa" 5 8]
      ∧ (86400000 : Int) - (mkLog 0 "spa" 5 8).timestamp = dayMs
      ∧ AnalyticsService.getCurrentHealth (some [mkLog 0 "spa" 5 8]) 86400000 = staleHealth
      ∧ ¬ (AnalyticsService.getCurrentHealth (some [mkLog 0 "spa" 5 8]) 86400000 = staleHealth
          ↔ (86400000 : Int) - (mkLog 0 "spa" 5 8).timestamp > dayMs) := by
  refine ⟨?_, by decide!, by decide!, ?_⟩
  · simp [SortedNewestFirst]
  · intro h
    have h1 : AnalyticsService.getCurrentHealth (some [mkLog 0 "spa" 5 8]) 86400000
        = staleHealth := by decide!
    have h2 := h.mp h1
    revert h2
    decide!

/-- Claim C8 as amended: for a non-empty log list sorted newest first, `getCurrentHealth`
returns the stale tuple exactly when the newest log is at least 24 hours old; a newest log
younger than 24 hours is evaluated by the formula instead, in the arithmetic of the language,
and the result is never the stale tuple. -/
theorem stale_tuple_iff_newest_at_least_24_hours (newest : LogEntry) (older : List LogEntry)
    (now : Int) (hsorted : SortedNewestFirst (newest :: older)) :
    (AnalyticsService.getCurrentHealth (some (newest :: older)) now = staleHealth
        ↔ dayMs ≤ now - newest.timestamp)
      ∧ (now - newest.timestamp < dayMs →
          AnalyticsService.getCurrentHealth (some (newest :: older)) now
              = doubleHealth newest.postRecovery (now - newest.timestamp)
            ∧ AnalyticsService.getCurrentHealth (some (newest :: older)) now ≠ staleHealth) := by
  have hne : now - newest.timestamp < dayMs →
      AnalyticsService.getCurrentHealth (some (newest :: older)) now ≠ staleHealth := by
    intro hrecent hst
    rw [AnalyticsService.getCurrentHealth_of_recent newest older now hrecent] at hst
    simp only [doubleHealth] at hst
    have hrec := congrArg AnalyticsService.Health.recovery hst
    have hfat := congrArg AnalyticsService.Health.fatigue hst
    simp only [staleHealth] at hrec hfat
    exact AnalyticsService.formula_ne_stale _ hrec hfat
  refine ⟨?_, fun hrecent =>
    ⟨AnalyticsService.getCurrentHealth_of_recent newest older now hrecent, hne hrecent⟩⟩
  constructor
  · intro hst
    by_contra hlt
    exact hne (not_le.mp hlt) hst
  · intro hold
    apply AnalyticsService.getCurrentHealth_of_all_old
    intro log hlog
    rcases List.mem_cons.mp hlog with rfl | hmem
    · exact hold
    · have hle : log.timestamp ≤ newest.timestamp :=
        (List.pairwise_cons.mp hsorted).1 log hmem
      omega

/-- Two sorted logs: at the instant the newer one is exactly 24 hours old the stale tuple is
returned, one millisecond earlier it is not. -/
theorem stale_tuple_iff_newest_at_least_24_hours_witness :
    (AnalyticsService.getCurrentHealth (some [mkLog 0 "spa" 5 8, mkLog (-5) "sleep" 5 6]) 86400000
        = staleHealth
      ↔ dayMs ≤ 86400000 - (mkLog 0 "spa" 5 8).timestamp)
    ∧ AnalyticsService.getCurrentHealth (some [mkLog 0 "spa" 5 8, mkLog (-5) "sleep" 5 6]) 86400000
        = staleHealth
    ∧ AnalyticsService.getCurrentHealth (some [mkLog 0 "spa" 5 8, mkLog (-5) "sleep" 5 6]) 86399999
        ≠ staleHealth :=
  ⟨(stale_tuple_iff_newest_at_least_24_hours (mkLog 0 "spa" 5 8) [mkLog (-5) "sleep" 5 6]
      86400000 (by simp [SortedNewestFirst, mkLog])).1,
    by decide!, by decide!⟩

/-- Claim C9, the counterexample: for a log with `postRecovery` 7 that is 6 minutes old the
exact formula has the unrounded score 62.5, whose rounding is 63, and the code returns the
score 62 (in double arithmetic the sum stays below 62.5); for `postRecovery` 4 and 18 minutes
the exact score is 31.5 and the code returns 31. The other three values agree. -/
theorem score_differs_from_exact_formula_at_a_tie :
    hoursSince 360000 (mkLog 0 "spa" 5 7).timestamp = 1 / 10
      ∧ AnalyticsService.getCurrentHealth (some [mkLog 0 "spa" 5 7]) 360000
          = { score := 62, focus := 60, fatigue := 51, recovery := 70 }
      ∧ (1 / 2) * rawRecovery 7 (1 / 10) + (3 / 10) * rawFocus (rawRecovery 7 (1 / 10))
          + (1 / 5) * (100 - rawFatigue (rawRecovery 7 (1 / 10))) = 125 / 2
      ∧ formulaHealth 7 (1 / 10) = { score := 63, focus := 60, fatigue := 51, recovery := 70 }
      ∧ hoursSince 1080000 (mkLog 0 "spa" 5 4).timestamp = 3 / 10
      ∧ AnalyticsService.getCurrentHealth (some [mkLog 0 "spa" 5 4]) 1080000
          = { score := 31, focus := 29, fatigue := 82, recovery := 39 }
      ∧ formulaHealth 4 (3 / 10) = { score := 32, focus := 29, fatigue := 82, recovery := 39 } := by
  refine ⟨?_, ?_, ?_, ?_, ?_, ?_, ?_⟩ <;> decide!

/-- Claim C9 as amended: when the newest log is less than 24 hours old, the health snapshot is
the formula evaluated in double arithmetic, each of the four values rounded to an integer from
its unrounded Number. For a `postRecovery` in 1..10 and a log that is not in the future each
value is within `0.5 + 10 ^ -9` of the exact unrounded value of the formula (recovery
`max(postRecovery * 10 - min(5h, 30), 0)`, fatigue `min(100 - recovery + 20, 100)`, focus
`max(recovery - 10, 0)`, score `0.5 * recovery + 0.3 * focus + 0.2 * (100 - fatigue)`), and it
is the rounding of that exact value unless the exact value is within `10 ^ -9` of a
half-integer. -/
theorem recent_health_is_formula_in_double_arithmetic (newest : LogEntry)
    (older : List LogEntry) (now : Int) (hrecent : now - newest.timestamp < dayMs) :
    AnalyticsService.getCurrentHealth (some (newest :: older)) now
        = doubleHealth newest.postRecovery (now - newest.timestamp)
      ∧ (1 ≤ newest.postRecovery ∧ newest.postRecovery ≤ 10 → newest.timestamp ≤ now →
          ∀ field exact, (field, exact) ∈
            [((AnalyticsService.getCurrentHealth (some (newest :: older)) now).recovery,
                rawRecovery newest.postRecovery (hoursSince now newest.timestamp)),
              ((AnalyticsService.getCurrentHealth (some (newest :: older)) now).fatigue,
                rawFatigue (rawRecovery newest.postRecovery (hoursSince now newest.timestamp))),
              ((AnalyticsService.getCurrentHealth (some (newest :: older)) now).focus,
                rawFocus (rawRecovery newest.postRecovery (hoursSince now newest.timestamp))),
              ((AnalyticsService.getCurrentHealth (some (newest :: older)) now).score,
                (1 / 2) * rawRecovery newest.postRecovery (hoursSince now newest.timestamp)
                  + (3 / 10) * rawFocus (rawRecovery newest.postRecovery
                      (hoursSince now newest.timestamp))
                  + (1 / 5) * (100 - rawFatigue (rawRecovery newest.postRecovery
                      (hoursSince now newest.timestamp))))] →
            |((field : Int) : ℚ) - exact| ≤ 1 / 2 + 1 / 10 ^ 9
              ∧ ((∀ k : Int, 1 / 10 ^ 9 < |exact - ((k : ℚ) + 1 / 2)|) →
                  field = mathRound exact)) := by
  have hcode := AnalyticsService.getCurrentHealth_of_recent newest older now hrecent
  refine ⟨hcode, ?_⟩
  intro hp hpast field exact hmem
  have hage : (0 : Int) ≤ now - newest.timestamp := by omega
  obtain ⟨hrec, hr0, hr1⟩ := doubleRecovery_near newest.postRecovery (now - newest.timestamp)
    hp hage
  have hh : ((now - newest.timestamp : Int) : ℚ) / 3600000
      = hoursSince now newest.timestamp := rfl
  rw [hh] at hrec hr0 hr1
  obtain ⟨hfat, hfoc, hsc⟩ := doubleParts_near _ _ hrec hr0 hr1
  have key : ∀ y x : ℚ, |y - x| ≤ 1 / 10 ^ 10 →
      |((mathRound y : Int) : ℚ) - x| ≤ 1 / 2 + 1 / 10 ^ 9
        ∧ ((∀ k : Int, 1 / 10 ^ 9 < |x - ((k : ℚ) + 1 / 2)|) → mathRound y = mathRound x) := by
    intro y x hyx
    obtain ⟨h1, h2⟩ := mathRound_of_near y x (1 / 10 ^ 9) (le_trans hyx (by norm_num))
    exact ⟨by linarith, h2⟩
  rw [hcode] at hmem
  simp only [doubleHealth, List.mem_cons, List.mem_singleton, Prod.mk.injEq, List.mem_nil_iff,
    or_false] at hmem
  rcases hmem with ⟨rfl, rfl⟩ | ⟨rfl, rfl⟩ | ⟨rfl, rfl⟩ | ⟨rfl, rfl⟩
  · exact key _ _ (le_trans hrec (by norm_num))
  · exact key _ _ hfat
  · exact key _ _ hfoc
  · exact key _ _ hsc

/-- A log with `postRecovery` 8 that is 2 hours old gives recovery 70, fatigue 50, focus 60 and
score 63, the roundings of the exact values 70, 50, 60 and 63. -/
theorem recent_health_is_formula_in_double_arithmetic_witness :
    hoursSince 7200000 (mkLog 0 "spa" 5 8).timestamp = 2
      ∧ AnalyticsService.getCurrentHealth (some [mkLog 0 "spa" 5 8]) 7200000
          = { score := 63, focus := 60, fatigue := 50, recovery := 70 }
      ∧ AnalyticsService.getCurrentHealth (some [mkLog 0 "spa" 5 8]) 7200000
          = doubleHealth (mkLog 0 "spa" 5 8).postRecovery (7200000 - (mkLog 0 "spa" 5 8).timestamp)
      ∧ (AnalyticsService.getCurrentHealth (some [mkLog 0 "spa" 5 8]) 7200000).recovery
          = mathRound (rawRecovery (mkLog 0 "spa" 5 8).postRecovery
              (hoursSince 7200000 (mkLog 0 "spa" 5 8).timestamp))
      ∧ rawRecovery 8 2 = 70 := by
  have h := recent_health_is_formula_in_double_arithmetic (mkLog 0 "spa" 5 8) [] 7200000
    (by decide!)
  refine ⟨by decide!, by decide!, h.1, ?_, by decide!⟩
  refine (h.2 (by decide) (by decide) _ _ (List.mem_cons_self _ _)).2 ?_
  intro k
  have h70 : rawRecovery (mkLog 0 "spa" 5 8).postRecovery
      (hoursSince 7200000 (mkLog 0 "spa" 5 8).timestamp) = 70 := by decide!
  rw [h70]
  have hk : (k : ℚ) ≤ 69 ∨ (70 : ℚ) ≤ (k : ℚ) := by
    rcases le_or_lt k 69 with h1 | h1
    · left
      exact_mod_cast h1
    · right
      have : (70 : Int) ≤ k := by omega
      exact_mod_cast this
  rcases hk with h1 | h1
  · rw [abs_of_nonneg (by linarith)]
    norm_num
    linarith
  · rw [abs_of_nonpos (by linarith)]
    norm_num
    linarith

/-! ## Analytics engine: the most effective reboot type -/

/-- The head of a stable descending sort is the first element of maximal key. -/
theorem jsSort_head_split {α : Type} (key : α → ℚ) (l : List α) (m : α)
    (h : (jsSort (fun a b => key b - key a) l)[0]? = some m) :
    ∃ l1 l2, l = l1 ++ m :: l2 ∧ (∀ x ∈ l1, key x < key m) ∧ (∀ x ∈ l2, key x ≤ key m) := by
  induction l generalizing m with
  | nil => simp [jsSort] at h
  | cons a l ih =>
    unfold jsSort at h ih
    rw [List.insertionSort] at h
    cases hs : List.insertionSort (fun a b => key b - key a ≤ 0) l with
    | nil =>
      have hl : l = [] := by
        have hp := List.perm_insertionSort (fun a b => key b - key a ≤ 0) l
        rw [hs] at hp
        exact hp.symm.eq_nil
      rw [hs] at h
      simp at h
      subst hl
      subst h
      exact ⟨[], [], rfl, by simp, by simp⟩
    | cons b t =>
      obtain ⟨l1, l2, hl, h1, h2⟩ := ih b (by rw [hs]; simp)
      rw [hs, List.orderedInsert] at h
      by_cases hr : key b - key a ≤ 0
      · rw [if_pos hr] at h
        simp at h
        subst h
        refine ⟨[], l, rfl, by simp, ?_⟩
        intro x hx
        have hba : key b ≤ key a := by linarith
        rw [hl] at hx
        rcases List.mem_append.mp hx with hx1 | hx2
        · exact le_trans (le_of_lt (h1 x hx1)) hba
        · rcases List.mem_cons.mp hx2 with rfl | hx3
          · exact hba
          · exact le_trans (h2 x hx3) hba
      · rw [if_neg hr] at h
        simp at h
        subst h
        refine ⟨a :: l1, l2, by rw [hl]; rfl, ?_, h2⟩
        intro x hx
        rcases List.mem_cons.mp hx with rfl | hx1
        · linarith
        · exact h1 x hx1

theorem firstSeenTypes_concat (l : List LogEntry) (x : LogEntry) :
    firstSeenTypes (l ++ [x])
      = if x.type ∈ firstSeenTypes l then firstSeenTypes l else firstSeenTypes l ++ [x.type] := by
  simp [firstSeenTypes, List.foldl_append]

theorem mem_firstSeenTypes (l : List LogEntry) (t : String) :
    t ∈ firstSeenTypes l ↔ ∃ log ∈ l, log.type = t := by
  induction l using List.reverseRecOn with
  | nil => simp [firstSeenTypes]
  | append_singleton l x ih =>
    rw [firstSeenTypes_concat]
    by_cases hx : x.type ∈ firstSeenTypes l
    · rw [if_pos hx]
      constructor
      · intro ht
        obtain ⟨log, hlog, hty⟩ := ih.mp ht
        exact ⟨log, by simp [hlog], hty⟩
      · rintro ⟨log, hlog, hty⟩
        rcases List.mem_append.mp hlog with h1 | h2
        · exact ih.mpr ⟨log, h1, hty⟩
        · simp at h2
          subst h2
          rw [← hty]
          exact hx
    · rw [if_neg hx]
      constructor
      · intro ht
        rcases List.mem_append.mp ht with h1 | h2
        · obtain ⟨log, hlog, hty⟩ := ih.mp h1
          exact ⟨log, by simp [hlog], hty⟩
        · simp at h2
          exact ⟨x, by simp, h2.symm⟩
      · rintro ⟨log, hlog, hty⟩
        rcases List.mem_append.mp hlog with h1 | h2
        · exact List.mem_append.mpr (Or.inl (ih.mpr ⟨log, h1, hty⟩))
        · simp at h2
          subst h2
          simp [hty]

/-- Every log before the first log of a type has a type that was seen earlier. -/
theorem firstSeenTypes_split (l : List LogEntry) (K1 K2 : List String) (k : String)
    (h : firstSeenTypes l = K1 ++ k :: K2) :
    ∃ pre x post, l = pre ++ x :: post ∧ x.type = k ∧ ∀ y ∈ pre, y.type ∈ K1 := by
  induction l using List.reverseRecOn generalizing K2 with
  | nil => simp [firstSeenTypes] at h
  | append_singleton l x ih =>
    rw [firstSeenTypes_concat] at h
    by_cases hx : x.type ∈ firstSeenTypes l
    · rw [if_pos hx] at h
      obtain ⟨pre, y, post, hl, hy, hpre⟩ := ih K2 h
      exact ⟨pre, y, post ++ [x], by rw [hl]; simp, hy, hpre⟩
    · rw [if_neg hx] at h
      rcases List.eq_nil_or_concat K2 with hK | ⟨K2', z, hK⟩
      · subst hK
        have h2 : firstSeenTypes l ++ [x.type] = K1 ++ [k] := h
        have h3 := List.append_inj' h2 rfl
        obtain ⟨hK1, hk⟩ := h3
        simp at hk
        refine ⟨l, x, [], rfl, hk, ?_⟩
        intro y hy
        rw [← hK1]
        exact (mem_firstSeenTypes l y.type).mpr ⟨y, hy, rfl⟩
      · subst hK
        have h2 : firstSeenTypes l ++ [x.type] = (K1 ++ k :: K2') ++ [z] := by
          rw [h]; simp
        have h3 := List.append_inj' h2 rfl
        obtain ⟨pre, y, post, hl, hy, hpre⟩ := ih K2' h3.1
        exact ⟨pre, y, post ++ [x], by rw [hl]; simp, hy, hpre⟩

namespace AnalyticsService

/-- The `typeRecovery` entry of type `t` after the logs `l`. -/
theorem has_map_iff {α : Type} (K : List String) (g : String → α) (k : String) :
    JSObject.has (K.map (fun t => (t, g t))) k = true ↔ k ∈ K := by
  simp [JSObject.has, List.any_map, List.any_eq_true]

theorem logsOfType_concat (l : List LogEntry) (x : LogEntry) (t : String) :
    logsOfType (l ++ [x]) t = logsOfType l t ++ (if x.type = t then [x] else []) := by
  by_cases h : x.type = t <;> simp [logsOfType, List.filter_append, List.filter_cons, h]

theorem logsOfType_eq_nil (l : List LogEntry) (t : String) (h : t ∉ firstSeenTypes l) :
    logsOfType l t = [] := by
  rw [logsOfType, List.filter_eq_nil_iff]
  intro log hlog
  simp only [decide_eq_true_eq]
  intro hty
  exact h ((mem_firstSeenTypes l t).mpr ⟨log, hlog, hty⟩)

theorem typeRecovery_table (l : List LogEntry) :
    l.foldl recordRecovery []
      = (firstSeenTypes l).map (fun t =>
          (t, ({ total := ((logsOfType l t).map (fun log => log.postRecovery)).sum
                 count := (logsOfType l t).length } : TypeRecovery))) := by
  induction l using List.reverseRecOn with
  | nil => simp [firstSeenTypes]
  | append_singleton l x ih =>
    rw [List.foldl_append, List.foldl_cons, List.foldl_nil, ih, firstSeenTypes_concat]
    unfold recordRecovery
    by_cases hx : x.type ∈ firstSeenTypes l
    · have hhas := (has_map_iff (firstSeenTypes l) (fun t =>
        ({ total := ((logsOfType l t).map (fun log => log.postRecovery)).sum
           count := (logsOfType l t).length } : TypeRecovery)) x.type).mpr hx
      simp only [hhas, if_true, if_pos hx, JSObject.modify, List.map_map]
      apply List.map_congr_left
      intro t _
      by_cases ht : t = x.type
      · subst ht
        simp [logsOfType_concat]
      · have ht2 : ¬ x.type = t := fun h => ht h.symm
        simp [logsOfType_concat, ht, ht2]
    · have hhas : ¬ (JSObject.has ((firstSeenTypes l).map (fun t =>
          (t, ({ total := ((logsOfType l t).map (fun log => log.postRecovery)).sum
                 count := (logsOfType l t).length } : TypeRecovery)))) x.type = true) := by
        rw [has_map_iff]; exact hx
      simp only [hhas, if_false, if_neg hx, JSObject.modify, JSObject.add, List.map_append,
        List.map_map, List.map_cons, List.map_nil, Bool.false_eq_true]
      congr 1
      · apply List.map_congr_left
        intro t ht
        have ht2 : ¬ t = x.type := fun h => hx (h ▸ ht)
        have ht3 : ¬ x.type = t := fun h => ht2 h.symm
        simp [logsOfType_concat, ht2, ht3]
      · simp [logsOfType_concat, logsOfType_eq_nil l x.type hx]

end AnalyticsService

namespace AnalyticsService

theorem bestReboot_eq (first : LogEntry) (rest : List LogEntry) (now tz : Int) :
    (calculateStats (some (first :: rest)) now tz).bestReboot
      = ((jsSort (fun a b => b.avg - a.avg)
          ((firstSeenTypes (first :: rest)).map
            (fun t => ({ type := t, avg := typeMean (first :: rest) t } : TypeAverage))))[0]?).map
          (fun b => b.type) := by
  simp only [calculateStats, typeRecovery_table, List.map_map]
  rfl

/-- The type chosen by `calculateStats`: its mean is maximal, and every log before its first
log has a type of strictly smaller mean. -/
theorem bestReboot_split (first : LogEntry) (rest : List LogEntry) (now tz : Int) :
    ∃ best pre x post,
      (calculateStats (some (first :: rest)) now tz).bestReboot = some best
        ∧ first :: rest = pre ++ x :: post ∧ x.type = best
        ∧ (∀ y ∈ pre, typeMean (first :: rest) y.type < typeMean (first :: rest) best)
        ∧ (∀ y ∈ first :: rest, typeMean (first :: rest) y.type
            ≤ typeMean (first :: rest) best) := by
  have hne : firstSeenTypes (first :: rest) ≠ [] := by
    intro hnil
    have hmem := (mem_firstSeenTypes (first :: rest) first.type).mpr ⟨first, by simp, rfl⟩
    rw [hnil] at hmem
    simp at hmem
  obtain ⟨m, hm⟩ : ∃ m, (jsSort (fun a b : TypeAverage => b.avg - a.avg)
      ((firstSeenTypes (first :: rest)).map
        (fun t => ({ type := t, avg := typeMean (first :: rest) t } : TypeAverage))))[0]?
      = some m := by
    have hlen : 0 < (jsSort (fun a b : TypeAverage => b.avg - a.avg)
        ((firstSeenTypes (first :: rest)).map
          (fun t => ({ type := t, avg := typeMean (first :: rest) t } : TypeAverage)))).length := by
      unfold jsSort
      rw [List.length_insertionSort, List.length_map]
      exact List.length_pos.mpr hne
    exact ⟨_, List.getElem?_eq_getElem hlen⟩
  obtain ⟨M1, M2, hM, hlt, hle⟩ := jsSort_head_split TypeAverage.avg _ m hm
  obtain ⟨K1, K2', hK, hK1, hK2⟩ := List.map_eq_append_iff.mp hM
  obtain ⟨k, K2, hK2eq, hk, _⟩ := List.map_eq_cons_iff.mp hK2
  subst hK2eq
  obtain ⟨pre, x, post, hsplit, hx, hpre⟩ := firstSeenTypes_split _ K1 K2 k hK
  have hmk : m.type = k := by rw [← hk]
  have hmavg : m.avg = typeMean (first :: rest) k := by rw [← hk]
  refine ⟨k, pre, x, post, ?_, hsplit, hx, ?_, ?_⟩
  · rw [bestReboot_eq, hm]
    simp [hmk]
  · intro y hy
    have hy1 := hpre y hy
    have hmem : ({ type := y.type, avg := typeMean (first :: rest) y.type } : TypeAverage)
        ∈ M1 := by
      rw [← hK1]
      exact List.mem_map.mpr ⟨y.type, hy1, rfl⟩
    have := hlt _ hmem
    rw [hmavg] at this
    exact this
  · intro y hy
    have hy1 : y.type ∈ firstSeenTypes (first :: rest) :=
      (mem_firstSeenTypes _ _).mpr ⟨y, hy, rfl⟩
    rw [hK] at hy1
    rcases List.mem_append.mp hy1 with h1 | h2
    · have hmem : ({ type := y.type, avg := typeMean (first :: rest) y.type } : TypeAverage)
          ∈ M1 := by
        rw [← hK1]
        exact List.mem_map.mpr ⟨y.type, h1, rfl⟩
      have := hlt _ hmem
      rw [hmavg] at this
      exact le_of_lt this
    · rcases List.mem_cons.mp h2 with h3 | h4
      · rw [h3]
      · have hmem : ({ type := y.type, avg := typeMean (first :: rest) y.type } : TypeAverage)
            ∈ M2 := by
          have hK2' : List.map (fun t => ({ type := t, avg := typeMean (first :: rest) t } :
              TypeAverage)) K2 = M2 := by assumption
          rw [← hK2']
          exact List.mem_map.mpr ⟨y.type, h4, rfl⟩
        have := hle _ hmem
        rw [hmavg] at this
        exact this

end AnalyticsService

/-- Claim C10: for a non-empty log list, `bestReboot` of `calculateStats` is a type that occurs
in the logs, no type has a greater mean `postRecovery`, and every type of the same mean is first
seen in the list no earlier than it. -/
theorem bestReboot_is_first_seen_type_of_highest_mean (first : LogEntry) (rest : List LogEntry)
    (now tz : Int) :
    ∃ best, (AnalyticsService.calculateStats (some (first :: rest)) now tz).bestReboot = some best
      ∧ best ∈ (first :: rest).map (fun log => log.type)
      ∧ (∀ t ∈ (first :: rest).map (fun log => log.type),
          typeMean (first :: rest) t ≤ typeMean (first :: rest) best)
      ∧ (∀ t ∈ (first :: rest).map (fun log => log.type),
          typeMean (first :: rest) t = typeMean (first :: rest) best →
          ((first :: rest).map (fun log => log.type)).indexOf best
            ≤ ((first :: rest).map (fun log => log.type)).indexOf t) := by
  obtain ⟨best, pre, x, post, hbest, hsplit, hx, hpre, hall⟩ :=
    AnalyticsService.bestReboot_split first rest now tz
  have hnot : ∀ t, typeMean (first :: rest) t = typeMean (first :: rest) best →
      t ∉ pre.map (fun log => log.type) := by
    intro t ht hmem
    obtain ⟨y, hy, hyt⟩ := List.mem_map.mp hmem
    have := hpre y hy
    rw [hyt, ht] at this
    exact lt_irrefl _ this
  have hidx : ∀ t, typeMean (first :: rest) t = typeMean (first :: rest) best →
      pre.length ≤ ((first :: rest).map (fun log => log.type)).indexOf t := by
    intro t ht
    rw [hsplit, List.map_append, List.indexOf_append_of_not_mem (hnot t ht), List.length_map]
    exact Nat.le_add_right _ _
  refine ⟨best, hbest, ?_, ?_, ?_⟩
  · rw [hsplit]
    exact List.mem_map.mpr ⟨x, by simp, hx⟩
  · intro t ht
    obtain ⟨y, hy, hyt⟩ := List.mem_map.mp ht
    rw [← hyt]
    exact hall y hy
  · intro t _ hmean
    have hb : ((first :: rest).map (fun log => log.type)).indexOf best = pre.length := by
      rw [hsplit, List.map_append, List.indexOf_append_of_not_mem (hnot best rfl),
        List.length_map, List.map_cons, hx, List.indexOf_cons_self]
      rfl
    rw [hb]
    exact hidx t hmean

/-- Recoveries 8, 6, 4 for the types spa, spa, sleep: `bestReboot` is spa (mean 7 against 4). -/
theorem bestReboot_is_first_seen_type_of_highest_mean_witness :
    (AnalyticsService.calculateStats (some spaSleepLogs) 0 0).bestReboot = some "spa"
      ∧ typeMean spaSleepLogs "spa" = 7 ∧ typeMean spaSleepLogs "sleep" = 4
      ∧ ∃ best, (AnalyticsService.calculateStats (some spaSleepLogs) 0 0).bestReboot = some best
        ∧ best ∈ spaSleepLogs.map (fun log => log.type)
        ∧ (∀ t ∈ spaSleepLogs.map (fun log => log.type),
            typeMean spaSleepLogs t ≤ typeMean spaSleepLogs best)
        ∧ (∀ t ∈ spaSleepLogs.map (fun log => log.type),
            typeMean spaSleepLogs t = typeMean spaSleepLogs best →
            (spaSleepLogs.map (fun log => log.type)).indexOf best
              ≤ (spaSleepLogs.map (fun log => log.type)).indexOf t) :=
  ⟨by decide!, by decide!, by decide!,
    bestReboot_is_first_seen_type_of_highest_mean (mkLog 0 "spa" 5 8)
      [mkLog (-3600000) "spa" 5 6, mkLog (-7200000) "sleep" 5 4] 0 0⟩

/-! ## Facts about number rendering and parsing -/

theorem digitChar_isDigit (k : Nat) (h : k < 10) :
    (Nat.digitChar k).isDigit = true ∧ (Nat.digitChar k).toNat - 48 = k := by
  interval_cases k <;> decide

/-- The digits that `toDigitsCore` puts in front of `ds` are decimal digits whose value is `n`,
once the fuel exceeds `n`. -/
theorem toDigitsCore_spec (fuel n : Nat) (ds : List Char) (h : n < fuel) :
    ∃ L, Nat.toDigitsCore 10 fuel n ds = L ++ ds ∧ L ≠ [] ∧ (∀ c ∈ L, c.isDigit = true)
      ∧ (∀ acc : Nat, L.foldl (fun acc c => acc * 10 + (c.toNat - 48)) acc
          = acc * 10 ^ L.length + n)
      ∧ (n < 10 → L.length = 1) := by
  induction fuel generalizing n ds with
  | zero => omega
  | succ fuel ih =>
    have hd := digitChar_isDigit (n % 10) (Nat.mod_lt _ (by norm_num))
    unfold Nat.toDigitsCore
    by_cases h0 : n / 10 = 0
    · simp only [h0, if_true]
      refine ⟨[Nat.digitChar (n % 10)], rfl, by simp, ?_, ?_, ?_⟩
      · intro c hc
        simp at hc
        rw [hc]
        exact hd.1
      · intro acc
        simp only [List.foldl_cons, List.foldl_nil, List.length_singleton, pow_one, hd.2]
        omega
      · intro _
        rfl
    · simp only [h0, if_false]
      have hlt : n / 10 < fuel := by omega
      obtain ⟨L, hL, _, hdig, hval, _⟩ := ih (n / 10) (Nat.digitChar (n % 10) :: ds) hlt
      refine ⟨L ++ [Nat.digitChar (n % 10)], by rw [hL]; simp, by simp, ?_, ?_, ?_⟩
      · intro c hc
        rcases List.mem_append.mp hc with h1 | h2
        · exact hdig c h1
        · simp at h2
          rw [h2]
          exact hd.1
      · intro acc
        rw [List.foldl_append, hval]
        simp only [List.foldl_cons, List.foldl_nil, List.length_append, List.length_singleton,
          hd.2, pow_succ]
        have := Nat.div_add_mod n 10
        nlinarith [Nat.div_add_mod n 10]
      · intro h10
        omega

theorem toString_nat_spec (n : Nat) :
    (toString n).toList ≠ [] ∧ (∀ c ∈ (toString n).toList, c.isDigit = true)
      ∧ digitsValue (toString n).toList = n ∧ (n < 10 → (toString n).toList.length = 1) := by
  obtain ⟨L, hL, hne, hdig, hval, hlen⟩ := toDigitsCore_spec (n + 1) n [] (by omega)
  have hrepr : (toString n).toList = L := by
    show (Nat.repr n).toList = L
    unfold Nat.repr Nat.toDigits
    rw [hL]
    simp [List.asString]
  rw [hrepr]
  refine ⟨hne, hdig, ?_, hlen⟩
  unfold digitsValue
  rw [hval]
  simp

theorem takeWhile_append_stop {α : Type} (p : α → Bool) (L R : List α) (c : α)
    (hL : ∀ x ∈ L, p x = true) (hc : p c = false) :
    (L ++ c :: R).takeWhile p = L ∧ (L ++ c :: R).dropWhile p = c :: R := by
  induction L with
  | nil => simp [List.takeWhile, List.dropWhile, hc]
  | cons x xs ih =>
    have hx : p x = true := hL x (by simp)
    have ih2 := ih (fun y hy => hL y (by simp [hy]))
    simp [List.takeWhile, List.dropWhile, hx, ih2.1, ih2.2]

theorem takeWhile_all {α : Type} (p : α → Bool) (L : List α) (hL : ∀ x ∈ L, p x = true) :
    L.takeWhile p = L := by
  induction L with
  | nil => rfl
  | cons x xs ih =>
    have hx : p x = true := hL x (by simp)
    simp [List.takeWhile, hx, ih (fun y hy => hL y (by simp [hy]))]

/-- Reading back the text with one decimal gives the value rounded to one decimal. -/
theorem parseFloatString_decimalText1 (x : ℚ) :
    parseFloatString (decimalText1 x) = some (roundToTenth x) := by
  obtain ⟨hne1, hdig1, hval1, _⟩ := toString_nat_spec (⌊|x| * 10 + 1 / 2⌋.toNat / 10)
  obtain ⟨hne2, hdig2, hval2, hlen2⟩ := toString_nat_spec (⌊|x| * 10 + 1 / 2⌋.toNat % 10)
  have hlen2b := hlen2 (Nat.mod_lt _ (by norm_num))
  have hlist : (decimalText1 x).toList = (if x < 0 then ['-'] else [])
      ++ (toString (⌊|x| * 10 + 1 / 2⌋.toNat / 10)).toList ++ '.'
        :: (toString (⌊|x| * 10 + 1 / 2⌋.toNat % 10)).toList := by
    unfold decimalText1
    by_cases hx : x < 0 <;> simp [hx, String.toList]
  unfold roundToTenth
  generalize ⌊|x| * 10 + 1 / 2⌋.toNat = n at *
  generalize (toString (n / 10)).toList = D1 at *
  generalize (toString (n % 10)).toList = D2 at *
  obtain ⟨d1, D1', rfl⟩ := List.exists_cons_of_ne_nil hne1
  have hd1 : d1.isDigit = true := hdig1 d1 (by simp)
  have hd1m : d1 ≠ '-' := by
    intro h; rw [h] at hd1; revert hd1; decide
  have hd1p : d1 ≠ '+' := by
    intro h; rw [h] at hd1; revert hd1; decide
  have hdot : Char.isDigit '.' = false := by decide
  have hsplit := takeWhile_append_stop Char.isDigit (d1 :: D1') D2 '.' hdig1 hdot
  have hfrac := takeWhile_all Char.isDigit D2 hdig2
  simp only [List.cons_append] at hsplit
  have hq : ((n / 10 : Nat) : ℚ) + ((n % 10 : Nat) : ℚ) / 10 = (n : ℚ) / 10 := by
    have h := Nat.div_add_mod n 10
    have h2 : (n : ℚ) = 10 * ((n / 10 : Nat) : ℚ) + ((n % 10 : Nat) : ℚ) := by
      exact_mod_cast h.symm
    rw [h2]; ring
  unfold parseFloatString
  rw [hlist]
  by_cases hx : x < 0
  · simp only [hx, if_true]
    simp [hsplit.1, hsplit.2, hfrac, hval1, hval2, hlen2b, hq]
  · simp only [hx, if_false, List.nil_append]
    simp [hd1m, hd1p, hsplit.1, hsplit.2, hfrac, hval1, hval2, hlen2b, hq]

/-- Reading back the text of `toFixed(1)` gives the Number of the value, rounded to one
decimal. -/
theorem parseFloatString_toFixed1 (x : ℚ) :
    parseFloatString (toFixed1 x) = some (roundToTenth (toDouble x)) :=
  parseFloatString_decimalText1 _

/-! ## The agent's best reboot type -/

theorem roundToTenth_near (x : ℚ) : |roundToTenth x - x| ≤ 1 / 20 := by
  have hnn : (0 : ℚ) ≤ |x| * 10 + 1 / 2 := by positivity
  have hfl : (0 : Int) ≤ ⌊|x| * 10 + 1 / 2⌋ := Int.floor_nonneg.mpr hnn
  have hcast : ((⌊|x| * 10 + 1 / 2⌋.toNat : Nat) : ℚ) = ((⌊|x| * 10 + 1 / 2⌋ : Int) : ℚ) := by
    have h := Int.toNat_of_nonneg hfl
    exact_mod_cast congrArg (fun z : Int => (z : ℚ)) h
  have h1 : ((⌊|x| * 10 + 1 / 2⌋ : Int) : ℚ) ≤ |x| * 10 + 1 / 2 := Int.floor_le _
  have h2 : |x| * 10 + 1 / 2 < ((⌊|x| * 10 + 1 / 2⌋ : Int) : ℚ) + 1 := Int.lt_floor_add_one _
  unfold roundToTenth
  rw [hcast]
  by_cases hx : x < 0
  · rw [if_pos hx, abs_le]
    have hab : |x| = -x := abs_of_neg hx
    constructor <;> linarith
  · rw [if_neg hx, abs_le]
    have hab : |x| = x := abs_of_nonneg (not_lt.mp hx)
    constructor <;> linarith

/-- The value that `toFixed(1)` displays is a multiple of 0.1 within 0.05 of the real value,
up to the rounding of the real value to a Number. -/
theorem displayed_near (x : ℚ) :
    |roundToTenth (toDouble x) - x| ≤ 1 / 20 + |x| / 2 ^ 53
      ∧ ∃ n : Int, roundToTenth (toDouble x) = (n : ℚ) / 10 := by
  constructor
  · have h1 := abs_le.mp (roundToTenth_near (toDouble x))
    have h2 := abs_le.mp (toDouble_near x)
    rw [abs_le]
    constructor <;> linarith [h1.1, h1.2, h2.1, h2.2]
  · unfold roundToTenth
    by_cases hx : toDouble x < 0
    · refine ⟨-(⌊|toDouble x| * 10 + 1 / 2⌋.toNat : Int), ?_⟩
      rw [if_pos hx]
      push_cast
      ring
    · refine ⟨(⌊|toDouble x| * 10 + 1 / 2⌋.toNat : Int), ?_⟩
      rw [if_neg hx]
      push_cast
      ring

/-- Away from the ties the displayed value is the real value rounded to one decimal: this
holds for a quotient `s / n` of integers with `20 * |s| < 2 ^ 53` that is not of the form
`k / 10 + 1 / 20`. -/
theorem displayed_eq_of_no_tie (s : Int) (n : Nat) (hn : 0 < n)
    (hs : 20 * |(s : ℚ)| < 2 ^ 53)
    (htie : ∀ k : Int, |(s : ℚ) / n| * 10 + 1 / 2 ≠ (k : ℚ)) :
    roundToTenth (toDouble ((s : ℚ) / n)) = roundToTenth ((s : ℚ) / n) := by
  obtain ⟨x, hx⟩ : ∃ x : ℚ, x = (s : ℚ) / n := ⟨_, rfl⟩
  have hnq : (0 : ℚ) < (n : ℚ) := by exact_mod_cast hn
  rw [← hx] at htie ⊢
  have hnear := toDouble_near x
  have habsx : |x| = |(s : ℚ)| / n := by
    rw [hx, abs_div, abs_of_pos hnq]
  -- the error of the Number is below the distance 1 / (2n) to the nearest tie
  have herr : |x| / 2 ^ 53 * 10 < 1 / (2 * (n : ℚ)) := by
    rw [habsx, div_div, div_mul_eq_mul_div, div_lt_div_iff₀ (by positivity) (by positivity)]
    nlinarith [abs_nonneg (s : ℚ)]
  -- the scaled value is a multiple of 1 / (2n), and not an integer
  have hfrac : ∀ k : Int, 1 / (2 * (n : ℚ)) ≤ |(|x| * 10 + 1 / 2) - (k : ℚ)| := by
    intro k
    have hne := htie k
    have hform : (|x| * 10 + 1 / 2) - (k : ℚ)
        = (((20 * |s| + n - 2 * n * k : Int) : ℚ)) / (2 * (n : ℚ)) := by
      rw [habsx]
      push_cast
      field_simp
      ring
    have hnz : (20 * |s| + n - 2 * n * k : Int) ≠ 0 := by
      intro h0
      apply hne
      have : (|x| * 10 + 1 / 2) - (k : ℚ) = 0 := by
        rw [hform, h0]
        simp
      linarith
    rw [hform, abs_div, abs_of_pos (by positivity : (0 : ℚ) < 2 * (n : ℚ))]
    rw [div_le_div_iff₀ (by positivity) (by positivity)]
    have h1 : (1 : ℚ) ≤ |((20 * |s| + n - 2 * n * k : Int) : ℚ)| := by
      have : (1 : Int) ≤ |(20 * |s| + n - 2 * n * k : Int)| := Int.one_le_abs hnz
      exact_mod_cast this
    nlinarith
  -- so the floor is not moved
  have habsd : |(|toDouble x| - |x|)| ≤ |x| / 2 ^ 53 :=
    le_trans (abs_abs_sub_abs_le_abs_sub _ _) hnear
  have hfloor : ⌊|toDouble x| * 10 + 1 / 2⌋ = ⌊|x| * 10 + 1 / 2⌋ := by
    rw [Int.floor_eq_iff]
    have h0 : ((⌊|x| * 10 + 1 / 2⌋ : Int) : ℚ) ≤ |x| * 10 + 1 / 2 := Int.floor_le _
    have h1 : |x| * 10 + 1 / 2 < ((⌊|x| * 10 + 1 / 2⌋ : Int) : ℚ) + 1 :=
      Int.lt_floor_add_one _
    have hlo := hfrac ⌊|x| * 10 + 1 / 2⌋
    have hhi := hfrac (⌊|x| * 10 + 1 / 2⌋ + 1)
    rw [abs_of_nonneg (by linarith)] at hlo
    push_cast at hhi
    rw [abs_of_nonpos (by linarith)] at hhi
    obtain ⟨d1, d2⟩ := abs_le.mp habsd
    constructor <;> linarith
  -- and the sign is kept
  have hsign : (toDouble x < 0) ↔ (x < 0) := by
    obtain ⟨e1, e2⟩ := abs_le.mp hnear
    have hsmall : |x| / 2 ^ 53 ≤ |x| / 2 := by
      apply div_le_div_of_nonneg_left (abs_nonneg _) (by norm_num) (by norm_num)
    constructor
    · intro h
      by_contra hge
      have hx0 : 0 ≤ x := not_lt.mp hge
      rw [abs_of_nonneg hx0] at e1 hsmall
      linarith
    · intro h
      rw [abs_of_neg h] at e2 hsmall
      linarith
  unfold roundToTenth
  rw [hfloor]
  by_cases hneg : x < 0
  · rw [if_pos hneg, if_pos (hsign.mpr hneg)]
  · rw [if_neg hneg, if_neg (fun h => hneg (hsign.mp h))]

/-- A Number is negative exactly when the value it rounds is. -/
theorem toDouble_neg_iff (x : ℚ) : toDouble x < 0 ↔ x < 0 := by
  obtain ⟨e1, e2⟩ := abs_le.mp (toDouble_near x)
  have hsmall : |x| / 2 ^ 53 ≤ |x| / 2 := by
    apply div_le_div_of_nonneg_left (abs_nonneg _) (by norm_num) (by norm_num)
  constructor
  · intro h
    by_contra hge
    have hx0 : 0 ≤ x := not_lt.mp hge
    rw [abs_of_nonneg hx0] at e1 hsmall
    linarith
  · intro h
    rw [abs_of_neg h] at e2 hsmall
    linarith

/-- The value that `toFixed(1)` displays for a quotient `s / n` of integers with
`20 * |s| < 2 ^ 53` is a one-decimal value nearest to the quotient: it is within 0.05 of it. -/
theorem displayed_nearest (s : Int) (n : Nat) (hn : 0 < n) (hs : 20 * |(s : ℚ)| < 2 ^ 53) :
    |roundToTenth (toDouble ((s : ℚ) / n)) - (s : ℚ) / n| ≤ 1 / 20 := by
  by_cases htie : ∀ k : Int, |(s : ℚ) / n| * 10 + 1 / 2 ≠ (k : ℚ)
  · rw [displayed_eq_of_no_tie s n hn hs htie]
    exact roundToTenth_near _
  · push_neg at htie
    obtain ⟨k, hk⟩ := htie
    obtain ⟨x, hx⟩ : ∃ x : ℚ, x = (s : ℚ) / n := ⟨_, rfl⟩
    rw [← hx] at hk ⊢
    have hnq : (1 : ℚ) ≤ (n : ℚ) := by exact_mod_cast hn
    have hxabs : |x| ≤ |(s : ℚ)| := by
      rw [hx, abs_div, abs_of_pos (by linarith : (0 : ℚ) < n)]
      exact div_le_self (abs_nonneg _) hnq
    have hnear := toDouble_near x
    have habsd := abs_le.mp (le_trans (abs_abs_sub_abs_le_abs_sub (toDouble x) x) hnear)
    have herr : |x| / 2 ^ 53 * 10 < 1 / 2 := by
      rw [div_mul_eq_mul_div, div_lt_iff₀ (by norm_num)]
      linarith
    have hk1 : (1 : Int) ≤ k := by
      have : (0 : ℚ) < (k : ℚ) := by
        rw [← hk]
        have := abs_nonneg x
        linarith
      have h0 : (0 : Int) < k := by exact_mod_cast this
      omega
    have hxne : x ≠ 0 := by
      intro h0
      rw [h0, abs_zero] at hk
      have h1 : ((1 : Int) : ℚ) ≤ (k : ℚ) := by exact_mod_cast hk1
      have h2 : (k : ℚ) = 1 / 2 := by linarith
      rw [h2] at h1
      norm_num at h1
    have hfl : ⌊|toDouble x| * 10 + 1 / 2⌋ = k ∨ ⌊|toDouble x| * 10 + 1 / 2⌋ = k - 1 := by
      by_cases hge : (k : ℚ) ≤ |toDouble x| * 10 + 1 / 2
      · left
        rw [Int.floor_eq_iff]
        constructor <;> linarith [habsd.1, habsd.2]
      · right
        rw [Int.floor_eq_iff]
        push_cast
        constructor <;> linarith [habsd.1, habsd.2]
    have hval : ∀ j : Int, (j = k ∨ j = k - 1) →
        |((j.toNat : ℚ)) / 10 - abs x| ≤ 1 / 20 := by
      intro j hj
      have hj0 : 0 ≤ j := by omega
      have hcast : ((j.toNat : ℚ)) = (j : ℚ) := by
        have : ((j.toNat : Int)) = j := Int.toNat_of_nonneg hj0
        exact_mod_cast this
      rw [hcast, abs_le]
      rcases hj with rfl | rfl
      · constructor <;> linarith
      · push_cast
        constructor <;> linarith
    have hv := hval _ hfl
    unfold roundToTenth
    by_cases hneg : x < 0
    · rw [if_pos ((toDouble_neg_iff x).mpr hneg)]
      rw [abs_of_neg hneg] at hv
      have := abs_le.mp hv
      rw [abs_le]
      constructor <;> linarith [this.1, this.2]
    · rw [if_neg (fun h => hneg ((toDouble_neg_iff x).mp h))]
      rw [abs_of_nonneg (not_lt.mp hneg)] at hv
      rw [one_mul]
      exact hv

/-- Comparing the Number of a quotient `s / n`, `n` below `2 ^ 32`, with a threshold `a / 20`
up to 10 is comparing the quotient itself, when the Number of the threshold is not below the
threshold. -/
theorem toDouble_lt_twentieth (s : Int) (n a : Nat) (hn : 0 < n) (hn2 : n < 2 ^ 32)
    (ha : a ≤ 200) (hc : (a : ℚ) / 20 ≤ toDouble ((a : ℚ) / 20)) :
    toDouble ((s : ℚ) / n) < (a : ℚ) / 20 ↔ (s : ℚ) / n < (a : ℚ) / 20 := by
  have hnq : (0 : ℚ) < (n : ℚ) := by exact_mod_cast hn
  have hnq2 : (n : ℚ) < 4294967296 := by exact_mod_cast hn2
  have haq : (a : ℚ) ≤ 200 := by exact_mod_cast ha
  have haq0 : (0 : ℚ) ≤ (a : ℚ) := by positivity
  have hgap : (11 : ℚ) / 2 ^ 53 < 1 / (20 * (n : ℚ)) := by
    rw [div_lt_div_iff₀ (by positivity) (by positivity)]
    norm_num
    linarith
  obtain ⟨x, hx⟩ : ∃ x : ℚ, x = (s : ℚ) / n := ⟨_, rfl⟩
  rw [← hx]
  obtain ⟨e1, e2⟩ := abs_le.mp (toDouble_near x)
  constructor
  · intro hlt
    by_contra hge
    have hge2 : (a : ℚ) / 20 ≤ x := not_lt.mp hge
    rcases eq_or_lt_of_le hge2 with heq | hgt
    · rw [← heq] at hlt
      linarith
    · -- the quotient exceeds the threshold by at least 1 / (20 n)
      have hstep : (a : ℚ) / 20 + 1 / (20 * (n : ℚ)) ≤ x := by
        have hint : (a : Int) * n < 20 * s := by
          have : ((a : ℚ)) * n < 20 * s := by
            rw [hx, div_lt_div_iff₀ (by norm_num) hnq] at hgt
            linarith
          exact_mod_cast this
        have hint2 : ((a : Int) * n + 1 : ℚ) ≤ 20 * s := by
          have : (a : Int) * n + 1 ≤ 20 * s := by omega
          exact_mod_cast this
        rw [hx, div_add_div _ _ (by norm_num) (by positivity), div_le_div_iff₀ (by positivity) hnq]
        push_cast at hint2
        nlinarith
      have hx0 : 0 ≤ x := by
        have : (0 : ℚ) ≤ (a : ℚ) / 20 := by positivity
        linarith
      rw [abs_of_nonneg hx0] at e1
      by_cases hbig : 11 ≤ x
      · have : x / 2 ^ 53 ≤ x / 11 := by
          apply div_le_div_of_nonneg_left hx0 (by norm_num) (by norm_num)
        linarith
      · have : x / 2 ^ 53 ≤ 11 / 2 ^ 53 := by
          apply div_le_div_of_nonneg_right (by linarith) (by norm_num)
        linarith
  · intro hlt
    rcases lt_or_le x 0 with hneg | hx0
    · have : toDouble x < 0 := (toDouble_neg_iff x).mpr hneg
      have : (0 : ℚ) ≤ (a : ℚ) / 20 := by positivity
      linarith
    · have hstep : x + 1 / (20 * (n : ℚ)) ≤ (a : ℚ) / 20 := by
        have hint : 20 * s < (a : Int) * n := by
          have : (20 : ℚ) * s < (a : ℚ) * n := by
            rw [hx, div_lt_div_iff₀ hnq (by norm_num)] at hlt
            linarith
          exact_mod_cast this
        have hint2 : (20 * s + 1 : ℚ) ≤ (a : ℚ) * n := by
          have : 20 * s + 1 ≤ (a : Int) * n := by omega
          exact_mod_cast this
        rw [hx, div_add_div _ _ (by positivity) (by positivity),
          div_le_div_iff₀ (by positivity) (by norm_num)]
        nlinarith
      rw [abs_of_nonneg hx0] at e2
      have : x / 2 ^ 53 ≤ 11 / 2 ^ 53 := by
        apply div_le_div_of_nonneg_right (by linarith) (by norm_num)
      linarith

/-- The Numbers of 4.95 and 6.95 are not below these values. -/
theorem toDouble_thresholds :
    ((99 : Nat) : ℚ) / 20 ≤ toDouble (((99 : Nat) : ℚ) / 20)
      ∧ ((139 : Nat) : ℚ) / 20 ≤ toDouble (((139 : Nat) : ℚ) / 20) := by
  constructor <;> decide!

/-- Sorting the table entries by their mean is sorting the types by their mean. -/
theorem jsSort_map_types {β : Type} (logs : List LogEntry) (K : List String)
    (φ : String → β) (key : β → ℚ) (hkey : ∀ t, key (φ t) = typeMean logs t) :
    jsSort (fun a b => key b - key a) (K.map φ)
      = (jsSort (fun a b => typeMean logs b - typeMean logs a) K).map φ := by
  unfold jsSort
  symm
  apply List.map_insertionSort
  intro a _ b _
  simp only [hkey]

namespace AIAgent

theorem typeStats_table (l : List LogEntry) :
    l.foldl recordLog []
      = (firstSeenTypes l).map (fun t =>
          (t, ({ count := (logsOfType l t).length
                 totalRecovery := ((logsOfType l t).map (fun log => log.postRecovery)).sum
                 avgRecovery := 0 } : TypeStat))) := by
  induction l using List.reverseRecOn with
  | nil => simp [firstSeenTypes]
  | append_singleton l x ih =>
    rw [List.foldl_append, List.foldl_cons, List.foldl_nil, ih, firstSeenTypes_concat]
    unfold recordLog
    by_cases hx : x.type ∈ firstSeenTypes l
    · have hhas := (AnalyticsService.has_map_iff (firstSeenTypes l) (fun t =>
        ({ count := (logsOfType l t).length
           totalRecovery := ((logsOfType l t).map (fun log => log.postRecovery)).sum
           avgRecovery := 0 } : TypeStat)) x.type).mpr hx
      simp only [hhas, if_true, if_pos hx, JSObject.modify, List.map_map]
      apply List.map_congr_left
      intro t _
      by_cases ht : t = x.type
      · subst ht
        simp [AnalyticsService.logsOfType_concat]
      · have ht2 : ¬ x.type = t := fun h => ht h.symm
        simp [AnalyticsService.logsOfType_concat, ht, ht2]
    · have hhas : ¬ (JSObject.has ((firstSeenTypes l).map (fun t =>
          (t, ({ count := (logsOfType l t).length
                 totalRecovery := ((logsOfType l t).map (fun log => log.postRecovery)).sum
                 avgRecovery := 0 } : TypeStat)))) x.type = true) := by
        rw [AnalyticsService.has_map_iff]; exact hx
      simp only [hhas, if_false, if_neg hx, JSObject.modify, JSObject.add, List.map_append,
        List.map_map, List.map_cons, List.map_nil, Bool.false_eq_true]
      congr 1
      · apply List.map_congr_left
        intro t ht
        have ht2 : ¬ t = x.type := fun h => hx (h ▸ ht)
        have ht3 : ¬ x.type = t := fun h => ht2 h.symm
        simp [AnalyticsService.logsOfType_concat, ht2, ht3]
      · simp [AnalyticsService.logsOfType_concat, AnalyticsService.logsOfType_eq_nil l x.type hx]

theorem findBestRebootType_eq (logs : List LogEntry) (h : 5 ≤ logs.length) :
    findBestRebootType logs
      = ((jsSort (fun a b => typeMean logs b - typeMean logs a) (firstSeenTypes logs))[0]?).map
          (fun t => ({ type := t, avgRecovery := toFixed1 (typeMean logs t) } : BestType)) := by
  have hlen : ¬ logs.length < 5 := by omega
  unfold findBestRebootType
  rw [if_neg hlen]
  simp only [typeStats_table, List.map_map]
  have hsort := jsSort_map_types logs (firstSeenTypes logs)
    (fun t => ((t, (⟨(logsOfType logs t).length,
      ((logsOfType logs t).map (fun log => log.postRecovery)).sum,
      typeMean logs t⟩ : TypeStat)) : String × TypeStat))
    (fun e => e.2.avgRecovery) (fun t => rfl)
  have hfun : ((fun e : String × TypeStat =>
        (e.1, ({ e.2 with avgRecovery := (e.2.totalRecovery : ℚ) / e.2.count } : TypeStat))) ∘
      fun t => (t, (⟨(logsOfType logs t).length,
        ((logsOfType logs t).map (fun log => log.postRecovery)).sum, 0⟩ : TypeStat)))
      = (fun t => ((t, (⟨(logsOfType logs t).length,
        ((logsOfType logs t).map (fun log => log.postRecovery)).sum,
        typeMean logs t⟩ : TypeStat)) : String × TypeStat)) := by
    funext t
    rfl
  rw [hfun, hsort]
  cases hs : (jsSort (fun a b => typeMean logs b - typeMean logs a) (firstSeenTypes logs)) with
  | nil => simp
  | cons t ts => simp

end AIAgent

namespace AnalyticsService

theorem bestReboot_eq_sortedTypes (first : LogEntry) (rest : List LogEntry) (now tz : Int) :
    (calculateStats (some (first :: rest)) now tz).bestReboot
      = (jsSort (fun a b => typeMean (first :: rest) b - typeMean (first :: rest) a)
          (firstSeenTypes (first :: rest)))[0]? := by
  rw [bestReboot_eq]
  rw [jsSort_map_types (first :: rest) (firstSeenTypes (first :: rest))
    (fun t => ({ type := t, avg := typeMean (first :: rest) t } : TypeAverage))
    (fun e => e.avg) (fun t => rfl)]
  cases (jsSort (fun a b => typeMean (first :: rest) b - typeMean (first :: rest) a)
    (firstSeenTypes (first :: rest))) with
  | nil => simp
  | cons t ts => simp

end AnalyticsService

/-- The displayed mean of a list of logs: when twenty times the sum of the scores stays below
`2 ^ 53`, the value that `toFixed(1)` displays is within 0.05 of the mean, and it is the mean
rounded to one decimal unless the mean lies halfway between two one-decimal values. -/
theorem displayed_mean (logs : List LogEntry)
    (hsum : 20 * |(logs.map (fun log => log.postRecovery)).sum| < 2 ^ 53) :
    |roundToTenth (toDouble (meanRecovery logs)) - meanRecovery logs| ≤ 1 / 20
      ∧ ((∀ k : Int, |meanRecovery logs| * 10 + 1 / 2 ≠ (k : ℚ)) →
          roundToTenth (toDouble (meanRecovery logs)) = roundToTenth (meanRecovery logs)) := by
  have hs : 20 * |(((logs.map (fun log => log.postRecovery)).sum : Int) : ℚ)| < 2 ^ 53 := by
    exact_mod_cast hsum
  unfold meanRecovery
  rcases Nat.eq_zero_or_pos logs.length with h0 | hpos
  · rw [h0]
    have hz : toDouble 0 = 0 := by simp [toDouble]
    have hr : roundToTenth 0 = 0 := by decide!
    simp only [Nat.cast_zero, div_zero, hz, hr, sub_self, abs_zero]
    exact ⟨by norm_num, fun _ => trivial⟩
  · exact ⟨displayed_nearest _ _ hpos hs, displayed_eq_of_no_tie _ _ hpos hs⟩

/-- Claim C11, the counterexample: twenty spa logs whose recoveries sum to 127 have the mean
6.35, which rounds to 6.4 (half up and half to even alike); `findBestRebootType` returns spa,
the best type of `calculateStats`, with the text 6.3, because the Number nearest to 6.35 lies
below it. -/
theorem best_type_mean_of_6_35_is_shown_as_6_3 :
    typeMean tieTypeLogs "spa" = 127 / 20
      ∧ roundToTenth (127 / 20) = 64 / 10
      ∧ ((roundHalfEven (127 / 20 * 10) : Int) : ℚ) / 10 = 64 / 10
      ∧ toDouble (127 / 20) < 127 / 20
      ∧ (AnalyticsService.calculateStats (some tieTypeLogs) 0 0).bestReboot = some "spa"
      ∧ AIAgent.findBestRebootType tieTypeLogs = some { type := "spa", avgRecovery := "6.3" }
      ∧ parseFloatString "6.3" ≠ some (roundToTenth (typeMean tieTypeLogs "spa")) := by
  refine ⟨?_, ?_, ?_, ?_, ?_, ?_, ?_⟩ <;> decide!

/-- Claim C11 as amended: `findBestRebootType` returns `null` below five logs; from five logs
on it returns the type that `calculateStats` reports as `bestReboot`, with the text of
`toFixed(1)` of that type's mean `postRecovery`, the mean being a Number (a double). When twenty
times the sum of the scores of the type stays below `2 ^ 53`, the value of the text is a
one-decimal value nearest to the mean (within 0.05 of it), and it is the mean rounded to one
decimal unless the mean lies halfway between two one-decimal values. -/
theorem findBestRebootType_agrees_with_calculateStats (logs : List LogEntry) (now tz : Int) :
    (logs.length < 5 → AIAgent.findBestRebootType logs = none)
      ∧ (5 ≤ logs.length →
          ∃ best, (AnalyticsService.calculateStats (some logs) now tz).bestReboot = some best
            ∧ AIAgent.findBestRebootType logs
                = some { type := best, avgRecovery := toFixed1 (typeMean logs best) }
            ∧ parseFloatString (toFixed1 (typeMean logs best))
                = some (roundToTenth (toDouble (typeMean logs best)))
            ∧ (20 * |((logsOfType logs best).map (fun log => log.postRecovery)).sum| < 2 ^ 53 →
                |roundToTenth (toDouble (typeMean logs best)) - typeMean logs best| ≤ 1 / 20
                  ∧ ((∀ k : Int, |typeMean logs best| * 10 + 1 / 2 ≠ (k : ℚ)) →
                      roundToTenth (toDouble (typeMean logs best))
                        = roundToTenth (typeMean logs best)))) := by
  constructor
  · intro h
    simp [AIAgent.findBestRebootType, h]
  · intro h
    match logs, h with
    | first :: rest, h =>
      obtain ⟨best, _, _, _, hbest, _⟩ := AnalyticsService.bestReboot_split first rest now tz
      have hs := AnalyticsService.bestReboot_eq_sortedTypes first rest now tz
      rw [hbest] at hs
      refine ⟨best, hbest, ?_, parseFloatString_toFixed1 _, fun hsum => displayed_mean _ hsum⟩
      rw [AIAgent.findBestRebootType_eq _ h, ← hs]
      rfl

/-- Three logs give `null`; the five sample logs give spa (first seen of the two types of
mean 7) with the text `7.0`, as `calculateStats` does, and 7.0 is the mean of the spa logs
rounded to one decimal. -/
theorem findBestRebootType_agrees_with_calculateStats_witness :
    AIAgent.findBestRebootType spaSleepLogs = none
      ∧ AIAgent.findBestRebootType fiveLogs = some { type := "spa", avgRecovery := "7.0" }
      ∧ (AnalyticsService.calculateStats (some fiveLogs) 0 0).bestReboot = some "spa"
      ∧ typeMean fiveLogs "spa" = 7
      ∧ ∃ best, (AnalyticsService.calculateStats (some fiveLogs) 0 0).bestReboot = some best
          ∧ AIAgent.findBestRebootType fiveLogs
              = some { type := best, avgRecovery := toFixed1 (typeMean fiveLogs best) }
          ∧ parseFloatString (toFixed1 (typeMean fiveLogs best))
              = some (roundToTenth (toDouble (typeMean fiveLogs best)))
          ∧ (20 * |((logsOfType fiveLogs best).map (fun log => log.postRecovery)).sum| < 2 ^ 53 →
              |roundToTenth (toDouble (typeMean fiveLogs best)) - typeMean fiveLogs best| ≤ 1 / 20
                ∧ ((∀ k : Int, |typeMean fiveLogs best| * 10 + 1 / 2 ≠ (k : ℚ)) →
                    roundToTenth (toDouble (typeMean fiveLogs best))
                      = roundToTenth (typeMean fiveLogs best))) :=
  ⟨(findBestRebootType_agrees_with_calculateStats spaSleepLogs 0 0).1 (by decide),
    by decide!, by decide!, by decide!,
    (findBestRebootType_agrees_with_calculateStats fiveLogs 0 0).2 (by decide)⟩

/-- Claim C13, the counterexample: thirteen logs of recovery 6 and seven of recovery 7 have the
mean 6.35, which rounds to 6.4 (half up and half to even alike); `calculateStats` returns the
text 6.3 as `avgRecovery`, because the Number nearest to 6.35 lies below it. -/
theorem mean_of_6_35_is_shown_as_6_3 :
    tieLogs.length = 20
      ∧ meanRecovery tieLogs = 127 / 20
      ∧ roundToTenth (127 / 20) = 64 / 10
      ∧ ((roundHalfEven (127 / 20 * 10) : Int) : ℚ) / 10 = 64 / 10
      ∧ (AnalyticsService.calculateStats (some tieLogs) 0 0).totalReboots = 20
      ∧ (AnalyticsService.calculateStats (some tieLogs) 0 0).avgRecovery = JSValue.string "6.3"
      ∧ parseFloat (AnalyticsService.calculateStats (some tieLogs) 0 0).avgRecovery
          = some (63 / 10)
      ∧ parseFloat (AnalyticsService.calculateStats (some tieLogs) 0 0).avgRecovery
          ≠ some (roundToTenth (meanRecovery tieLogs)) := by
  refine ⟨?_, ?_, ?_, ?_, ?_, ?_, ?_, ?_⟩ <;> decide!

/-- Claim C13 as amended: for a non-empty log list `calculateStats` returns the number of logs
as `totalReboots` and, as `avgRecovery`, the text of `toFixed(1)` of the arithmetic mean of
`postRecovery`, the mean being a Number (a double). When twenty times the sum of the scores
stays below `2 ^ 53`, the value of the text is a one-decimal value nearest to the mean (within
0.05 of it), and it is the mean rounded to one decimal unless the mean lies halfway between two
one-decimal values. -/
theorem calculateStats_counts_and_averages (first : LogEntry) (rest : List LogEntry)
    (now tz : Int) :
    (AnalyticsService.calculateStats (some (first :: rest)) now tz).totalReboots
        = (first :: rest).length
      ∧ (AnalyticsService.calculateStats (some (first :: rest)) now tz).avgRecovery
        = JSValue.string (toFixed1 (meanRecovery (first :: rest)))
      ∧ parseFloat (AnalyticsService.calculateStats (some (first :: rest)) now tz).avgRecovery
        = some (roundToTenth (toDouble (meanRecovery (first :: rest))))
      ∧ (20 * |((first :: rest).map (fun log => log.postRecovery)).sum| < 2 ^ 53 →
          |roundToTenth (toDouble (meanRecovery (first :: rest))) - meanRecovery (first :: rest)|
              ≤ 1 / 20
            ∧ ((∀ k : Int, |meanRecovery (first :: rest)| * 10 + 1 / 2 ≠ (k : ℚ)) →
                roundToTenth (toDouble (meanRecovery (first :: rest)))
                  = roundToTenth (meanRecovery (first :: rest)))) := by
  have havg : (AnalyticsService.calculateStats (some (first :: rest)) now tz).avgRecovery
      = JSValue.string (toFixed1 (meanRecovery (first :: rest))) := by
    simp only [AnalyticsService.calculateStats, meanRecovery, AIAgent.foldl_postRecovery]
    simp
  refine ⟨rfl, havg, ?_, fun hsum => displayed_mean _ hsum⟩
  rw [havg]
  exact parseFloatString_toFixed1 _

/-- The three sample logs of recoveries 8, 6 and 4: three reboots, the mean 6 and the text
6.0, which is the mean rounded to one decimal; the sum 18 is far below the bound. -/
theorem calculateStats_counts_and_averages_witness :
    (AnalyticsService.calculateStats (some spaSleepLogs) 0 0).totalReboots = 3
      ∧ (AnalyticsService.calculateStats (some spaSleepLogs) 0 0).avgRecovery
          = JSValue.string "6.0"
      ∧ meanRecovery spaSleepLogs = 6
      ∧ |roundToTenth (toDouble (meanRecovery spaSleepLogs)) - meanRecovery spaSleepLogs|
          ≤ 1 / 20
      ∧ roundToTenth (toDouble (meanRecovery spaSleepLogs))
          = roundToTenth (meanRecovery spaSleepLogs) := by
  have h := (calculateStats_counts_and_averages (mkLog 0 "spa" 5 8)
    [mkLog (-3600000) "spa" 5 6, mkLog (-7200000) "sleep" 5 4] 0 0).2.2.2 (by decide)
  refine ⟨by decide!, by decide!, by decide!, h.1, h.2 ?_⟩
  intro k hk
  have hm : meanRecovery [mkLog 0 "spa" 5 8, mkLog (-3600000) "spa" 5 6,
      mkLog (-7200000) "sleep" 5 4] = 6 := by decide!
  rw [hm] at hk
  have h2 : (2 : ℚ) * (k : ℚ) = 121 := by
    rw [← hk]
    norm_num
  have h3 : (2 : Int) * k = 121 := by exact_mod_cast h2
  omega

/-- Claim C14: on the empty log list (and on an absent one) `calculateStats` returns
`totalReboots` 0, `avgRecovery` 0, `bestReboot` `null` and `streakDays` 0; the service adds the
two duration statistics, both 0, and the bundle returns exactly the four fields. -/
theorem calculateStats_of_empty_history (now tz : Int) :
    AnalyticsService.calculateStats (some []) now tz
        = { totalReboots := 0, avgRecovery := JSValue.number 0, bestReboot := none,
            streakDays := 0, totalMinutes := 0, avgDuration := 0 }
      ∧ AnalyticsService.calculateStats none now tz
        = { totalReboots := 0, avgRecovery := JSValue.number 0, bestReboot := none,
            streakDays := 0, totalMinutes := 0, avgDuration := 0 }
      ∧ Bundle.calculateStats (some []) now tz
        = { totalReboots := 0, avgRecovery := JSValue.number 0, bestReboot := none,
            streakDays := 0 }
      ∧ Bundle.calculateStats none now tz
        = { totalReboots := 0, avgRecovery := JSValue.number 0, bestReboot := none,
            streakDays := 0 } :=
  ⟨rfl, rfl, rfl, rfl⟩

/-- Claim C19: on the empty log history `generateInsights` returns a list of exactly one
insight, of priority low, and `getCurrentHealth` returns score 50, focus 50, fatigue 50 and
recovery 50. -/
theorem empty_history_yields_neutral_defaults (now tz : Int) :
    (∃ placeholder, AnalyticsService.generateInsights (some []) now tz = Except.ok [placeholder]
        ∧ placeholder.priority = AnalyticsService.Priority.low)
      ∧ AnalyticsService.generateInsights none now tz
          = AnalyticsService.generateInsights (some []) now tz
      ∧ AnalyticsService.getCurrentHealth (some []) now
          = { score := 50, focus := 50, fatigue := 50, recovery := 50 }
      ∧ AnalyticsService.getCurrentHealth none now
          = { score := 50, focus := 50, fatigue := 50, recovery := 50 } :=
  ⟨⟨_, rfl, rfl⟩, rfl, rfl, rfl⟩

/-! ## Facts about the stable sort -/

theorem jsSort_perm {α : Type} (compareFn : α → α → ℚ) (l : List α) :
    (jsSort compareFn l).Perm l :=
  List.perm_insertionSort _ l

/-- A descending sort by a key leaves the keys in non-increasing order. -/
theorem jsSort_sorted {α : Type} (key : α → ℚ) (l : List α) :
    (jsSort (fun a b => key b - key a) l).Pairwise (fun a b => key b ≤ key a) := by
  haveI : IsTotal α (fun a b => key b - key a ≤ 0) :=
    ⟨fun a b => by
      rcases le_total (key a) (key b) with h | h
      · right; linarith
      · left; linarith⟩
  haveI : IsTrans α (fun a b => key b - key a ≤ 0) :=
    ⟨fun a b c hab hbc => by
      have h1 : key b - key a ≤ 0 := hab
      have h2 : key c - key b ≤ 0 := hbc
      show key c - key a ≤ 0
      linarith⟩
  have h := List.sorted_insertionSort (fun a b => key b - key a ≤ 0) l
  unfold jsSort
  refine List.Pairwise.imp ?_ h
  intro a b hab
  linarith

theorem orderedInsert_filter {α : Type} (key : α → ℚ) (P : α → Bool)
    (hP : ∀ a b, P a = true → P b = true → key a = key b) (a : α) (s : List α) :
    (List.orderedInsert (fun a b => key b - key a ≤ 0) a s).filter P = (a :: s).filter P := by
  induction s with
  | nil => simp
  | cons b s ih =>
    rw [List.orderedInsert]
    by_cases hr : key b - key a ≤ 0
    · rw [if_pos hr]
    · rw [if_neg hr]
      by_cases hpa : P a = true
      · have hpb : P b = false := by
          by_contra hb
          have hb2 : P b = true := by simpa using hb
          have := hP a b hpa hb2
          apply hr
          linarith
        rw [List.filter_cons_of_neg (by simp [hpb]), ih, List.filter_cons_of_pos hpa,
          List.filter_cons_of_pos hpa, List.filter_cons_of_neg (by simp [hpb])]
      · have hpa2 : ¬ (P a = true) := hpa
        by_cases hpb : P b = true
        · rw [List.filter_cons_of_pos hpb, ih, List.filter_cons_of_neg hpa2,
            List.filter_cons_of_neg hpa2, List.filter_cons_of_pos hpb]
        · rw [List.filter_cons_of_neg hpb, ih, List.filter_cons_of_neg hpa2,
            List.filter_cons_of_neg hpa2, List.filter_cons_of_neg hpb]

/-- The sort is stable: the elements of one key keep their order. -/
theorem jsSort_filter_stable {α : Type} (key : α → ℚ) (P : α → Bool)
    (hP : ∀ a b, P a = true → P b = true → key a = key b) (l : List α) :
    (jsSort (fun a b => key b - key a) l).filter P = l.filter P := by
  induction l with
  | nil => simp [jsSort]
  | cons a l ih =>
    unfold jsSort at ih ⊢
    rw [List.insertionSort, orderedInsert_filter key P hP]
    by_cases hpa : P a = true
    · rw [List.filter_cons_of_pos hpa, List.filter_cons_of_pos hpa, ih]
    · rw [List.filter_cons_of_neg hpa, List.filter_cons_of_neg hpa, ih]


/-! ## Objects keyed by array indices: facts -/

namespace JSObject

theorem setIndex_spec {α : Type} (obj : List (Nat × α)) (k : Nat) (v : α)
    (h : AscendingKeys obj) :
    AscendingKeys (setIndex obj k v)
      ∧ ∀ e, e ∈ setIndex obj k v ↔ (e = (k, v) ∨ (e.1 ≠ k ∧ e ∈ obj)) := by
  induction obj with
  | nil =>
    refine ⟨by simp [setIndex, AscendingKeys], ?_⟩
    intro e
    simp [setIndex]
  | cons x rest ih =>
    have hx := List.pairwise_cons.mp h
    obtain ⟨ih1, ih2⟩ := ih hx.2
    unfold setIndex
    by_cases h1 : k < x.1
    · rw [if_pos h1]
      constructor
      · refine List.pairwise_cons.mpr ⟨?_, h⟩
        intro b hb
        rcases List.mem_cons.mp hb with rfl | hb2
        · exact h1
        · exact lt_trans h1 (hx.1 b hb2)
      · intro e
        constructor
        · intro he
          rcases List.mem_cons.mp he with rfl | he2
          · exact Or.inl rfl
          · right
            refine ⟨?_, he2⟩
            rcases List.mem_cons.mp he2 with rfl | he3
            · omega
            · have := hx.1 e he3
              omega
        · rintro (rfl | ⟨_, he⟩)
          · simp
          · exact List.mem_cons_of_mem _ he
    · rw [if_neg h1]
      by_cases h2 : k = x.1
      · rw [if_pos h2]
        constructor
        · refine List.pairwise_cons.mpr ⟨?_, hx.2⟩
          intro b hb
          have := hx.1 b hb
          show k < b.1
          omega
        · intro e
          constructor
          · intro he
            rcases List.mem_cons.mp he with rfl | he2
            · exact Or.inl rfl
            · right
              have := hx.1 e he2
              exact ⟨by omega, List.mem_cons_of_mem _ he2⟩
          · rintro (rfl | ⟨hne, he⟩)
            · simp
            · rcases List.mem_cons.mp he with rfl | he2
              · exact absurd h2.symm hne
              · exact List.mem_cons_of_mem _ he2
      · rw [if_neg h2]
        constructor
        · refine List.pairwise_cons.mpr ⟨?_, ih1⟩
          intro b hb
          rcases (ih2 b).mp hb with rfl | ⟨_, hb2⟩
          · show x.1 < k
            omega
          · exact hx.1 b hb2
        · intro e
          constructor
          · intro he
            rcases List.mem_cons.mp he with rfl | he2
            · right
              exact ⟨by omega, List.mem_cons_self _ _⟩
            · rcases (ih2 e).mp he2 with rfl | ⟨hne, he3⟩
              · exact Or.inl rfl
              · exact Or.inr ⟨hne, List.mem_cons_of_mem _ he3⟩
          · rintro (rfl | ⟨hne, he⟩)
            · exact List.mem_cons_of_mem _ ((ih2 _).mpr (Or.inl rfl))
            · rcases List.mem_cons.mp he with rfl | he2
              · exact List.mem_cons_self _ _
              · exact List.mem_cons_of_mem _ ((ih2 e).mpr (Or.inr ⟨hne, he2⟩))

theorem getIndex_of_mem {α : Type} (obj : List (Nat × α)) (k : Nat) (v : α)
    (h : AscendingKeys obj) (hmem : (k, v) ∈ obj) : getIndex obj k = some v := by
  induction obj with
  | nil => simp at hmem
  | cons x rest ih =>
    have hx := List.pairwise_cons.mp h
    unfold getIndex
    rcases List.mem_cons.mp hmem with rfl | hm
    · simp
    · have hlt := hx.1 (k, v) hm
      have hne : ¬ (x.1 = k) := by
        have : x.1 < k := hlt
        omega
      have hfind : List.find? (fun e => e.1 == k) (x :: rest)
          = List.find? (fun e => e.1 == k) rest := by
        rw [List.find?_cons_of_neg]
        simpa using hne
      rw [hfind]
      exact ih hx.2 hm

theorem getIndex_of_not_mem {α : Type} (obj : List (Nat × α)) (k : Nat)
    (hmem : ∀ v, (k, v) ∉ obj) : getIndex obj k = none := by
  unfold getIndex
  rw [Option.map_eq_none', List.find?_eq_none]
  intro e he hk
  have hk2 : e.1 = k := by simpa using hk
  exact hmem e.2 (by rw [← hk2]; exact he)

end JSObject

namespace AnalyticsService

/-- The table `hourCounts` holds, in ascending order of the hour, every hour of the list with
the number of its occurrences. -/
theorem hourCounts_spec (hours : List Nat) :
    AscendingKeys (hours.foldl countHour [])
      ∧ ∀ e, e ∈ hours.foldl countHour [] ↔ (e.1 ∈ hours ∧ e.2 = hours.count e.1) := by
  induction hours using List.reverseRecOn with
  | nil => simp [AscendingKeys]
  | append_singleton hs h ih =>
    obtain ⟨ih1, ih2⟩ := ih
    rw [List.foldl_append, List.foldl_cons, List.foldl_nil]
    have hstep : countHour (hs.foldl countHour []) h
        = JSObject.setIndex (hs.foldl countHour []) h
            ((JSObject.getIndex (hs.foldl countHour []) h).getD 0 + 1) := rfl
    rw [hstep]
    obtain ⟨s1, s2⟩ := JSObject.setIndex_spec (hs.foldl countHour []) h
      ((JSObject.getIndex (hs.foldl countHour []) h).getD 0 + 1) ih1
    refine ⟨s1, ?_⟩
    have hval : (JSObject.getIndex (hs.foldl countHour []) h).getD 0 = hs.count h := by
      by_cases hmem : h ∈ hs
      · have : (h, hs.count h) ∈ hs.foldl countHour [] := (ih2 (h, hs.count h)).mpr ⟨hmem, rfl⟩
        rw [JSObject.getIndex_of_mem _ _ _ ih1 this]
        rfl
      · rw [JSObject.getIndex_of_not_mem]
        · simp [List.count_eq_zero_of_not_mem hmem]
        · intro v hv
          exact hmem ((ih2 (h, v)).mp hv).1
    intro e
    rw [s2 e, hval]
    constructor
    · rintro (rfl | ⟨hne, he⟩)
      · simp
      · obtain ⟨h1, h2⟩ := (ih2 e).mp he
        refine ⟨by simp [h1], ?_⟩
        rw [h2, List.count_append]
        have : List.count e.1 [h] = 0 := by
          simp [List.count_singleton]
          exact fun hh => hne hh.symm
        omega
    · rintro ⟨h1, h2⟩
      by_cases hk : e.1 = h
      · left
        have : e.2 = hs.count h + 1 := by
          rw [h2, hk, List.count_append]
          simp
        exact Prod.ext hk this
      · right
        refine ⟨hk, (ih2 e).mpr ⟨?_, ?_⟩⟩
        · rcases List.mem_append.mp h1 with hm | hm
          · exact hm
          · simp at hm
            exact absurd hm hk
        · rw [h2, List.count_append]
          have : List.count e.1 [h] = 0 := by
            simp [List.count_singleton]
            exact fun hh => hk hh.symm
          omega

end AnalyticsService

namespace AnalyticsService

theorem analyzeTimePatterns_short (logs : List LogEntry) (tz : Int) (h : logs.length < 10) :
    analyzeTimePatterns logs tz = Except.ok none := by
  simp [analyzeTimePatterns, h]

/-- From ten logs on the time pattern names an hour that no other hour beats in frequency. -/
theorem analyzeTimePatterns_long (logs : List LogEntry) (tz : Int) (h : 10 ≤ logs.length) :
    ∃ hour, hour ∈ hoursOf logs tz
      ∧ (∀ other, (hoursOf logs tz).count other ≤ (hoursOf logs tz).count hour)
      ∧ analyzeTimePatterns logs tz
          = Except.ok (some ("最もリブートが多いのは" ++ timeLabel hour ++ toString hour
              ++ "時台です")) := by
  have hlen : ¬ logs.length < 10 := by omega
  obtain ⟨_, hT⟩ := hourCounts_spec (hoursOf logs tz)
  have hpos : 0 < (hoursOf logs tz).length := by
    simp only [hoursOf, List.length_map]
    omega
  obtain ⟨h0, hh0⟩ := List.exists_mem_of_length_pos hpos
  have hmem0 : (h0, (hoursOf logs tz).count h0) ∈ (hoursOf logs tz).foldl countHour [] :=
    (hT _).mpr ⟨hh0, rfl⟩
  have hsl : 0 < (jsSort (fun a b : Nat × Nat => ((b.2 : ℚ) - (a.2 : ℚ)))
      ((hoursOf logs tz).foldl countHour [])).length := by
    unfold jsSort
    rw [List.length_insertionSort]
    exact List.length_pos_of_mem hmem0
  obtain ⟨top, htop⟩ : ∃ top, (jsSort (fun a b : Nat × Nat => ((b.2 : ℚ) - (a.2 : ℚ)))
      ((hoursOf logs tz).foldl countHour []))[0]? = some top :=
    ⟨_, List.getElem?_eq_getElem hsl⟩
  obtain ⟨l1, l2, hsplit, hlt, hle⟩ :=
    jsSort_head_split (fun e : Nat × Nat => (e.2 : ℚ)) _ top htop
  have htopmem : top ∈ (hoursOf logs tz).foldl countHour [] := by
    rw [hsplit]; simp
  obtain ⟨ht1, ht2⟩ := (hT top).mp htopmem
  refine ⟨top.1, ht1, ?_, ?_⟩
  · intro other
    by_cases ho : other ∈ hoursOf logs tz
    · have hom : (other, (hoursOf logs tz).count other) ∈ (hoursOf logs tz).foldl countHour [] :=
        (hT _).mpr ⟨ho, rfl⟩
      rw [hsplit] at hom
      rw [← ht2]
      rcases List.mem_append.mp hom with h1 | h2
      · have := hlt _ h1
        simp only at this
        exact_mod_cast le_of_lt this
      · rcases List.mem_cons.mp h2 with h3 | h4
        · rw [← h3]
        · have := hle _ h4
          simp only at this
          exact_mod_cast this
    · rw [List.count_eq_zero_of_not_mem ho]
      exact Nat.zero_le _
  · unfold analyzeTimePatterns
    rw [if_neg hlen]
    simp only []
    have htop2 : (jsSort (fun a b : Nat × Nat => ((b.2 : ℚ) - (a.2 : ℚ)))
        (List.foldl countHour [] (List.map (fun log => getHours tz log.timestamp) logs)))[0]?
        = some top := htop
    rw [htop2]

theorem timeText_ne_empty (hour : Nat) :
    "最もリブートが多いのは" ++ timeLabel hour ++ toString hour ++ "時台です" ≠ "" := by
  intro h
  have h2 := congrArg String.length h
  simp only [String.length_append] at h2
  have h3 : "最もリブートが多いのは".length = 11 := by decide
  have h4 : "".length = 0 := rfl
  omega

/-- The list that `generateInsights` sorts, and its sorted result. -/
theorem generateInsights_eq (first : LogEntry) (rest : List LogEntry) (now tz : Int) :
    ∃ timeAnalysis, analyzeTimePatterns (first :: rest) tz = Except.ok timeAnalysis
      ∧ collectInsights (first :: rest) now tz
          = Except.ok (generatedInsights (first :: rest) now tz timeAnalysis)
      ∧ generateInsights (some (first :: rest)) now tz
          = Except.ok (jsSort (fun a b => priorityKey b - priorityKey a)
              (generatedInsights (first :: rest) now tz timeAnalysis)) := by
  have hcmp : (fun a b : Insight =>
      ((priorityWeight b.priority - priorityWeight a.priority : Int) : ℚ))
      = (fun a b => priorityKey b - priorityKey a) := by
    funext a b
    simp [priorityKey]
  have hok : ∃ timeAnalysis, analyzeTimePatterns (first :: rest) tz = Except.ok timeAnalysis := by
    by_cases h : (first :: rest).length < 10
    · exact ⟨none, analyzeTimePatterns_short _ _ h⟩
    · obtain ⟨hour, _, _, hr⟩ := analyzeTimePatterns_long (first :: rest) tz (by omega)
      exact ⟨_, hr⟩
  obtain ⟨ta, hta⟩ := hok
  have hcollect : collectInsights (first :: rest) now tz
      = Except.ok (generatedInsights (first :: rest) now tz ta) := by
    unfold collectInsights
    rw [hta]
    simp only [generatedInsights, logsWithin, dayMs]
    norm_num
  refine ⟨ta, hta, hcollect, ?_⟩
  simp only [generateInsights, hcollect, hcmp]

end AnalyticsService

/-! ## Analytics engine: the insights -/

namespace AnalyticsService

theorem icon_of_mem_bestTypeInsight (s : Stats) (i : Insight) (h : i ∈ bestTypeInsight s) :
    i.icon = "🏆" := by
  unfold bestTypeInsight at h
  split at h
  · split at h
    · simp at h; rw [h]
    · simp at h
  · simp at h

theorem icon_of_frequencyInsight (c : Nat) :
    (frequencyInsight c).icon = "⚠️" ∨ (frequencyInsight c).icon = "✨" := by
  unfold frequencyInsight
  split
  · left; rfl
  · right; rfl

theorem icon_of_mem_recoveryInsight (s : Stats) (i : Insight) (h : i ∈ recoveryInsight s) :
    i.icon = "📉" ∨ i.icon = "🎯" := by
  unfold recoveryInsight at h
  split at h
  · simp at h
  · split at h
    · simp at h; left; rw [h]
    · split at h
      · simp at h; right; rw [h]
      · simp at h

theorem icon_of_mem_streakInsight (s : Stats) (i : Insight) (h : i ∈ streakInsight s) :
    i.icon = "🔥" := by
  unfold streakInsight at h
  split at h
  · simp at h; rw [h]
  · simp at h

theorem icon_of_mem_timeInsight (ta : Option String) (i : Insight) (h : i ∈ timeInsight ta) :
    i.icon = "⏰" := by
  unfold timeInsight at h
  split at h
  · split at h
    · simp at h; rw [h]
    · simp at h
  · simp at h

/-- Selecting the insights of some icons from the generated list selects them from the five
parts. -/
theorem filter_generatedInsights (P : Insight → Bool) (logs : List LogEntry) (now tz : Int)
    (ta : Option String) :
    (generatedInsights logs now tz ta).filter P
      = (bestTypeInsight (calculateStats (some logs) now tz)).filter P
        ++ [frequencyInsight (logsWithin (7 * dayMs) logs now).length].filter P
        ++ (recoveryInsight (calculateStats (some logs) now tz)).filter P
        ++ (streakInsight (calculateStats (some logs) now tz)).filter P
        ++ (timeInsight ta).filter P := by
  simp only [generatedInsights, List.filter_append]

theorem filter_eq_nil_of_icons (P : Insight → Bool) (l : List Insight)
    (h : ∀ i ∈ l, P i = false) : l.filter P = [] := by
  rw [List.filter_eq_nil_iff]
  intro i hi
  simp [h i hi]

end AnalyticsService

/-- Claim C15: the list returned by `generateInsights` is a permutation of the generated
insights (the placeholder for an empty history; best type, weekly frequency, average recovery,
streak, peak hour otherwise), sorted with high before medium before low, and the insights of
one priority keep the order in which they were generated. -/
theorem generateInsights_sorts_stably_by_priority (logs : List LogEntry) (now tz : Int) :
    ∃ generated out,
      AnalyticsService.generateInsights (some logs) now tz = Except.ok out
        ∧ (logs = [] → generated = [placeholderInsight])
        ∧ (logs ≠ [] → ∃ timeAnalysis,
            AnalyticsService.analyzeTimePatterns logs tz = Except.ok timeAnalysis
              ∧ AnalyticsService.collectInsights logs now tz = Except.ok generated
              ∧ generated = generatedInsights logs now tz timeAnalysis)
        ∧ out.Perm generated
        ∧ out.Pairwise (fun a b =>
            (a.priority = AnalyticsService.Priority.low
                → b.priority = AnalyticsService.Priority.low)
              ∧ (a.priority = AnalyticsService.Priority.medium
                → b.priority ≠ AnalyticsService.Priority.high))
        ∧ ∀ p, out.filter (fun i => decide (i.priority = p))
            = generated.filter (fun i => decide (i.priority = p)) := by
  match logs with
  | [] =>
    refine ⟨[placeholderInsight], [placeholderInsight], rfl, fun _ => rfl, fun h => absurd rfl h,
      List.Perm.refl _, by simp, fun p => rfl⟩
  | first :: rest =>
    obtain ⟨ta, hta, hcollect, hgen⟩ := AnalyticsService.generateInsights_eq first rest now tz
    refine ⟨generatedInsights (first :: rest) now tz ta, _, hgen, fun h => by simp at h,
      fun _ => ⟨ta, hta, hcollect, rfl⟩, jsSort_perm _ _, ?_, ?_⟩
    · refine List.Pairwise.imp ?_ (jsSort_sorted priorityKey _)
      intro a b hab
      unfold priorityKey at hab
      have hab2 : AnalyticsService.priorityWeight b.priority
          ≤ AnalyticsService.priorityWeight a.priority := by exact_mod_cast hab
      constructor
      · intro ha
        rw [ha] at hab2
        cases hb : b.priority <;> simp [hb, AnalyticsService.priorityWeight] at hab2 ⊢
      · intro ha hb
        rw [ha, hb] at hab2
        simp [AnalyticsService.priorityWeight] at hab2
    · intro p
      apply jsSort_filter_stable
      intro a b ha hb
      have ha2 : a.priority = p := by simpa using ha
      have hb2 : b.priority = p := by simpa using hb
      simp [priorityKey, ha2, hb2]

/-- Twelve logs of recovery 8: the generated order is best type (high), weekly frequency (low),
average recovery (low), peak hour (medium); the result moves the peak hour before the two low
insights and keeps these two in their order. -/
theorem generateInsights_sorts_stably_by_priority_witness :
    (AnalyticsService.collectInsights twelveLogs 0 0).map
        (fun l => l.map (fun i => (i.icon, i.priority)))
      = Except.ok [("🏆", AnalyticsService.Priority.high), ("✨", AnalyticsService.Priority.low),
          ("🎯", AnalyticsService.Priority.low), ("⏰", AnalyticsService.Priority.medium)]
    ∧ (AnalyticsService.generateInsights (some twelveLogs) 0 0).map
        (fun l => l.map (fun i => (i.icon, i.priority)))
      = Except.ok [("🏆", AnalyticsService.Priority.high), ("⏰", AnalyticsService.Priority.medium),
          ("✨", AnalyticsService.Priority.low), ("🎯", AnalyticsService.Priority.low)]
    ∧ ∃ generated out,
      AnalyticsService.generateInsights (some twelveLogs) 0 0 = Except.ok out
        ∧ (twelveLogs = [] → generated = [placeholderInsight])
        ∧ (twelveLogs ≠ [] → ∃ timeAnalysis,
            AnalyticsService.analyzeTimePatterns twelveLogs 0 = Except.ok timeAnalysis
              ∧ AnalyticsService.collectInsights twelveLogs 0 0 = Except.ok generated
              ∧ generated = generatedInsights twelveLogs 0 0 timeAnalysis)
        ∧ out.Perm generated
        ∧ out.Pairwise (fun a b =>
            (a.priority = AnalyticsService.Priority.low
                → b.priority = AnalyticsService.Priority.low)
              ∧ (a.priority = AnalyticsService.Priority.medium
                → b.priority ≠ AnalyticsService.Priority.high))
        ∧ ∀ p, out.filter (fun i => decide (i.priority = p))
            = generated.filter (fun i => decide (i.priority = p)) :=
  ⟨by decide!, by decide!, generateInsights_sorts_stably_by_priority twelveLogs 0 0⟩

/-- The result of `generateInsights` for a non-empty history holds exactly one weekly-frequency
insight, and it carries the number `c` of logs that pass the filter `now - timestamp < 7 days`:
the medium "below target" insight when `c < 7`, the low "great adherence" insight when
`c ≥ 7`. -/
theorem frequency_part_of_result (first : LogEntry) (rest : List LogEntry)
    (now tz : Int) :
    ∃ out, AnalyticsService.generateInsights (some (first :: rest)) now tz = Except.ok out
      ∧ ((logsWithin (7 * dayMs) (first :: rest) now).length < 7 →
          out.filter (fun i => decide (i.icon = "⚠️" ∨ i.icon = "✨"))
            = [{ icon := "⚠️"
                 text := "今週のリブート回数は"
                   ++ toString (logsWithin (7 * dayMs) (first :: rest) now).length
                   ++ "回。理想は週7回以上です"
                 priority := AnalyticsService.Priority.medium }])
      ∧ (7 ≤ (logsWithin (7 * dayMs) (first :: rest) now).length →
          out.filter (fun i => decide (i.icon = "⚠️" ∨ i.icon = "✨"))
            = [{ icon := "✨"
                 text := "素晴らしい！今週は"
                   ++ toString (logsWithin (7 * dayMs) (first :: rest) now).length
                   ++ "回のリブートを実施"
                 priority := AnalyticsService.Priority.low }]) := by
  obtain ⟨ta, _, _, hgen⟩ := AnalyticsService.generateInsights_eq first rest now tz
  have hperm := (jsSort_perm (fun a b => priorityKey b - priorityKey a)
    (generatedInsights (first :: rest) now tz ta)).filter
      (fun i => decide (i.icon = "⚠️" ∨ i.icon = "✨"))
  have hfilter : (generatedInsights (first :: rest) now tz ta).filter
      (fun i => decide (i.icon = "⚠️" ∨ i.icon = "✨"))
      = [AnalyticsService.frequencyInsight (logsWithin (7 * dayMs) (first :: rest) now).length] := by
    rw [AnalyticsService.filter_generatedInsights,
      AnalyticsService.filter_eq_nil_of_icons _ (AnalyticsService.bestTypeInsight _),
      AnalyticsService.filter_eq_nil_of_icons _ (AnalyticsService.recoveryInsight _),
      AnalyticsService.filter_eq_nil_of_icons _ (AnalyticsService.streakInsight _),
      AnalyticsService.filter_eq_nil_of_icons _ (AnalyticsService.timeInsight _)]
    · rcases AnalyticsService.icon_of_frequencyInsight
        (logsWithin (7 * dayMs) (first :: rest) now).length with h | h <;> simp [h]
    · intro i hi
      rw [AnalyticsService.icon_of_mem_timeInsight _ i hi]
      decide
    · intro i hi
      rw [AnalyticsService.icon_of_mem_streakInsight _ i hi]
      decide
    · intro i hi
      rcases AnalyticsService.icon_of_mem_recoveryInsight _ i hi with h | h <;> rw [h] <;> decide
    · intro i hi
      rw [AnalyticsService.icon_of_mem_bestTypeInsight _ i hi]
      decide
  rw [hfilter] at hperm
  have hout := List.perm_singleton.mp hperm
  refine ⟨_, hgen, ?_, ?_⟩
  · intro hc
    rw [hout]
    simp [AnalyticsService.frequencyInsight, hc]
  · intro hc
    have hc2 : ¬ (logsWithin (7 * dayMs) (first :: rest) now).length < 7 := by omega
    rw [hout]
    simp [AnalyticsService.frequencyInsight, hc2]

/-- Without logs dated after `now`, the logs that pass the filter of the weekly count are the
logs of the trailing 7 days. -/
theorem logsWithin_week_eq_trailingWeekLogs (logs : List LogEntry) (now : Int)
    (h : ∀ log ∈ logs, log.timestamp ≤ now) :
    logsWithin (7 * dayMs) logs now = trailingWeekLogs logs now := by
  unfold logsWithin trailingWeekLogs
  apply List.filter_congr
  intro log hlog
  have hle := h log hlog
  rw [decide_eq_decide]
  constructor
  · intro h2
    exact ⟨by omega, hle⟩
  · intro h2
    omega

/-- Claim C17, the counterexample: seven logs dated 365 days after `now` are not in the
trailing 7 days, whose count is 0; yet the result holds the low "great adherence" insight
carrying 7, and no medium "below target" insight carrying 0. -/
theorem weekly_count_takes_logs_dated_ahead :
    (trailingWeekLogs yearAheadLogs 0).length = 0
      ∧ (∀ log ∈ yearAheadLogs, (0 : Int) < log.timestamp)
      ∧ (logsWithin (7 * dayMs) yearAheadLogs 0).length = 7
      ∧ (AnalyticsService.generateInsights (some yearAheadLogs) 0 0).map
          (fun out => out.filter (fun i => decide (i.icon = "⚠️" ∨ i.icon = "✨")))
        = Except.ok [{ icon := "✨", text := "素晴らしい！今週は7回のリブートを実施",
                       priority := AnalyticsService.Priority.low }] := by
  refine ⟨by decide!, by decide!, by decide!, by decide!⟩

/-- Claim C17 as amended: for a non-empty history, with `c` the number of logs whose timestamp
is later than `now` minus 7 days (logs dated after `now` included), the result of
`generateInsights` holds exactly one weekly-frequency insight: the medium "below target"
insight with the count `c` when `c < 7`, the low "great adherence" insight with the count `c`
when `c ≥ 7`. When no log is dated after `now`, `c` is the number of logs in the trailing 7
days. -/
theorem generateInsights_has_one_frequency_insight (first : LogEntry) (rest : List LogEntry)
    (now tz : Int) :
    (∃ out, AnalyticsService.generateInsights (some (first :: rest)) now tz = Except.ok out
      ∧ ((logsWithin (7 * dayMs) (first :: rest) now).length < 7 →
          out.filter (fun i => decide (i.icon = "⚠️" ∨ i.icon = "✨"))
            = [{ icon := "⚠️"
                 text := "今週のリブート回数は"
                   ++ toString (logsWithin (7 * dayMs) (first :: rest) now).length
                   ++ "回。理想は週7回以上です"
                 priority := AnalyticsService.Priority.medium }])
      ∧ (7 ≤ (logsWithin (7 * dayMs) (first :: rest) now).length →
          out.filter (fun i => decide (i.icon = "⚠️" ∨ i.icon = "✨"))
            = [{ icon := "✨"
                 text := "素晴らしい！今週は"
                   ++ toString (logsWithin (7 * dayMs) (first :: rest) now).length
                   ++ "回のリブートを実施"
                 priority := AnalyticsService.Priority.low }]))
      ∧ (logsWithin (7 * dayMs) (first :: rest) now).length
          = (first :: rest).countP (fun log => decide (now - 7 * dayMs < log.timestamp))
      ∧ ((∀ log ∈ first :: rest, log.timestamp ≤ now) →
          (logsWithin (7 * dayMs) (first :: rest) now).length
            = (trailingWeekLogs (first :: rest) now).length) := by
  refine ⟨frequency_part_of_result first rest now tz, ?_, ?_⟩
  · unfold logsWithin
    rw [← List.countP_eq_length_filter]
    apply List.countP_congr
    intro log _
    simp only [decide_eq_true_eq]
    constructor <;> intro h <;> omega
  · intro h
    rw [logsWithin_week_eq_trailingWeekLogs _ _ h]

/-- Three logs in the trailing week give the one medium insight with the count 3; twelve logs
dated nine hours ahead give the one low insight with the count 12. -/
theorem generateInsights_has_one_frequency_insight_witness :
    (∃ out, AnalyticsService.generateInsights (some spaSleepLogs) 0 0 = Except.ok out
      ∧ out.filter (fun i => decide (i.icon = "⚠️" ∨ i.icon = "✨"))
          = [{ icon := "⚠️"
               text := "今週のリブート回数は" ++ toString (logsWithin (7 * dayMs) spaSleepLogs 0).length
                 ++ "回。理想は週7回以上です"
               priority := AnalyticsService.Priority.medium }])
    ∧ (∃ out, AnalyticsService.generateInsights (some twelveLogs) 0 0 = Except.ok out
      ∧ out.filter (fun i => decide (i.icon = "⚠️" ∨ i.icon = "✨"))
          = [{ icon := "✨"
               text := "素晴らしい！今週は" ++ toString (logsWithin (7 * dayMs) twelveLogs 0).length
                 ++ "回のリブートを実施"
               priority := AnalyticsService.Priority.low }])
    ∧ "今週のリブート回数は" ++ toString (logsWithin (7 * dayMs) spaSleepLogs 0).length
        ++ "回。理想は週7回以上です" = "今週のリブート回数は3回。理想は週7回以上です"
    ∧ "素晴らしい！今週は" ++ toString (logsWithin (7 * dayMs) twelveLogs 0).length
        ++ "回のリブートを実施" = "素晴らしい！今週は12回のリブートを実施"
    ∧ (logsWithin (7 * dayMs) spaSleepLogs 0).length = (trailingWeekLogs spaSleepLogs 0).length
    ∧ (trailingWeekLogs spaSleepLogs 0).length = 3 := by
  obtain ⟨⟨out1, h1, h1a, _⟩, _, h1c⟩ := generateInsights_has_one_frequency_insight
    (mkLog 0 "spa" 5 8) [mkLog (-3600000) "spa" 5 6, mkLog (-7200000) "sleep" 5 4] 0 0
  obtain ⟨⟨out2, h2, _, h2b⟩, _, _⟩ := generateInsights_has_one_frequency_insight
    (mkLog 32400000 "spa" 5 8) (List.replicate 11 (mkLog 32400000 "spa" 5 8)) 0 0
  exact ⟨⟨out1, h1, h1a (by decide!)⟩, ⟨out2, h2, h2b (by decide!)⟩, by decide!, by decide!,
    h1c (by decide!), by decide!⟩

/-- The result of `generateInsights` holds a peak-hour insight exactly when the history has at
least 10 logs; it is of priority medium, the hour it names is, among the values of `getHours`
on the logs, one that occurs at least as often as any other, and its label is morning below
12, afternoon below 18 and evening otherwise. -/
theorem peak_hour_part_of_result (logs : List LogEntry) (now tz : Int) :
    ∃ out, AnalyticsService.generateInsights (some logs) now tz = Except.ok out
      ∧ ((∃ i ∈ out, i.icon = "⏰") ↔ 10 ≤ logs.length)
      ∧ (10 ≤ logs.length → ∃ hour label,
          hour ∈ hoursOf logs tz
            ∧ (∀ other, (hoursOf logs tz).count other ≤ (hoursOf logs tz).count hour)
            ∧ (hour < 12 → label = "午前")
            ∧ (12 ≤ hour → hour < 18 → label = "午後")
            ∧ (18 ≤ hour → label = "夜")
            ∧ out.filter (fun i => decide (i.icon = "⏰"))
                = [{ icon := "⏰"
                     text := "最もリブートが多いのは" ++ label ++ toString hour ++ "時台です"
                     priority := AnalyticsService.Priority.medium }]) := by
  match logs with
  | [] =>
    refine ⟨[placeholderInsight], rfl, ?_, ?_⟩
    · constructor
      · rintro ⟨i, hi, hicon⟩
        simp at hi
        rw [hi] at hicon
        revert hicon
        decide
      · intro h
        simp at h
    · intro h
      simp at h
  | first :: rest =>
    obtain ⟨ta, hta, _, hgen⟩ := AnalyticsService.generateInsights_eq first rest now tz
    have hperm := (jsSort_perm (fun a b => priorityKey b - priorityKey a)
      (generatedInsights (first :: rest) now tz ta)).filter (fun i => decide (i.icon = "⏰"))
    have hfilter : (generatedInsights (first :: rest) now tz ta).filter
        (fun i => decide (i.icon = "⏰")) = AnalyticsService.timeInsight ta := by
      rw [AnalyticsService.filter_generatedInsights,
        AnalyticsService.filter_eq_nil_of_icons _ (AnalyticsService.bestTypeInsight _),
        AnalyticsService.filter_eq_nil_of_icons _ (AnalyticsService.recoveryInsight _),
        AnalyticsService.filter_eq_nil_of_icons _ (AnalyticsService.streakInsight _),
        AnalyticsService.filter_eq_nil_of_icons _ [_]]
      · simp only [List.nil_append, List.append_nil]
        rw [List.filter_eq_self]
        intro i hi
        simp [AnalyticsService.icon_of_mem_timeInsight _ i hi]
      · intro i hi
        simp only [List.mem_singleton] at hi
        rcases AnalyticsService.icon_of_frequencyInsight
          (logsWithin (7 * dayMs) (first :: rest) now).length with h | h <;>
          rw [hi, h] <;> decide
      · intro i hi
        rw [AnalyticsService.icon_of_mem_streakInsight _ i hi]
        decide
      · intro i hi
        rcases AnalyticsService.icon_of_mem_recoveryInsight _ i hi with h | h <;> rw [h] <;> decide
      · intro i hi
        rw [AnalyticsService.icon_of_mem_bestTypeInsight _ i hi]
        decide
    rw [hfilter] at hperm
    refine ⟨_, hgen, ?_, ?_⟩
    · by_cases hlen : (first :: rest).length < 10
      · have hnone : ta = none := by
          have := AnalyticsService.analyzeTimePatterns_short _ tz hlen
          rw [hta] at this
          exact Except.ok.inj this
        rw [hnone] at hperm
        have hnil := List.Perm.eq_nil (show List.Perm _ [] from hperm)
        constructor
        · rintro ⟨i, hi, hicon⟩
          have : i ∈ List.filter (fun i => decide (i.icon = "⏰"))
              (jsSort (fun a b => priorityKey b - priorityKey a)
                (generatedInsights (first :: rest) now tz ta)) :=
            List.mem_filter.mpr ⟨hi, by simp [hicon]⟩
          rw [hnone, hnil] at this
          simp at this
        · intro h
          omega
      · obtain ⟨hour, _, _, hr⟩ :=
          AnalyticsService.analyzeTimePatterns_long (first :: rest) tz (by omega)
        rw [hta] at hr
        have hsome := Except.ok.inj hr
        rw [hsome] at hperm
        simp only [AnalyticsService.timeInsight,
          if_pos (AnalyticsService.timeText_ne_empty hour)] at hperm
        have hout := List.perm_singleton.mp hperm
        constructor
        · intro _
          omega
        · intro _
          have hm : ({ icon := "⏰"
                       text := "最もリブートが多いのは" ++ AnalyticsService.timeLabel hour
                         ++ toString hour ++ "時台です"
                       priority := AnalyticsService.Priority.medium } : AnalyticsService.Insight)
              ∈ List.filter (fun i => decide (i.icon = "⏰"))
                (jsSort (fun a b => priorityKey b - priorityKey a)
                  (generatedInsights (first :: rest) now tz ta)) := by
            rw [hsome, hout]
            simp
          exact ⟨_, (List.mem_filter.mp hm).1, rfl⟩
    · intro hlen
      obtain ⟨hour, hmem, hmax, hr⟩ :=
        AnalyticsService.analyzeTimePatterns_long (first :: rest) tz hlen
      rw [hta] at hr
      have hsome := Except.ok.inj hr
      rw [hsome] at hperm
      simp only [AnalyticsService.timeInsight,
        if_pos (AnalyticsService.timeText_ne_empty hour)] at hperm
      have hout := List.perm_singleton.mp hperm
      refine ⟨hour, AnalyticsService.timeLabel hour, hmem, hmax, ?_, ?_, ?_, ?_⟩
      · intro h
        simp [AnalyticsService.timeLabel, h]
      · intro h1 h2
        have h3 : ¬ hour < 12 := by omega
        simp [AnalyticsService.timeLabel, h2, h3]
      · intro h1
        have h2 : ¬ hour < 12 := by omega
        have h3 : ¬ hour < 18 := by omega
        simp [AnalyticsService.timeLabel, h2, h3]
      · rw [hsome]
        exact hout

/-- An instant lies in hour `h` of its local day exactly when, for some day number `d`, it is
at least `h` and fewer than `h + 1` hours after the local midnight that begins day `d`. -/
theorem inHourOfDay_iff_exists_day (tz ts : Int) (h : Nat) :
    InHourOfDay tz ts h
      ↔ h < 24 ∧ ∃ d : Int, d * 86400000 + (h : Int) * 3600000 ≤ ts + tz
          ∧ ts + tz < d * 86400000 + ((h : Int) + 1) * 3600000 := by
  unfold InHourOfDay localDay dayMs
  constructor
  · rintro ⟨h24, h1, h2⟩
    exact ⟨h24, (ts + tz) / (24 * 60 * 60 * 1000), by omega, by omega⟩
  · rintro ⟨h24, d, h1, h2⟩
    have hd : (ts + tz) / (24 * 60 * 60 * 1000) = d := by omega
    rw [hd]
    exact ⟨h24, by omega, by omega⟩

/-- The hour that `getHours` returns is the hour of the local day in which the instant lies. -/
theorem getHours_eq_iff (tz ts : Int) (h : Nat) :
    AnalyticsService.getHours tz ts = h ↔ InHourOfDay tz ts h := by
  unfold AnalyticsService.getHours InHourOfDay localDay dayMs
  constructor
  · intro hg
    omega
  · intro hg
    omega

/-- The number of logs on which `getHours` returns `h` is the number of logs that lie in hour
`h` of their local day. -/
theorem count_hoursOf (logs : List LogEntry) (tz : Int) (h : Nat) :
    (hoursOf logs tz).count h = logsInHour logs tz h := by
  unfold hoursOf logsInHour
  rw [List.count, List.countP_map]
  apply List.countP_congr
  intro log _
  simp only [Function.comp_apply, beq_iff_eq, decide_eq_true_eq]
  exact getHours_eq_iff tz log.timestamp h

/-- Claim C18: the result of `generateInsights` holds a peak-hour insight exactly when the
history has at least 10 logs; it is of priority medium; the hour it names is an hour of the day
(below 24) in which at least one log lies, and at least as many logs lie in it as in any other
hour, a log lying in hour `h` when at least `h` and fewer than `h + 1` hours have passed since
the local midnight before it; its label is morning below 12, afternoon below 18 and evening
otherwise. -/
theorem generateInsights_peak_hour (logs : List LogEntry) (now tz : Int) :
    ∃ out, AnalyticsService.generateInsights (some logs) now tz = Except.ok out
      ∧ ((∃ i ∈ out, i.icon = "⏰") ↔ 10 ≤ logs.length)
      ∧ (10 ≤ logs.length → ∃ hour label,
          hour < 24
            ∧ 0 < logsInHour logs tz hour
            ∧ (∀ other, logsInHour logs tz other ≤ logsInHour logs tz hour)
            ∧ (hour < 12 → label = "午前")
            ∧ (12 ≤ hour → hour < 18 → label = "午後")
            ∧ (18 ≤ hour → label = "夜")
            ∧ out.filter (fun i => decide (i.icon = "⏰"))
                = [{ icon := "⏰"
                     text := "最もリブートが多いのは" ++ label ++ toString hour ++ "時台です"
                     priority := AnalyticsService.Priority.medium }]) := by
  obtain ⟨out, hout, hiff, hlong⟩ := peak_hour_part_of_result logs now tz
  refine ⟨out, hout, hiff, ?_⟩
  intro hlen
  obtain ⟨hour, label, hmem, hmax, hl1, hl2, hl3, hfilter⟩ := hlong hlen
  have hpos : 0 < logsInHour logs tz hour := by
    rw [← count_hoursOf]
    exact List.count_pos_iff.mpr hmem
  have h24 : hour < 24 := by
    unfold hoursOf at hmem
    obtain ⟨log, _, hlog⟩ := List.mem_map.mp hmem
    exact ((getHours_eq_iff tz log.timestamp hour).mp hlog).1
  refine ⟨hour, label, h24, hpos, ?_, hl1, hl2, hl3, hfilter⟩
  intro other
  rw [← count_hoursOf, ← count_hoursOf]
  exact hmax other

/-- Fewer than ten logs give no peak-hour insight. Twelve logs seen from a local time nine
hours ahead of UTC, seven of them taken between 09:00 and 10:00 local time on seven different
days, three at 14:10 and two at 22:00, give the medium insight that names hour 9 with the
morning label. -/
theorem generateInsights_peak_hour_witness :
    (AnalyticsService.generateInsights (some spaSleepLogs) 0 0).map
        (fun out => out.filter (fun i => decide (i.icon = "⏰"))) = Except.ok []
    ∧ (AnalyticsService.generateInsights (some nineAheadLogs) 0 32400000).map
        (fun out => out.filter (fun i => decide (i.icon = "⏰")))
      = Except.ok [{ icon := "⏰", text := "最もリブートが多いのは午前9時台です",
                     priority := AnalyticsService.Priority.medium }]
    ∧ logsInHour nineAheadLogs 32400000 9 = 7
    ∧ logsInHour nineAheadLogs 32400000 14 = 3
    ∧ logsInHour nineAheadLogs 32400000 22 = 2
    ∧ ∃ out, AnalyticsService.generateInsights (some nineAheadLogs) 0 32400000 = Except.ok out
      ∧ ((∃ i ∈ out, i.icon = "⏰") ↔ 10 ≤ nineAheadLogs.length)
      ∧ ∃ hour label,
          hour < 24
            ∧ 0 < logsInHour nineAheadLogs 32400000 hour
            ∧ (∀ other, logsInHour nineAheadLogs 32400000 other
                ≤ logsInHour nineAheadLogs 32400000 hour)
            ∧ (hour < 12 → label = "午前")
            ∧ (12 ≤ hour → hour < 18 → label = "午後")
            ∧ (18 ≤ hour → label = "夜")
            ∧ out.filter (fun i => decide (i.icon = "⏰"))
                = [{ icon := "⏰"
                     text := "最もリブートが多いのは" ++ label ++ toString hour ++ "時台です"
                     priority := AnalyticsService.Priority.medium }] := by
  obtain ⟨out, h1, h2, h3⟩ := generateInsights_peak_hour nineAheadLogs 0 32400000
  exact ⟨by decide!, by decide!, by decide!, by decide!, by decide!, out, h1, h2,
    h3 (by decide)⟩

/-! ## Analytics engine: the average-recovery insight -/

theorem roundToTenth_lt_five (x : ℚ) : roundToTenth x < 5 ↔ x < 99 / 20 := by
  have hnn : (0 : ℚ) ≤ |x| * 10 + 1 / 2 := by positivity
  have hfl : (0 : Int) ≤ ⌊|x| * 10 + 1 / 2⌋ := Int.floor_nonneg.mpr hnn
  have hcast : ((⌊|x| * 10 + 1 / 2⌋.toNat : Nat) : ℚ) = ((⌊|x| * 10 + 1 / 2⌋ : Int) : ℚ) := by
    have h := Int.toNat_of_nonneg hfl
    exact_mod_cast congrArg (fun z : Int => (z : ℚ)) h
  have hflq : (0 : ℚ) ≤ ((⌊|x| * 10 + 1 / 2⌋ : Int) : ℚ) := by exact_mod_cast hfl
  unfold roundToTenth
  rw [hcast]
  by_cases hx : x < 0
  · rw [if_pos hx]
    constructor
    · intro _
      linarith
    · intro _
      linarith
  · rw [if_neg hx, abs_of_nonneg (not_lt.mp hx)]
    have key : ((⌊x * 10 + 1 / 2⌋ : Int) : ℚ) < 50 ↔ x * 10 + 1 / 2 < 50 := by
      have := @Int.floor_lt ℚ _ _ 50 (x * 10 + 1 / 2)
      constructor
      · intro h
        have h2 : ⌊x * 10 + 1 / 2⌋ < 50 := by exact_mod_cast h
        have := this.mp h2
        simpa using this
      · intro h
        have h2 : ⌊x * 10 + 1 / 2⌋ < 50 := this.mpr (by simpa using h)
        exact_mod_cast h2
    constructor
    · intro h
      have h2 : ((⌊x * 10 + 1 / 2⌋ : Int) : ℚ) < 50 := by linarith
      have := key.mp h2
      linarith
    · intro h
      have h2 : x * 10 + 1 / 2 < 50 := by linarith
      have := key.mpr h2
      linarith

theorem seven_le_roundToTenth (x : ℚ) : 7 ≤ roundToTenth x ↔ 139 / 20 ≤ x := by
  have hnn : (0 : ℚ) ≤ |x| * 10 + 1 / 2 := by positivity
  have hfl : (0 : Int) ≤ ⌊|x| * 10 + 1 / 2⌋ := Int.floor_nonneg.mpr hnn
  have hcast : ((⌊|x| * 10 + 1 / 2⌋.toNat : Nat) : ℚ) = ((⌊|x| * 10 + 1 / 2⌋ : Int) : ℚ) := by
    have h := Int.toNat_of_nonneg hfl
    exact_mod_cast congrArg (fun z : Int => (z : ℚ)) h
  have hflq : (0 : ℚ) ≤ ((⌊|x| * 10 + 1 / 2⌋ : Int) : ℚ) := by exact_mod_cast hfl
  unfold roundToTenth
  rw [hcast]
  by_cases hx : x < 0
  · rw [if_pos hx]
    constructor
    · intro _
      linarith
    · intro _
      linarith
  · rw [if_neg hx, abs_of_nonneg (not_lt.mp hx)]
    have key : (70 : ℚ) ≤ ((⌊x * 10 + 1 / 2⌋ : Int) : ℚ) ↔ 70 ≤ x * 10 + 1 / 2 := by
      have := @Int.le_floor ℚ _ _ 70 (x * 10 + 1 / 2)
      constructor
      · intro h
        have h2 : (70 : Int) ≤ ⌊x * 10 + 1 / 2⌋ := by exact_mod_cast h
        have := this.mp h2
        simpa using this
      · intro h
        have h2 : (70 : Int) ≤ ⌊x * 10 + 1 / 2⌋ := this.mpr (by simpa using h)
        exact_mod_cast h2
    constructor
    · intro h
      have h2 : (70 : ℚ) ≤ ((⌊x * 10 + 1 / 2⌋ : Int) : ℚ) := by linarith
      have := key.mp h2
      linarith
    · intro h
      have h2 : (70 : ℚ) ≤ x * 10 + 1 / 2 := by linarith
      have := key.mpr h2
      linarith

/-- For a non-empty history of fewer than `2 ^ 32` logs (the bound of an array), the displayed
mean is below 5 exactly when the mean is below 4.95, and at least 7 exactly when the mean is at
least 6.95. -/
theorem displayed_mean_thresholds (logs : List LogEntry) (hne : logs ≠ [])
    (hlen : logs.length < 2 ^ 32) :
    (roundToTenth (toDouble (meanRecovery logs)) < 5 ↔ meanRecovery logs < 99 / 20)
      ∧ (7 ≤ roundToTenth (toDouble (meanRecovery logs)) ↔ 139 / 20 ≤ meanRecovery logs) := by
  have hpos : 0 < logs.length := List.length_pos.mpr hne
  have h5 := toDouble_lt_twentieth (logs.map (fun log => log.postRecovery)).sum logs.length 99
    hpos hlen (by norm_num) toDouble_thresholds.1
  have h7 := toDouble_lt_twentieth (logs.map (fun log => log.postRecovery)).sum logs.length 139
    hpos hlen (by norm_num) toDouble_thresholds.2
  simp only [Nat.cast_ofNat] at h5 h7
  rw [roundToTenth_lt_five, seven_le_roundToTenth]
  unfold meanRecovery
  exact ⟨h5, not_lt.symm.trans ((not_congr h7).trans not_lt)⟩

namespace AnalyticsService

/-- The average-recovery insight of a non-empty history is decided by the mean as displayed,
that is by the value of the text of `toFixed(1)`. -/
theorem recoveryInsight_eq (first : LogEntry) (rest : List LogEntry) (now tz : Int) :
    recoveryInsight (calculateStats (some (first :: rest)) now tz)
      = if roundToTenth (toDouble (meanRecovery (first :: rest))) < 5 then
          [{ icon := "📉", text := "リブートの効果が低下しています。方法を見直しましょう",
             priority := Priority.high }]
        else if 7 ≤ roundToTenth (toDouble (meanRecovery (first :: rest))) then
          [{ icon := "🎯"
             text := "平均回復度" ++ toFixed1 (meanRecovery (first :: rest))
               ++ "点！最適化が成功しています"
             priority := Priority.low }]
        else [] := by
  have havg : (calculateStats (some (first :: rest)) now tz).avgRecovery
      = JSValue.string (toFixed1 (meanRecovery (first :: rest))) := by
    simp only [calculateStats, meanRecovery, AIAgent.foldl_postRecovery]
    simp
  unfold recoveryInsight
  rw [havg]
  simp only [parseFloat, parseFloatString_toFixed1, valueText, ge_iff_le]

/-- The insights with one of the two average-recovery icons in the result of
`generateInsights`. -/
theorem recovery_part_of_result (first : LogEntry) (rest : List LogEntry) (now tz : Int) :
    ∃ out, generateInsights (some (first :: rest)) now tz = Except.ok out
      ∧ out.filter (fun i => decide (i.icon = "📉" ∨ i.icon = "🎯"))
          = recoveryInsight (calculateStats (some (first :: rest)) now tz) := by
  obtain ⟨ta, _, _, hgen⟩ := generateInsights_eq first rest now tz
  have hperm := (jsSort_perm (fun a b => priorityKey b - priorityKey a)
    (generatedInsights (first :: rest) now tz ta)).filter
      (fun i => decide (i.icon = "📉" ∨ i.icon = "🎯"))
  have hfilter : (generatedInsights (first :: rest) now tz ta).filter
      (fun i => decide (i.icon = "📉" ∨ i.icon = "🎯"))
      = recoveryInsight (calculateStats (some (first :: rest)) now tz) := by
    rw [filter_generatedInsights,
      filter_eq_nil_of_icons _ (bestTypeInsight _),
      filter_eq_nil_of_icons _ (timeInsight _),
      filter_eq_nil_of_icons _ (streakInsight _),
      filter_eq_nil_of_icons _ [_]]
    · simp only [List.nil_append, List.append_nil]
      rw [List.filter_eq_self]
      intro i hi
      rcases icon_of_mem_recoveryInsight _ i hi with h | h <;> simp [h]
    · intro i hi
      simp only [List.mem_singleton] at hi
      rcases icon_of_frequencyInsight
        (logsWithin (7 * dayMs) (first :: rest) now).length with h | h <;>
        rw [hi, h] <;> decide
    · intro i hi
      rw [icon_of_mem_streakInsight _ i hi]
      decide
    · intro i hi
      rw [icon_of_mem_timeInsight _ i hi]
      decide
    · intro i hi
      rw [icon_of_mem_bestTypeInsight _ i hi]
      decide
  rw [hfilter] at hperm
  refine ⟨_, hgen, ?_⟩
  have hlen : (recoveryInsight (calculateStats (some (first :: rest)) now tz)).length ≤ 1 := by
    rw [recoveryInsight_eq]
    split
    · simp
    · split <;> simp
  match hr : recoveryInsight (calculateStats (some (first :: rest)) now tz), hlen with
  | [], _ =>
    rw [hr] at hperm
    exact List.Perm.eq_nil hperm
  | [i], _ =>
    rw [hr] at hperm
    exact List.perm_singleton.mp hperm

end AnalyticsService

/-- Claim C16, the counterexample: twenty logs of recovery 5 and one of recovery 4 have a mean
below 5 (104/21), yet the result holds no "declining effectiveness" insight: the mean is
displayed as 5.0 and that value is compared. -/
theorem declining_insight_absent_for_mean_just_below_five :
    meanRecovery nearFiveLogs < 5
      ∧ (AnalyticsService.calculateStats (some nearFiveLogs) 0 0).avgRecovery
          = JSValue.string "5.0"
      ∧ ∃ out, AnalyticsService.generateInsights (some nearFiveLogs) 0 0 = Except.ok out
          ∧ ¬ ((∃ i ∈ out, i.icon = "📉") ↔ meanRecovery nearFiveLogs < 5) := by
  have hmean : meanRecovery nearFiveLogs < 5 := by decide!
  refine ⟨hmean, by decide!, ?_⟩
  have hicons : (AnalyticsService.generateInsights (some nearFiveLogs) 0 0).map
      (fun out => out.filter (fun i => decide (i.icon = "📉"))) = Except.ok [] := by decide!
  match hg : AnalyticsService.generateInsights (some nearFiveLogs) 0 0 with
  | Except.error e =>
    rw [hg] at hicons
    cases hicons
  | Except.ok out =>
    rw [hg] at hicons
    have hnil : out.filter (fun i => decide (i.icon = "📉")) = [] := Except.ok.inj hicons
    refine ⟨out, rfl, ?_⟩
    intro hiff
    obtain ⟨i, hi, hicon⟩ := hiff.mpr hmean
    have : i ∈ out.filter (fun i => decide (i.icon = "📉")) :=
      List.mem_filter.mpr ⟨hi, by simp [hicon]⟩
    rw [hnil] at this
    simp at this

/-- Claim C16 as amended: for a non-empty history (of fewer than `2 ^ 32` logs, the bound of an
array) the result of `generateInsights` holds the high-priority "declining effectiveness"
insight exactly when the displayed `avgRecovery`, the value of the text of `toFixed(1)` of the
mean `postRecovery`, is below 5, that is when the mean is below 4.95; it holds the low-priority
"optimization succeeding" insight, with that text, exactly when the displayed value is at least
7, that is when the mean is at least 6.95; in between it holds neither. -/
theorem recovery_insight_follows_displayed_mean (first : LogEntry) (rest : List LogEntry)
    (now tz : Int) (hlen : (first :: rest).length < 2 ^ 32) :
    ∃ out, AnalyticsService.generateInsights (some (first :: rest)) now tz = Except.ok out
      ∧ (meanRecovery (first :: rest) < 99 / 20 →
          out.filter (fun i => decide (i.icon = "📉" ∨ i.icon = "🎯"))
            = [{ icon := "📉", text := "リブートの効果が低下しています。方法を見直しましょう",
                 priority := AnalyticsService.Priority.high }])
      ∧ (139 / 20 ≤ meanRecovery (first :: rest) →
          out.filter (fun i => decide (i.icon = "📉" ∨ i.icon = "🎯"))
            = [{ icon := "🎯"
                 text := "平均回復度" ++ toFixed1 (meanRecovery (first :: rest))
                   ++ "点！最適化が成功しています"
                 priority := AnalyticsService.Priority.low }])
      ∧ (99 / 20 ≤ meanRecovery (first :: rest) → meanRecovery (first :: rest) < 139 / 20 →
          out.filter (fun i => decide (i.icon = "📉" ∨ i.icon = "🎯")) = [])
      ∧ parseFloat (AnalyticsService.calculateStats (some (first :: rest)) now tz).avgRecovery
          = some (roundToTenth (toDouble (meanRecovery (first :: rest))))
      ∧ (roundToTenth (toDouble (meanRecovery (first :: rest))) < 5
          ↔ meanRecovery (first :: rest) < 99 / 20)
      ∧ (7 ≤ roundToTenth (toDouble (meanRecovery (first :: rest)))
          ↔ 139 / 20 ≤ meanRecovery (first :: rest)) := by
  obtain ⟨out, hout, hfilter⟩ := AnalyticsService.recovery_part_of_result first rest now tz
  rw [AnalyticsService.recoveryInsight_eq] at hfilter
  obtain ⟨h5iff, h7iff⟩ := displayed_mean_thresholds (first :: rest) (by simp) hlen
  have havg : (AnalyticsService.calculateStats (some (first :: rest)) now tz).avgRecovery
      = JSValue.string (toFixed1 (meanRecovery (first :: rest))) := by
    simp only [AnalyticsService.calculateStats, meanRecovery, AIAgent.foldl_postRecovery]
    simp
  refine ⟨out, hout, ?_, ?_, ?_, ?_, h5iff, h7iff⟩
  · intro h
    rw [hfilter, if_pos (h5iff.mpr h)]
  · intro h
    have h5 : ¬ roundToTenth (toDouble (meanRecovery (first :: rest))) < 5 := by
      rw [h5iff]
      intro h2
      linarith
    rw [hfilter, if_neg h5, if_pos (h7iff.mpr h)]
  · intro h1 h2
    have h5 : ¬ roundToTenth (toDouble (meanRecovery (first :: rest))) < 5 := by
      rw [h5iff]
      intro h3
      linarith
    have h7 : ¬ 7 ≤ roundToTenth (toDouble (meanRecovery (first :: rest))) := by
      rw [h7iff]
      intro h3
      linarith
    rw [hfilter, if_neg h5, if_neg h7]
  · rw [havg]
    exact parseFloatString_toFixed1 _

/-- A single log of recovery 4 gives the "declining" insight, twelve logs of recovery 8 give
the "succeeding" insight with the text 8.0, and the history of mean 104/21 gives neither. -/
theorem recovery_insight_follows_displayed_mean_witness :
    (∃ out, AnalyticsService.generateInsights (some [mkLog 0 "spa" 5 4]) 0 0 = Except.ok out
      ∧ out.filter (fun i => decide (i.icon = "📉" ∨ i.icon = "🎯"))
          = [{ icon := "📉", text := "リブートの効果が低下しています。方法を見直しましょう",
               priority := AnalyticsService.Priority.high }])
    ∧ (∃ out, AnalyticsService.generateInsights (some twelveLogs) 0 0 = Except.ok out
      ∧ out.filter (fun i => decide (i.icon = "📉" ∨ i.icon = "🎯"))
          = [{ icon := "🎯"
               text := "平均回復度" ++ toFixed1 (meanRecovery twelveLogs)
                 ++ "点！最適化が成功しています"
               priority := AnalyticsService.Priority.low }])
    ∧ "平均回復度" ++ toFixed1 (meanRecovery twelveLogs) ++ "点！最適化が成功しています"
        = "平均回復度8.0点！最適化が成功しています"
    ∧ (∃ out, AnalyticsService.generateInsights (some nearFiveLogs) 0 0 = Except.ok out
      ∧ out.filter (fun i => decide (i.icon = "📉" ∨ i.icon = "🎯")) = []) := by
  obtain ⟨out1, h1, h1a, _⟩ := recovery_insight_follows_displayed_mean (mkLog 0 "spa" 5 4) [] 0 0
    (by decide)
  obtain ⟨out2, h2, _, h2b, _⟩ := recovery_insight_follows_displayed_mean
    (mkLog 32400000 "spa" 5 8) (List.replicate 11 (mkLog 32400000 "spa" 5 8)) 0 0 (by decide)
  obtain ⟨out3, h3, _, _, h3c, _⟩ := recovery_insight_follows_displayed_mean
    (mkLog 0 "spa" 5 5) (List.replicate 19 (mkLog 0 "spa" 5 5) ++ [mkLog 0 "spa" 5 4]) 0 0
    (by decide)
  exact ⟨⟨out1, h1, h1a (by decide!)⟩, ⟨out2, h2, h2b (by decide!)⟩, by decide!,
    ⟨out3, h3, h3c (by decide!) (by decide!)⟩⟩

/-! ## Calendar facts -/

set_option maxHeartbeats 1000000 in
theorem daysFromCivil_lt_of_year_lt (y m d y' m' d' : Int)
    (hm : 1 ≤ m ∧ m ≤ 12) (hd : 1 ≤ d ∧ d ≤ 31) (hm' : 1 ≤ m' ∧ m' ≤ 12) (hd' : 1 ≤ d')
    (hlt : y < y') : daysFromCivil y m d < daysFromCivil y' m' d' := by
  unfold daysFromCivil
  simp only []
  split_ifs <;> omega

set_option maxHeartbeats 1000000 in
theorem daysFromCivil_lt_of_month_lt (y m d m' d' : Int)
    (hm : 1 ≤ m ∧ m ≤ 12) (hd : 1 ≤ d ∧ d ≤ daysInMonth y m) (hm' : 1 ≤ m' ∧ m' ≤ 12)
    (hd' : 1 ≤ d') (hlt : m < m') : daysFromCivil y m d < daysFromCivil y m' d' := by
  obtain ⟨hm1, hm2⟩ := hm
  interval_cases m <;>
    (simp only [daysInMonth, daysFromCivil] at hd ⊢
     norm_num at hd ⊢
     split_ifs at hd ⊢ <;> omega)

theorem daysFromCivil_lt_of_day_lt (y m d d' : Int) (hlt : d < d') :
    daysFromCivil y m d < daysFromCivil y m d' := by
  unfold daysFromCivil
  simp only []
  omega

theorem daysInMonth_le (y m : Int) : daysInMonth y m ≤ 31 := by
  unfold daysInMonth
  split_ifs <;> omega

/-- Later dates of the calendar have greater day numbers. -/
theorem daysFromCivil_lt (y m d y' m' d' : Int)
    (hm : 1 ≤ m ∧ m ≤ 12) (hd : 1 ≤ d ∧ d ≤ daysInMonth y m)
    (hm' : 1 ≤ m' ∧ m' ≤ 12) (hd' : 1 ≤ d' ∧ d' ≤ daysInMonth y' m')
    (hlex : y < y' ∨ (y = y' ∧ (m < m' ∨ (m = m' ∧ d < d')))) :
    daysFromCivil y m d < daysFromCivil y' m' d' := by
  have h31 := daysInMonth_le y m
  rcases hlex with h | ⟨rfl, h | ⟨rfl, h⟩⟩
  · exact daysFromCivil_lt_of_year_lt y m d y' m' d' hm ⟨hd.1, by omega⟩ hm' hd'.1 h
  · exact daysFromCivil_lt_of_month_lt y m d m' d' hm hd hm' hd'.1 h
  · exact daysFromCivil_lt_of_day_lt y m d d' h

theorem char_lt_iff_toNat (a b : Char) : a < b ↔ a.toNat < b.toNat := by
  rw [Char.lt_def, UInt32.lt_def, BitVec.lt_def]
  rfl

theorem char_eq_of_toNat (a b : Char) (h : a.toNat = b.toNat) : a = b := by
  apply Char.ext
  apply UInt32.eq_of_toBitVec_eq
  apply BitVec.eq_of_toNat_eq
  exact h

theorem isDigit_bounds (c : Char) (h : c.isDigit = true) : 48 ≤ c.toNat ∧ c.toNat ≤ 57 := by
  simp only [Char.isDigit, Bool.and_eq_true, decide_eq_true_eq, ge_iff_le, UInt32.le_def,
    BitVec.le_def] at h
  exact h

theorem charList_cons_lt_cons (a b : Char) (as bs : List Char) :
    a :: as < b :: bs ↔ a < b ∨ (a = b ∧ as < bs) := by
  constructor
  · intro h
    cases h with
    | cons h2 => exact Or.inr ⟨rfl, h2⟩
    | rel h2 => exact Or.inl h2
  · rintro (h | ⟨rfl, h⟩)
    · exact List.Lex.rel h
    · exact List.Lex.cons h

theorem charList_nil_not_lt_nil : ¬ (([] : List Char) < []) := by
  intro h
  cases h

/-- The shape of a string that `parseDate` accepts. -/
theorem parseDate_some (s : String) (t : Int) (h : parseDate s = some t) :
    ∃ y1 y2 y3 y4 m1 m2 d1 d2 : Char,
      s.toList = [y1, y2, y3, y4, '-', m1, m2, '-', d1, d2]
        ∧ (∀ c ∈ [y1, y2, y3, y4, m1, m2, d1, d2], c.isDigit = true)
        ∧ 1 ≤ digitOf m1 * 10 + digitOf m2 ∧ digitOf m1 * 10 + digitOf m2 ≤ 12
        ∧ 1 ≤ digitOf d1 * 10 + digitOf d2
        ∧ digitOf d1 * 10 + digitOf d2
            ≤ daysInMonth (digitOf y1 * 1000 + digitOf y2 * 100 + digitOf y3 * 10 + digitOf y4)
                (digitOf m1 * 10 + digitOf m2)
        ∧ t = daysFromCivil (digitOf y1 * 1000 + digitOf y2 * 100 + digitOf y3 * 10 + digitOf y4)
                (digitOf m1 * 10 + digitOf m2) (digitOf d1 * 10 + digitOf d2) * dayMs := by
  unfold parseDate at h
  split at h
  · rename_i y1 y2 y3 y4 m1 m2 d1 d2 hs
    split at h
    · rename_i hdig
      simp only [] at h
      split at h
      · rename_i hval
        refine ⟨y1, y2, y3, y4, m1, m2, d1, d2, hs, ?_, hval.1, hval.2.1, hval.2.2.1,
          hval.2.2.2, ?_⟩
        · intro c hc
          exact List.all_eq_true.mp hdig c hc
        · exact (Option.some.inj h).symm
      · simp at h
    · simp at h
  · simp at h

/-- Among well-formed date strings the order of the strings is the order of the dates. -/
theorem parseDate_lt (s1 s2 : String) (t1 t2 : Int) (h1 : parseDate s1 = some t1)
    (h2 : parseDate s2 = some t2) (hlt : s1 < s2) : t1 < t2 := by
  obtain ⟨a1, a2, a3, a4, a5, a6, a7, a8, hs1, hdig1, hm1, hm1', hd1, hd1', ht1⟩ :=
    parseDate_some s1 t1 h1
  obtain ⟨b1, b2, b3, b4, b5, b6, b7, b8, hs2, hdig2, hm2, hm2', hd2, hd2', ht2⟩ :=
    parseDate_some s2 t2 h2
  rw [String.lt_iff_toList_lt, hs1, hs2] at hlt
  simp only [charList_cons_lt_cons, charList_nil_not_lt_nil, lt_self_iff_false, false_or,
    true_and, and_false, or_false] at hlt
  have ha1 := isDigit_bounds a1 (hdig1 a1 (by simp))
  have ha2 := isDigit_bounds a2 (hdig1 a2 (by simp))
  have ha3 := isDigit_bounds a3 (hdig1 a3 (by simp))
  have ha4 := isDigit_bounds a4 (hdig1 a4 (by simp))
  have ha5 := isDigit_bounds a5 (hdig1 a5 (by simp))
  have ha6 := isDigit_bounds a6 (hdig1 a6 (by simp))
  have ha7 := isDigit_bounds a7 (hdig1 a7 (by simp))
  have ha8 := isDigit_bounds a8 (hdig1 a8 (by simp))
  have hb1 := isDigit_bounds b1 (hdig2 b1 (by simp))
  have hb2 := isDigit_bounds b2 (hdig2 b2 (by simp))
  have hb3 := isDigit_bounds b3 (hdig2 b3 (by simp))
  have hb4 := isDigit_bounds b4 (hdig2 b4 (by simp))
  have hb5 := isDigit_bounds b5 (hdig2 b5 (by simp))
  have hb6 := isDigit_bounds b6 (hdig2 b6 (by simp))
  have hb7 := isDigit_bounds b7 (hdig2 b7 (by simp))
  have hb8 := isDigit_bounds b8 (hdig2 b8 (by simp))
  have hlex :
      digitOf a1 * 1000 + digitOf a2 * 100 + digitOf a3 * 10 + digitOf a4
          < digitOf b1 * 1000 + digitOf b2 * 100 + digitOf b3 * 10 + digitOf b4
        ∨ (digitOf a1 * 1000 + digitOf a2 * 100 + digitOf a3 * 10 + digitOf a4
            = digitOf b1 * 1000 + digitOf b2 * 100 + digitOf b3 * 10 + digitOf b4
          ∧ (digitOf a5 * 10 + digitOf a6 < digitOf b5 * 10 + digitOf b6
            ∨ (digitOf a5 * 10 + digitOf a6 = digitOf b5 * 10 + digitOf b6
              ∧ digitOf a7 * 10 + digitOf a8 < digitOf b7 * 10 + digitOf b8))) := by
    simp only [char_lt_iff_toNat] at hlt
    unfold digitOf
    rcases hlt with h | ⟨rfl, h | ⟨rfl, h | ⟨rfl, h | ⟨rfl, h | ⟨rfl, h | ⟨rfl, h | ⟨rfl, h⟩⟩⟩⟩⟩⟩⟩
      <;> omega
  have hdays := daysFromCivil_lt _ _ _ _ _ _ ⟨hm1, hm1'⟩ ⟨hd1, hd1'⟩ ⟨hm2, hm2'⟩ ⟨hd2, hd2'⟩ hlex
  rw [ht1, ht2]
  unfold dayMs
  omega

/-! ## The streak loop -/

theorem eraseDups_loop_spec (as bs : List String) (hbs : bs.Nodup) :
    (List.eraseDups.loop as bs).Nodup
      ∧ ∀ x, x ∈ List.eraseDups.loop as bs ↔ (x ∈ as ∨ x ∈ bs) := by
  induction as generalizing bs with
  | nil =>
    simp only [List.eraseDups.loop]
    exact ⟨List.nodup_reverse.mpr hbs, fun x => by simp⟩
  | cons a as ih =>
    simp only [List.eraseDups.loop]
    by_cases ha : a ∈ bs
    · have helem : List.elem a bs = true := by simpa using ha
      rw [helem]
      obtain ⟨h1, h2⟩ := ih bs hbs
      refine ⟨h1, fun x => ?_⟩
      rw [h2 x]
      constructor
      · rintro (h | h)
        · exact Or.inl (List.mem_cons_of_mem _ h)
        · exact Or.inr h
      · rintro (h | h)
        · rcases List.mem_cons.mp h with rfl | h3
          · exact Or.inr ha
          · exact Or.inl h3
        · exact Or.inr h
    · have helem : List.elem a bs = false := by simpa using ha
      rw [helem]
      obtain ⟨h1, h2⟩ := ih (a :: bs) (List.nodup_cons.mpr ⟨ha, hbs⟩)
      refine ⟨h1, fun x => ?_⟩
      rw [h2 x]
      constructor
      · rintro (h | h)
        · exact Or.inl (List.mem_cons_of_mem _ h)
        · rcases List.mem_cons.mp h with rfl | h3
          · exact Or.inl (List.mem_cons_self _ _)
          · exact Or.inr h3
      · rintro (h | h)
        · rcases List.mem_cons.mp h with rfl | h3
          · exact Or.inr (List.mem_cons_self _ _)
          · exact Or.inl h3
        · exact Or.inr (List.mem_cons_of_mem _ h)

/-- The dates that `calculateStreak` visits: every date of a log, once, latest string first. -/
theorem streak_dates_spec (dates : List String) :
    (∀ x, x ∈ ((dates.eraseDups).insertionSort (fun a b => a ≤ b)).reverse ↔ x ∈ dates)
      ∧ (((dates.eraseDups).insertionSort (fun a b => a ≤ b)).reverse).Pairwise
          (fun a b => b < a) := by
  obtain ⟨hnd, hmem⟩ := eraseDups_loop_spec dates [] List.nodup_nil
  have hed : dates.eraseDups = List.eraseDups.loop dates [] := rfl
  rw [← hed] at hnd hmem
  constructor
  · intro x
    rw [List.mem_reverse, (List.perm_insertionSort _ _).mem_iff, hmem]
    simp
  · rw [List.pairwise_reverse]
    have hs : (dates.eraseDups.insertionSort (fun a b => a ≤ b)).Sorted (· ≤ ·) :=
      List.sorted_insertionSort (· ≤ ·) _
    have hnd2 : (dates.eraseDups.insertionSort (fun a b => a ≤ b)).Nodup :=
      (List.perm_insertionSort _ _).nodup_iff.mpr hnd
    exact hs.lt_of_le hnd2

theorem diffDays_eq (now tz D : Int) (htz : 0 ≤ tz ∧ tz < dayMs) :
    (setHoursMidnight tz now - setHoursMidnight tz (D * dayMs)) / dayMs
      = localDay now tz - D := by
  unfold setHoursMidnight localDay
  unfold dayMs at htz ⊢
  omega

theorem dayOfDate_eq (s : String) (D : Int) :
    dayOfDate s = some D ↔ parseDate s = some (D * dayMs) := by
  unfold dayOfDate
  constructor
  · intro h
    match hp : parseDate s with
    | none => rw [hp] at h; simp at h
    | some t =>
      rw [hp] at h
      obtain ⟨_, _, _, _, _, _, _, _, _, _, _, _, _, _, ht⟩ := parseDate_some s t hp
      simp only [Option.map_some', Option.some.injEq] at h
      rw [ht] at h ⊢
      have hpos : dayMs ≠ 0 := by unfold dayMs; norm_num
      rw [Int.mul_ediv_cancel _ hpos] at h
      rw [h]
  · intro h
    rw [h]
    have hpos : dayMs ≠ 0 := by unfold dayMs; norm_num
    simp [Int.mul_ediv_cancel _ hpos]

theorem dayOfDate_lt (a b : String) (Da Db : Int) (ha : dayOfDate a = some Da)
    (hb : dayOfDate b = some Db) (hlt : b < a) : Db < Da := by
  rw [dayOfDate_eq] at ha hb
  have := parseDate_lt b a _ _ hb ha hlt
  unfold dayMs at this
  omega

namespace AnalyticsService

/-- The loop over dates that are well-formed, strictly descending and not after day
`today - k`: it counts up as long as the days `today - k`, `today - k - 1`, ... hold a date, and
the day of the final count holds none. -/
theorem streakLoop_spec (now tz : Int) (htz : 0 ≤ tz ∧ tz < dayMs) (ds : List String) (k : Nat)
    (hvalid : ∀ s ∈ ds, ∃ D, dayOfDate s = some D)
    (hdesc : ds.Pairwise (fun a b => b < a))
    (hbound : ∀ s ∈ ds, ∀ D, dayOfDate s = some D → D ≤ localDay now tz - k) :
    k ≤ streakLoop (setHoursMidnight tz now) tz ds k
      ∧ (∀ j : Nat, k ≤ j → j < streakLoop (setHoursMidnight tz now) tz ds k →
          ∃ s ∈ ds, dayOfDate s = some (localDay now tz - j))
      ∧ ¬ ∃ s ∈ ds, dayOfDate s
          = some (localDay now tz - (streakLoop (setHoursMidnight tz now) tz ds k : Nat)) := by
  induction ds generalizing k with
  | nil =>
    refine ⟨le_refl _, ?_, ?_⟩
    · intro j h1 h2
      simp only [streakLoop] at h2
      omega
    · simp
  | cons s rest ih =>
    obtain ⟨D, hD⟩ := hvalid s (List.mem_cons_self _ _)
    have hparse := (dayOfDate_eq s D).mp hD
    have hDle := hbound s (List.mem_cons_self _ _) D hD
    have hpc := List.pairwise_cons.mp hdesc
    have hrestlt : ∀ s' ∈ rest, ∀ D', dayOfDate s' = some D' → D' < D := by
      intro s' hs' D' hD'
      exact dayOfDate_lt s s' D D' hD hD' (hpc.1 s' hs')
    have hstep : streakLoop (setHoursMidnight tz now) tz (s :: rest) k
        = if localDay now tz - D = (k : Int)
          then streakLoop (setHoursMidnight tz now) tz rest (k + 1) else k := by
      simp only [streakLoop, hparse, diffDays_eq now tz D htz]
    rw [hstep]
    by_cases hk : localDay now tz - D = (k : Int)
    · rw [if_pos hk]
      obtain ⟨ih1, ih2, ih3⟩ := ih (k + 1) (fun s' hs' => hvalid s' (List.mem_cons_of_mem _ hs'))
        hpc.2 (by
          intro s' hs' D' hD'
          have := hrestlt s' hs' D' hD'
          push_cast
          omega)
      refine ⟨by omega, ?_, ?_⟩
      · intro j hj1 hj2
        by_cases hjk : j = k
        · refine ⟨s, List.mem_cons_self _ _, ?_⟩
          rw [hD, hjk]
          congr 1
          omega
        · obtain ⟨s', hs', hs'd⟩ := ih2 j (by omega) hj2
          exact ⟨s', List.mem_cons_of_mem _ hs', hs'd⟩
      · rintro ⟨s', hs', hs'd⟩
        rcases List.mem_cons.mp hs' with rfl | hs'2
        · rw [hD] at hs'd
          have := Option.some.inj hs'd
          omega
        · exact ih3 ⟨s', hs'2, hs'd⟩
    · rw [if_neg hk]
      refine ⟨le_refl _, ?_, ?_⟩
      · intro j h1 h2
        omega
      · rintro ⟨s', hs', hs'd⟩
        rcases List.mem_cons.mp hs' with rfl | hs'2
        · rw [hD] at hs'd
          have := Option.some.inj hs'd
          omega
        · have := hrestlt s' hs'2 _ hs'd
          omega

end AnalyticsService

namespace AnalyticsService

/-- For a local time at or ahead of UTC (by less than a day) and a history whose dates are
well-formed and none after today, `calculateStreak` is the greatest `k` such that each of the
days today, today - 1, ..., today - (k - 1) holds a log. -/
theorem calculateStreak_counts_consecutive_days (logs : List LogEntry) (now tz : Int)
    (htz : 0 ≤ tz ∧ tz < dayMs)
    (hvalid : ∀ log ∈ logs, ∃ D, dayOfDate log.date = some D)
    (hfuture : ∀ log ∈ logs, ∀ D, dayOfDate log.date = some D → D ≤ localDay now tz) :
    ∀ k : Nat, (∀ j : Nat, j < k → DayHasLog logs (localDay now tz - j))
      ↔ k ≤ calculateStreak logs now tz := by
  obtain ⟨hmem, hdesc⟩ := streak_dates_spec (logs.map (fun log => log.date))
  have hds : ∀ d, DayHasLog logs d
      ↔ ∃ s ∈ (((logs.map (fun log => log.date)).eraseDups).insertionSort
          (fun a b => a ≤ b)).reverse, dayOfDate s = some d := by
    intro d
    constructor
    · rintro ⟨log, hlog, hd⟩
      exact ⟨log.date, (hmem _).mpr (List.mem_map.mpr ⟨log, hlog, rfl⟩), hd⟩
    · rintro ⟨s, hs, hd⟩
      obtain ⟨log, hlog, rfl⟩ := List.mem_map.mp ((hmem s).mp hs)
      exact ⟨log, hlog, hd⟩
  have hloop := streakLoop_spec now tz htz
    ((((logs.map (fun log => log.date)).eraseDups).insertionSort (fun a b => a ≤ b)).reverse) 0
    (by
      intro s hs
      obtain ⟨log, hlog, rfl⟩ := List.mem_map.mp ((hmem s).mp hs)
      exact hvalid log hlog)
    hdesc
    (by
      intro s hs D hD
      obtain ⟨log, hlog, rfl⟩ := List.mem_map.mp ((hmem s).mp hs)
      have := hfuture log hlog D hD
      simpa using this)
  obtain ⟨_, h2, h3⟩ := hloop
  have hval : calculateStreak logs now tz
      = if logs.length = 0 then 0
        else streakLoop (setHoursMidnight tz now) tz
          ((((logs.map (fun log => log.date)).eraseDups).insertionSort
            (fun a b => a ≤ b)).reverse) 0 := rfl
  intro k
  by_cases hlen : logs.length = 0
  · rw [hval, if_pos hlen]
    have hnil : logs = [] := List.length_eq_zero.mp hlen
    constructor
    · intro h
      by_contra hk
      obtain ⟨log, hlog, _⟩ := h 0 (by omega)
      rw [hnil] at hlog
      simp at hlog
    · intro hk j hj
      omega
  · rw [hval, if_neg hlen]
    constructor
    · intro h
      by_contra hk
      exact h3 ((hds _).mp (h _ (by omega)))
    · intro hk j hj
      exact (hds _).mpr (h2 j (Nat.zero_le _) (by omega))

end AnalyticsService

/-! ## Analytics engine: the streak -/

/-- Claim C12, the code at the failing input: with logs dated tomorrow, today and yesterday the
streak is 0, although today and yesterday hold a log (without the log dated tomorrow it is 2):
the loop stops at the first date that is not `streak` days before today, and the latest date
comes first. The sample of the specification (today, yesterday, three days ago) gives 2 for
local times at or ahead of UTC, and 0 for a local time behind UTC, where a date read as
midnight UTC falls on the preceding local day. -/
theorem streak_is_zero_when_a_log_is_dated_after_today :
    AnalyticsService.calculateStreak futureDatedLogs streakNow 0 = 0
      ∧ (AnalyticsService.calculateStats (some futureDatedLogs) streakNow 0).streakDays = 0
      ∧ AnalyticsService.calculateStreak futureDatedLogs.tail streakNow 0 = 2
      ∧ AnalyticsService.calculateStreak streakLogs streakNow 0 = 2
      ∧ AnalyticsService.calculateStreak streakLogs streakNow (9 * 3600000) = 2
      ∧ AnalyticsService.calculateStreak streakLogs streakNow (-5 * 3600000) = 0 :=
  ⟨by decide!, by decide!, by decide!, by decide!, by decide!, by decide!⟩

/-! ## Log store -/

namespace DataService

theorem getAllLogs_eq (records : List LogEntry) :
    getAllLogs { db := some records }
      = Except.ok (jsSort (fun a b => ((b.timestamp : Int) : ℚ) - ((a.timestamp : Int) : ℚ))
          records) := by
  have hcmp : (fun a b : LogEntry => ((b.timestamp - a.timestamp : Int) : ℚ))
      = (fun a b => ((b.timestamp : Int) : ℚ) - ((a.timestamp : Int) : ℚ)) := by
    funext a b
    push_cast
    rfl
  simp only [getAllLogs, hcmp]

end DataService

/-- Claim C20: `getAllLogs` returns every stored entry exactly once, with timestamps that never
increase from first to last, and the entries of one timestamp in the scan order of the store,
which is the order of ascending id. -/
theorem getAllLogs_returns_store_newest_first (records : List LogEntry) :
    ∃ out, DataService.getAllLogs { db := some records } = Except.ok out
      ∧ out.Perm records
      ∧ SortedNewestFirst out
      ∧ (∀ t, out.filter (fun log => decide (log.timestamp = t))
          = records.filter (fun log => decide (log.timestamp = t)))
      ∧ (KeyOrdered records →
          out.Nodup ∧ ∀ t, KeyOrdered (out.filter (fun log => decide (log.timestamp = t)))) := by
  have hstable : ∀ t : Int,
      (jsSort (fun a b => ((b.timestamp : Int) : ℚ) - ((a.timestamp : Int) : ℚ)) records).filter
          (fun log => decide (log.timestamp = t))
        = records.filter (fun log => decide (log.timestamp = t)) := by
    intro t
    apply jsSort_filter_stable (fun log : LogEntry => ((log.timestamp : Int) : ℚ))
    intro a b ha hb
    have ha2 : a.timestamp = t := by simpa using ha
    have hb2 : b.timestamp = t := by simpa using hb
    rw [ha2, hb2]
  refine ⟨_, DataService.getAllLogs_eq records, jsSort_perm _ _, ?_, hstable, ?_⟩
  · unfold SortedNewestFirst
    refine List.Pairwise.imp ?_
      (jsSort_sorted (fun log : LogEntry => ((log.timestamp : Int) : ℚ)) records)
    intro a b hab
    exact_mod_cast hab
  · intro hkey
    constructor
    · have hnd : records.Nodup := by
        unfold KeyOrdered at hkey
        refine List.Pairwise.imp ?_ hkey
        intro a b hab heq
        rw [heq] at hab
        exact lt_irrefl _ hab
      exact (jsSort_perm _ records).nodup_iff.mpr hnd
    · intro t
      rw [hstable t]
      unfold KeyOrdered at hkey ⊢
      exact List.Pairwise.sublist (List.filter_sublist _) hkey

/-- A store of four entries with ids 1 to 4 and timestamps 5, 7, 5, 9: the result lists the
ids 4, 2, 1, 3, so the two entries of timestamp 5 come in the order of their ids. -/
theorem getAllLogs_returns_store_newest_first_witness :
    KeyOrdered [mkEntry 1 5 "", mkEntry 2 7 "", mkEntry 3 5 "", mkEntry 4 9 ""]
      ∧ (DataService.getAllLogs
          { db := some [mkEntry 1 5 "", mkEntry 2 7 "", mkEntry 3 5 "", mkEntry 4 9 ""] }).map
            (fun out => out.map (fun log => (log.id, log.timestamp)))
          = Except.ok [(4, 9), (2, 7), (1, 5), (3, 5)]
      ∧ ∃ out, DataService.getAllLogs
            { db := some [mkEntry 1 5 "", mkEntry 2 7 "", mkEntry 3 5 "", mkEntry 4 9 ""] }
            = Except.ok out
          ∧ out.Nodup
          ∧ ∀ t, KeyOrdered (out.filter (fun log => decide (log.timestamp = t))) := by
  have hkey : KeyOrdered [mkEntry 1 5 "", mkEntry 2 7 "", mkEntry 3 5 "", mkEntry 4 9 ""] := by
    simp [KeyOrdered, mkEntry]
  obtain ⟨out, h1, _, _, _, h5⟩ := getAllLogs_returns_store_newest_first
    [mkEntry 1 5 "", mkEntry 2 7 "", mkEntry 3 5 "", mkEntry 4 9 ""]
  exact ⟨hkey, by decide!, out, h1, (h5 hkey).1, (h5 hkey).2⟩

/-! ## Decision agent: the rules as a whole -/

namespace AIAgent

/-- The sequential overwrites of `makeDecision` amount to the first match in the order
R3, R2, R1, R4. -/
theorem makeDecision_firstMatch (a : Analysis) :
    makeDecision a = decisionOf a (firstMatchVerdict a) := by
  have h180 : ((config.optimalRebootInterval : Int) : ℚ) = 180 := by simp [config]
  have h4 : ((config.lowRecoveryThreshold : Int) : ℚ) = 4 := by simp [config]
  have h7 : ((config.fatigueThreshold : Int) : ℚ) = 7 := by simp [config]
  by_cases hd : a.fatiguePattern = FatiguePattern.declining ∧ a.avgRecovery < 4
  · have hc : ¬ a.fatiguePattern = FatiguePattern.chronic := by
      rw [hd.1]
      decide
    simp only [makeDecision, decisionOf, firstMatchVerdict, noAlert, ruleDeclining, ruleEstimated,
      h4, h7, if_pos hd]
    simp
  · by_cases hc : a.fatiguePattern = FatiguePattern.chronic
    · simp only [makeDecision, decisionOf, firstMatchVerdict, noAlert, ruleChronic, ruleDeclining,
        ruleEstimated, h4, h7, if_neg hd, if_pos hc]
      simp
    · by_cases hg : a.timeSinceLastReboot > 180
      · simp only [makeDecision, decisionOf, firstMatchVerdict, noAlert, ruleLongGap, ruleChronic,
          ruleDeclining, ruleEstimated, h180, h4, h7, if_neg hd, if_neg hc, if_pos hg]
        simp
      · by_cases he : a.estimatedFatigue ≥ 7
        · simp only [makeDecision, decisionOf, firstMatchVerdict, noAlert, ruleLongGap,
            ruleChronic, ruleDeclining, ruleEstimated, h180, h4, h7, if_neg hd, if_neg hc,
            if_neg hg, if_pos he]
        · simp only [makeDecision, decisionOf, firstMatchVerdict, noAlert, ruleLongGap,
            ruleChronic, ruleDeclining, ruleEstimated, h180, h4, h7, if_neg hd, if_neg hc,
            if_neg hg, if_neg he]
          simp [he]

/-- The confidence of rule 1 lies between 70 and 95. -/
theorem longGap_confidence_bounds (t : ℚ) (h : 180 < t) :
    70 ≤ mathRound (min (70 + (t - 180) / 10) 95)
      ∧ mathRound (min (70 + (t - 180) / 10) 95) ≤ 95 := by
  unfold mathRound
  constructor
  · rw [Int.le_floor]
    have : (70 : ℚ) ≤ min (70 + (t - 180) / 10) 95 := le_min (by linarith) (by norm_num)
    push_cast
    linarith
  · have hlt : ⌊min (70 + (t - 180) / 10) 95 + 1 / 2⌋ < 96 := by
      rw [Int.floor_lt]
      have : min (70 + (t - 180) / 10) 95 ≤ (95 : ℚ) := min_le_right _ _
      push_cast
      linarith
    omega

/-- The five outcomes of `makeDecision`. -/
theorem makeDecision_cases (a : Analysis) :
    (a.fatiguePattern = FatiguePattern.declining ∧ a.avgRecovery < 4
        ∧ (makeDecision a).shouldAlert = true ∧ (makeDecision a).confidence = 75
        ∧ (makeDecision a).action = Action.change_method)
      ∨ (a.fatiguePattern = FatiguePattern.chronic
        ∧ (makeDecision a).shouldAlert = true ∧ (makeDecision a).confidence = 85
        ∧ (makeDecision a).action = Action.take_break)
      ∨ (180 < a.timeSinceLastReboot
        ∧ (makeDecision a).shouldAlert = true
        ∧ (makeDecision a).confidence = mathRound (min (70 + (a.timeSinceLastReboot - 180) / 10) 95)
        ∧ (makeDecision a).action = Action.reboot_now)
      ∨ (a.timeSinceLastReboot ≤ 180 ∧ 7 ≤ a.estimatedFatigue
        ∧ (makeDecision a).shouldAlert = true ∧ (makeDecision a).confidence = 65
        ∧ (makeDecision a).action = Action.reboot_soon)
      ∨ (a.timeSinceLastReboot ≤ 180 ∧ a.estimatedFatigue < 7
        ∧ (makeDecision a).shouldAlert = false ∧ (makeDecision a).confidence = 0
        ∧ (makeDecision a).action = Action.none ∧ (makeDecision a).message = "") := by
  by_cases hd : a.fatiguePattern = FatiguePattern.declining ∧ a.avgRecovery < 4
  · exact Or.inl ⟨hd.1, hd.2, makeDecision_declining a hd.1 hd.2⟩
  · by_cases hc : a.fatiguePattern = FatiguePattern.chronic
    · exact Or.inr (Or.inl ⟨hc, makeDecision_chronic a hc⟩)
    · by_cases hg : 180 < a.timeSinceLastReboot
      · obtain ⟨h1, h2, h3, _⟩ := makeDecision_longGap a hg hc hd
        exact Or.inr (Or.inr (Or.inl ⟨hg, h1, h3, h2⟩))
      · have hq := makeDecision_quiet a (not_lt.mp hg) hc hd
        by_cases he : 7 ≤ a.estimatedFatigue
        · exact Or.inr (Or.inr (Or.inr (Or.inl ⟨not_lt.mp hg, he, hq.1 he⟩)))
        · exact Or.inr (Or.inr (Or.inr (Or.inr ⟨not_lt.mp hg, not_le.mp he,
            hq.2 (not_le.mp he)⟩)))

end AIAgent

/-- Claim C25: in every decision of `analyzeAndDecide`, `shouldAlert` is false exactly when the
action is `none`, and then the confidence is 0 and the message is empty; an alert has a
confidence between 65 and 95 that goes with its action (`reboot_soon` 65, `change_method` 75,
`take_break` 85, `reboot_now` between 70 and 95); so the confidence always lies in 0..100. -/
theorem decision_fields_go_together (logs : Option (List LogEntry)) (now : Int) :
    ((AIAgent.analyzeAndDecide logs now).shouldAlert = false
        ↔ (AIAgent.analyzeAndDecide logs now).action = AIAgent.Action.none)
      ∧ ((AIAgent.analyzeAndDecide logs now).shouldAlert = false →
          (AIAgent.analyzeAndDecide logs now).confidence = 0
            ∧ (AIAgent.analyzeAndDecide logs now).message = "")
      ∧ ((AIAgent.analyzeAndDecide logs now).shouldAlert = true →
          65 ≤ (AIAgent.analyzeAndDecide logs now).confidence
            ∧ (AIAgent.analyzeAndDecide logs now).confidence ≤ 95)
      ∧ ((AIAgent.analyzeAndDecide logs now).action = AIAgent.Action.reboot_soon →
          (AIAgent.analyzeAndDecide logs now).confidence = 65)
      ∧ ((AIAgent.analyzeAndDecide logs now).action = AIAgent.Action.change_method →
          (AIAgent.analyzeAndDecide logs now).confidence = 75)
      ∧ ((AIAgent.analyzeAndDecide logs now).action = AIAgent.Action.take_break →
          (AIAgent.analyzeAndDecide logs now).confidence = 85)
      ∧ ((AIAgent.analyzeAndDecide logs now).action = AIAgent.Action.reboot_now →
          70 ≤ (AIAgent.analyzeAndDecide logs now).confidence
            ∧ (AIAgent.analyzeAndDecide logs now).confidence ≤ 95)
      ∧ 0 ≤ (AIAgent.analyzeAndDecide logs now).confidence
      ∧ (AIAgent.analyzeAndDecide logs now).confidence ≤ 100 := by
  have key : ∀ d : AIAgent.Decision,
      ((d.shouldAlert = true ∧ d.confidence = 75 ∧ d.action = AIAgent.Action.change_method)
        ∨ (d.shouldAlert = true ∧ d.confidence = 85 ∧ d.action = AIAgent.Action.take_break)
        ∨ (d.shouldAlert = true ∧ (70 ≤ d.confidence ∧ d.confidence ≤ 95)
            ∧ d.action = AIAgent.Action.reboot_now)
        ∨ (d.shouldAlert = true ∧ d.confidence = 65 ∧ d.action = AIAgent.Action.reboot_soon)
        ∨ (d.shouldAlert = false ∧ d.confidence = 0 ∧ d.action = AIAgent.Action.none
            ∧ d.message = "")) →
      (d.shouldAlert = false ↔ d.action = AIAgent.Action.none)
        ∧ (d.shouldAlert = false → d.confidence = 0 ∧ d.message = "")
        ∧ (d.shouldAlert = true → 65 ≤ d.confidence ∧ d.confidence ≤ 95)
        ∧ (d.action = AIAgent.Action.reboot_soon → d.confidence = 65)
        ∧ (d.action = AIAgent.Action.change_method → d.confidence = 75)
        ∧ (d.action = AIAgent.Action.take_break → d.confidence = 85)
        ∧ (d.action = AIAgent.Action.reboot_now → 70 ≤ d.confidence ∧ d.confidence ≤ 95)
        ∧ 0 ≤ d.confidence ∧ d.confidence ≤ 100 := by
    intro d h
    rcases h with ⟨h1, h2, h3⟩ | ⟨h1, h2, h3⟩ | ⟨h1, ⟨h2, h2'⟩, h3⟩ | ⟨h1, h2, h3⟩
      | ⟨h1, h2, h3, h4⟩
    · simp [h1, h2, h3]
    · simp [h1, h2, h3]
    · simp [h1, h2, h3]
      omega
    · simp [h1, h2, h3]
    · simp [h1, h2, h3, h4]
  apply key
  match logs with
  | none => exact Or.inr (Or.inr (Or.inr (Or.inr ⟨rfl, rfl, rfl, rfl⟩)))
  | some [] => exact Or.inr (Or.inr (Or.inr (Or.inr ⟨rfl, rfl, rfl, rfl⟩)))
  | some (newest :: older) =>
    rcases AIAgent.makeDecision_cases (AIAgent.performDeepAnalysis newest older now) with
      ⟨_, _, h⟩ | ⟨_, h⟩ | ⟨hg, h1, h2, h3⟩ | ⟨_, _, h⟩ | ⟨_, _, h⟩
    · exact Or.inl h
    · exact Or.inr (Or.inl h)
    · refine Or.inr (Or.inr (Or.inl ⟨h1, ?_, h3⟩))
      have hb := AIAgent.longGap_confidence_bounds _ hg
      show 70 ≤ (AIAgent.makeDecision _).confidence ∧ (AIAgent.makeDecision _).confidence ≤ 95
      rw [h2]
      exact hb
    · exact Or.inr (Or.inr (Or.inr (Or.inl h)))
    · exact Or.inr (Or.inr (Or.inr (Or.inr h)))

/-- Claim C26: the sequential overwrites of `makeDecision` give the same `shouldAlert`,
confidence, action and message as a first-match-wins evaluation of the rules in the order
R3, R2, R1, R4 with the no-alert default, for every analysis; and the conditions of R2 and R3
never hold together. -/
theorem makeDecision_is_first_match_R3_R2_R1_R4 (a : AIAgent.Analysis) :
    (AIAgent.makeDecision a).shouldAlert = (firstMatchVerdict a).shouldAlert
      ∧ (AIAgent.makeDecision a).confidence = mathRound (firstMatchVerdict a).confidence
      ∧ (AIAgent.makeDecision a).action = (firstMatchVerdict a).action
      ∧ (AIAgent.makeDecision a).message = (firstMatchVerdict a).message
      ∧ ¬ (a.fatiguePattern = AIAgent.FatiguePattern.chronic
          ∧ (a.fatiguePattern = AIAgent.FatiguePattern.declining ∧ a.avgRecovery < 4)) := by
  rw [AIAgent.makeDecision_firstMatch]
  refine ⟨rfl, rfl, rfl, rfl, ?_⟩
  rintro ⟨h1, h2, _⟩
  rw [h1] at h2
  exact absurd h2 (by decide)

/-- Claim C27: for a history sorted newest first whose newest log is at least 24 hours old, the
trailing 24-hour window is empty, the pattern is `insufficient_data`, and the decision is an
alert with action `reboot_now` at the capped confidence 95. -/
theorem day_old_history_yields_reboot_now_at_cap (newest : LogEntry) (older : List LogEntry)
    (now : Int) (hsorted : SortedNewestFirst (newest :: older))
    (hold : dayMs ≤ now - newest.timestamp) :
    logsWithin dayMs (newest :: older) now = []
      ∧ AIAgent.detectFatiguePattern (logsWithin dayMs (newest :: older) now)
          = AIAgent.FatiguePattern.insufficient_data
      ∧ (AIAgent.analyzeAndDecide (some (newest :: older)) now).shouldAlert = true
      ∧ (AIAgent.analyzeAndDecide (some (newest :: older)) now).action
          = AIAgent.Action.reboot_now
      ∧ (AIAgent.analyzeAndDecide (some (newest :: older)) now).confidence = 95 := by
  have hle : ∀ log ∈ newest :: older, log.timestamp ≤ newest.timestamp := by
    intro log hlog
    rcases List.mem_cons.mp hlog with rfl | h
    · exact le_refl _
    · exact (List.pairwise_cons.mp hsorted).1 log h
  have hnil : logsWithin dayMs (newest :: older) now = [] := by
    unfold logsWithin
    rw [List.filter_eq_nil_iff]
    intro log hlog
    have := hle log hlog
    simp only [decide_eq_true_eq]
    omega
  have hpat : AIAgent.detectFatiguePattern (logsWithin dayMs (newest :: older) now)
      = AIAgent.FatiguePattern.insufficient_data := by
    rw [hnil]
    rfl
  have ht : (1440 : ℚ) ≤ minutesSince now newest.timestamp := by
    unfold minutesSince
    have : ((dayMs : Int) : ℚ) ≤ ((now - newest.timestamp : Int) : ℚ) := by exact_mod_cast hold
    have hd : ((dayMs : Int) : ℚ) = 86400000 := by norm_num [dayMs]
    rw [hd] at this
    rw [le_div_iff₀ (by norm_num)]
    linarith
  have h := AIAgent.makeDecision_longGap (AIAgent.performDeepAnalysis newest older now)
    (by rw [AIAgent.analysis_timeSince]; linarith)
    (by rw [AIAgent.analysis_fatiguePattern, hpat]; decide)
    (by rw [AIAgent.analysis_fatiguePattern, hpat]; rintro ⟨h1, _⟩; exact absurd h1 (by decide))
  rw [AIAgent.analysis_timeSince] at h
  have hcap : min (70 + (minutesSince now newest.timestamp - 180) / 10) 95 = ((95 : Int) : ℚ) := by
    rw [min_eq_right (by linarith)]
    norm_num
  refine ⟨hnil, hpat, h.1, h.2.1, ?_⟩
  have hc := h.2.2.1
  rw [hcap, mathRound_intCast] at hc
  exact hc

/-- A log that is exactly 24 hours old, with an older log behind it: `reboot_now` at
confidence 95. -/
theorem day_old_history_yields_reboot_now_at_cap_witness :
    (SortedNewestFirst [mkLog 0 "spa" 5 5, mkLog (-3600000) "sleep" 8 5]
        ∧ dayMs ≤ 86400000 - (mkLog 0 "spa" 5 5).timestamp)
      ∧ (logsWithin dayMs [mkLog 0 "spa" 5 5, mkLog (-3600000) "sleep" 8 5] 86400000 = []
        ∧ AIAgent.detectFatiguePattern
            (logsWithin dayMs [mkLog 0 "spa" 5 5, mkLog (-3600000) "sleep" 8 5] 86400000)
            = AIAgent.FatiguePattern.insufficient_data
        ∧ (AIAgent.analyzeAndDecide
            (some [mkLog 0 "spa" 5 5, mkLog (-3600000) "sleep" 8 5]) 86400000).shouldAlert = true
        ∧ (AIAgent.analyzeAndDecide
            (some [mkLog 0 "spa" 5 5, mkLog (-3600000) "sleep" 8 5]) 86400000).action
            = AIAgent.Action.reboot_now
        ∧ (AIAgent.analyzeAndDecide
            (some [mkLog 0 "spa" 5 5, mkLog (-3600000) "sleep" 8 5]) 86400000).confidence = 95) :=
  ⟨⟨by simp [SortedNewestFirst, mkLog], by decide⟩,
    day_old_history_yields_reboot_now_at_cap (mkLog 0 "spa" 5 5) [mkLog (-3600000) "sleep" 8 5]
      86400000 (by simp [SortedNewestFirst, mkLog]) (by decide)⟩

/-- Claim C28: whenever the decision is `reboot_soon`, the newest log is at most 180 minutes
old and satisfies `2 * preFatigue - postRecovery ≥ 5.5`, hence `≥ 6` for its integer scores: the
accumulation over time contributes at most 1.5. -/
theorem reboot_soon_needs_high_baseline (newest : LogEntry) (older : List LogEntry) (now : Int)
    (h : (AIAgent.analyzeAndDecide (some (newest :: older)) now).action
      = AIAgent.Action.reboot_soon) :
    minutesSince now newest.timestamp ≤ 180
      ∧ min (minutesSince now newest.timestamp / 60 * (1 / 2)) 5 ≤ 3 / 2
      ∧ (11 / 2 : ℚ) ≤ 2 * (newest.preFatigue : ℚ) - (newest.postRecovery : ℚ)
      ∧ 6 ≤ 2 * newest.preFatigue - newest.postRecovery := by
  have hcases := AIAgent.makeDecision_cases (AIAgent.performDeepAnalysis newest older now)
  have h2 : (AIAgent.makeDecision (AIAgent.performDeepAnalysis newest older now)).action
      = AIAgent.Action.reboot_soon := h
  rcases hcases with ⟨_, _, _, _, ha⟩ | ⟨_, _, _, ha⟩ | ⟨_, _, _, ha⟩ | ⟨ht, he, _⟩
    | ⟨_, _, _, _, ha, _⟩
  · rw [ha] at h2
    exact absurd h2 (by decide)
  · rw [ha] at h2
    exact absurd h2 (by decide)
  · rw [ha] at h2
    exact absurd h2 (by decide)
  · rw [AIAgent.analysis_timeSince] at ht
    rw [AIAgent.analysis_estimatedFatigue] at he
    simp only [AIAgent.estimateCurrentFatigue] at he
    have hacc : min (minutesSince now newest.timestamp / 60 * (1 / 2)) 5 ≤ 3 / 2 :=
      le_trans (min_le_left _ _) (by linarith)
    have hmax : (7 : ℚ) ≤ max ((newest.preFatigue : ℚ)
        - ((newest.postRecovery : ℚ) - (newest.preFatigue : ℚ))
        + min (minutesSince now newest.timestamp / 60 * (1 / 2)) 5) 1 :=
      le_trans he (min_le_left _ _)
    have hsum : (7 : ℚ) ≤ (newest.preFatigue : ℚ)
        - ((newest.postRecovery : ℚ) - (newest.preFatigue : ℚ))
        + min (minutesSince now newest.timestamp / 60 * (1 / 2)) 5 := by
      rcases le_max_iff.mp hmax with h1 | h1
      · exact h1
      · norm_num at h1
    have hq : (11 / 2 : ℚ) ≤ 2 * (newest.preFatigue : ℚ) - (newest.postRecovery : ℚ) := by
      linarith
    refine ⟨ht, hacc, hq, ?_⟩
    by_contra hlt
    have hle : 2 * newest.preFatigue - newest.postRecovery ≤ 5 := by omega
    have hcast : ((2 * newest.preFatigue - newest.postRecovery : Int) : ℚ) ≤ 5 := by
      exact_mod_cast hle
    push_cast at hcast
    linarith
  · rw [ha] at h2
    exact absurd h2 (by decide)

/-- A log 120 minutes old with `preFatigue` 8 and `postRecovery` 10 (baseline 6, accumulation 1)
is answered with `reboot_soon`. -/
theorem reboot_soon_needs_high_baseline_witness :
    (AIAgent.analyzeAndDecide (some [mkLog 0 "spa" 8 10]) 7200000).action
        = AIAgent.Action.reboot_soon
      ∧ (minutesSince 7200000 (mkLog 0 "spa" 8 10).timestamp ≤ 180
        ∧ min (minutesSince 7200000 (mkLog 0 "spa" 8 10).timestamp / 60 * (1 / 2)) 5 ≤ 3 / 2
        ∧ (11 / 2 : ℚ) ≤ 2 * ((mkLog 0 "spa" 8 10).preFatigue : ℚ)
            - ((mkLog 0 "spa" 8 10).postRecovery : ℚ)
        ∧ 6 ≤ 2 * (mkLog 0 "spa" 8 10).preFatigue - (mkLog 0 "spa" 8 10).postRecovery) :=
  ⟨by decide!, reboot_soon_needs_high_baseline (mkLog 0 "spa" 8 10) [] 7200000 (by decide!)⟩


/-! ## Analytics engine: range of the health components -/

/-- Rounding keeps a value between two integers that enclose it. -/
theorem mathRound_between (x : ℚ) (a b : Int) (ha : (a : ℚ) ≤ x) (hb : x ≤ (b : ℚ)) :
    a ≤ mathRound x ∧ mathRound x ≤ b := by
  unfold mathRound
  constructor
  · rw [Int.le_floor]
    linarith
  · have hlt : ⌊x + 1 / 2⌋ < b + 1 := by
      rw [Int.floor_lt]
      push_cast
      linarith
    omega

/-- Rounding keeps a value between two integers that enclose it up to a quarter. -/
theorem mathRound_between_slack (x : ℚ) (a b : Int) (ha : (a : ℚ) - 1 / 4 ≤ x)
    (hb : x ≤ (b : ℚ) + 1 / 4) : a ≤ mathRound x ∧ mathRound x ≤ b := by
  unfold mathRound
  constructor
  · rw [Int.le_floor]
    linarith
  · have hlt : ⌊x + 1 / 2⌋ < b + 1 := by
      rw [Int.floor_lt]
      push_cast
      linarith
    omega

/-- The formula stays within its ranges for a `postRecovery` in 1..10 and a log that is not in
the future. -/
theorem formulaHealth_bounds (p : Int) (h : ℚ) (hp : 1 ≤ p ∧ p ≤ 10) (hh : 0 ≤ h) :
    (0 ≤ (formulaHealth p h).score ∧ (formulaHealth p h).score ≤ 100)
      ∧ (0 ≤ (formulaHealth p h).focus ∧ (formulaHealth p h).focus ≤ 100)
      ∧ (20 ≤ (formulaHealth p h).fatigue ∧ (formulaHealth p h).fatigue ≤ 100)
      ∧ (0 ≤ (formulaHealth p h).recovery ∧ (formulaHealth p h).recovery ≤ 100) := by
  have hp1 : (1 : ℚ) ≤ (p : ℚ) := by exact_mod_cast hp.1
  have hp2 : (p : ℚ) ≤ 10 := by exact_mod_cast hp.2
  have hpen : 0 ≤ min (5 * h) 30 := le_min (by linarith) (by norm_num)
  have hr0 : 0 ≤ rawRecovery p h := le_max_right _ _
  have hr1 : rawRecovery p h ≤ 100 := max_le (by linarith) (by norm_num)
  have hf0 : 20 ≤ rawFatigue (rawRecovery p h) := le_min (by linarith) (by norm_num)
  have hf1 : rawFatigue (rawRecovery p h) ≤ 100 := min_le_right _ _
  have hc0 : 0 ≤ rawFocus (rawRecovery p h) := le_max_right _ _
  have hc1 : rawFocus (rawRecovery p h) ≤ 90 := max_le (by linarith) (by norm_num)
  refine ⟨?_, ?_, ?_, ?_⟩
  · exact mathRound_between _ 0 100 (by push_cast; linarith) (by push_cast; linarith)
  · exact mathRound_between _ 0 100 (by push_cast; linarith) (by push_cast; linarith)
  · exact mathRound_between _ 20 100 (by push_cast; linarith) (by push_cast; linarith)
  · exact mathRound_between _ 0 100 (by push_cast; linarith) (by push_cast; linarith)

/-- The formula in double arithmetic stays within the same ranges. -/
theorem doubleHealth_bounds (p age : Int) (hp : 1 ≤ p ∧ p ≤ 10) (hage : 0 ≤ age) :
    (0 ≤ (doubleHealth p age).score ∧ (doubleHealth p age).score ≤ 100)
      ∧ (0 ≤ (doubleHealth p age).focus ∧ (doubleHealth p age).focus ≤ 100)
      ∧ (20 ≤ (doubleHealth p age).fatigue ∧ (doubleHealth p age).fatigue ≤ 100)
      ∧ (0 ≤ (doubleHealth p age).recovery ∧ (doubleHealth p age).recovery ≤ 100) := by
  obtain ⟨hrec, hr0, hr1⟩ := doubleRecovery_near p age hp hage
  obtain ⟨hfat, hfoc, hsc⟩ := doubleParts_near _ _ hrec hr0 hr1
  have hf0 : 20 ≤ rawFatigue (rawRecovery p ((age : ℚ) / 3600000)) :=
    le_min (by linarith) (by norm_num)
  have hf1 : rawFatigue (rawRecovery p ((age : ℚ) / 3600000)) ≤ 100 := min_le_right _ _
  have hc0 : 0 ≤ rawFocus (rawRecovery p ((age : ℚ) / 3600000)) := le_max_right _ _
  have hc1 : rawFocus (rawRecovery p ((age : ℚ) / 3600000)) ≤ 90 :=
    max_le (by linarith) (by norm_num)
  obtain ⟨a1, a2⟩ := abs_le.mp hrec
  obtain ⟨b1, b2⟩ := abs_le.mp hfat
  obtain ⟨c1, c2⟩ := abs_le.mp hfoc
  obtain ⟨d1, d2⟩ := abs_le.mp hsc
  norm_num at a1 a2 b1 b2 c1 c2 d1 d2
  refine ⟨?_, ?_, ?_, ?_⟩
  · exact mathRound_between_slack _ 0 100 (by push_cast; linarith) (by push_cast; linarith)
  · exact mathRound_between_slack _ 0 100 (by push_cast; linarith) (by push_cast; linarith)
  · exact mathRound_between_slack _ 20 100 (by push_cast; linarith) (by push_cast; linarith)
  · exact mathRound_between_slack _ 0 100 (by push_cast; linarith) (by push_cast; linarith)

/-- Claim C29: for a history whose logs have `postRecovery` in 1..10 and whose first log is not
later than `now`, the score, focus, fatigue and recovery of `getCurrentHealth` are integers in
0..100, the fatigue at least 20; with a first log in the future the bound can fail: a log two
hours ahead with `postRecovery` 10 gives the recovery 110. -/
theorem health_components_within_bounds (logs : List LogEntry) (now : Int)
    (hrange : ∀ log ∈ logs, 1 ≤ log.postRecovery ∧ log.postRecovery ≤ 10)
    (hfirst : ∀ first ∈ logs.head?, first.timestamp ≤ now) :
    ((0 ≤ (AnalyticsService.getCurrentHealth (some logs) now).score
        ∧ (AnalyticsService.getCurrentHealth (some logs) now).score ≤ 100)
      ∧ (0 ≤ (AnalyticsService.getCurrentHealth (some logs) now).focus
        ∧ (AnalyticsService.getCurrentHealth (some logs) now).focus ≤ 100)
      ∧ (20 ≤ (AnalyticsService.getCurrentHealth (some logs) now).fatigue
        ∧ (AnalyticsService.getCurrentHealth (some logs) now).fatigue ≤ 100)
      ∧ (0 ≤ (AnalyticsService.getCurrentHealth (some logs) now).recovery
        ∧ (AnalyticsService.getCurrentHealth (some logs) now).recovery ≤ 100))
      ∧ (∃ ahead : LogEntry, 1 ≤ ahead.postRecovery ∧ ahead.postRecovery ≤ 10
          ∧ now < ahead.timestamp
          ∧ (AnalyticsService.getCurrentHealth (some [ahead]) now).recovery = 110) := by
  constructor
  · match logs, hrange, hfirst with
    | [], _, _ => simp [AnalyticsService.getCurrentHealth]
    | first :: rest, hrange, hfirst =>
      rcases AnalyticsService.getCurrentHealth_cases first rest now with h | ⟨_, h⟩
      · rw [h]
        decide
      · rw [h]
        refine doubleHealth_bounds _ _ (hrange first (List.mem_cons_self _ _)) ?_
        have := hfirst first (by simp)
        omega
  · refine ⟨mkLog (now + 7200000) "spa" 5 10, by simp [mkLog], by simp [mkLog], ?_, ?_⟩
    · show now < now + 7200000
      omega
    · have hage : now - (mkLog (now + 7200000) "spa" 5 10).timestamp < dayMs := by
        show now - (now + 7200000) < dayMs
        unfold dayMs
        omega
      rw [AnalyticsService.getCurrentHealth_of_recent _ _ _ hage]
      have hh : now - (mkLog (now + 7200000) "spa" 5 10).timestamp = -7200000 := by
        show now - (now + 7200000) = -7200000
        omega
      rw [hh]
      show (doubleHealth 10 (-7200000)).recovery = 110
      decide!

/-- Three logs with recoveries 10, 1 and 7, the first one hour old: every component is within
its range. -/
theorem health_components_within_bounds_witness :
    (AnalyticsService.getCurrentHealth
        (some [mkLog 0 "spa" 5 10, mkLog (-3600000) "sleep" 5 1, mkLog (-7200000) "spa" 5 7])
        3600000) = { score := 88, focus := 85, fatigue := 25, recovery := 95 }
      ∧ ((0 ≤ (AnalyticsService.getCurrentHealth
            (some [mkLog 0 "spa" 5 10, mkLog (-3600000) "sleep" 5 1, mkLog (-7200000) "spa" 5 7])
            3600000).score
          ∧ (AnalyticsService.getCurrentHealth
            (some [mkLog 0 "spa" 5 10, mkLog (-3600000) "sleep" 5 1, mkLog (-7200000) "spa" 5 7])
            3600000).score ≤ 100)
        ∧ (0 ≤ (AnalyticsService.getCurrentHealth
            (some [mkLog 0 "spa" 5 10, mkLog (-3600000) "sleep" 5 1, mkLog (-7200000) "spa" 5 7])
            3600000).focus
          ∧ (AnalyticsService.getCurrentHealth
            (some [mkLog 0 "spa" 5 10, mkLog (-3600000) "sleep" 5 1, mkLog (-7200000) "spa" 5 7])
            3600000).focus ≤ 100)
        ∧ (20 ≤ (AnalyticsService.getCurrentHealth
            (some [mkLog 0 "spa" 5 10, mkLog (-3600000) "sleep" 5 1, mkLog (-7200000) "spa" 5 7])
            3600000).fatigue
          ∧ (AnalyticsService.getCurrentHealth
            (some [mkLog 0 "spa" 5 10, mkLog (-3600000) "sleep" 5 1, mkLog (-7200000) "spa" 5 7])
            3600000).fatigue ≤ 100)
        ∧ (0 ≤ (AnalyticsService.getCurrentHealth
            (some [mkLog 0 "spa" 5 10, mkLog (-3600000) "sleep" 5 1, mkLog (-7200000) "spa" 5 7])
            3600000).recovery
          ∧ (AnalyticsService.getCurrentHealth
            (some [mkLog 0 "spa" 5 10, mkLog (-3600000) "sleep" 5 1, mkLog (-7200000) "spa" 5 7])
            3600000).recovery ≤ 100)) :=
  ⟨by decide!,
    (health_components_within_bounds
      [mkLog 0 "spa" 5 10, mkLog (-3600000) "sleep" 5 1, mkLog (-7200000) "spa" 5 7] 3600000
      (by decide) (by decide)).1⟩

/-! ## Analytics engine: when the streak is positive -/

/-- A date string that `new Date` accepts denotes a whole day. -/
theorem dayOfDate_of_parseDate (s : String) (t : Int) (h : parseDate s = some t) :
    dayOfDate s = some (t / dayMs) ∧ t = t / dayMs * dayMs := by
  obtain ⟨_, _, _, _, _, _, _, _, _, _, _, _, _, _, ht⟩ := parseDate_some s t h
  have hpos : dayMs ≠ 0 := by unfold dayMs; norm_num
  constructor
  · simp [dayOfDate, h]
  · rw [ht, Int.mul_ediv_cancel _ hpos]

namespace AnalyticsService

/-- The loop counts at all only when its first date is `currentDate`'s day. -/
theorem streakLoop_pos (currentDate tz : Int) (s : String) (rest : List String)
    (h : 0 < streakLoop currentDate tz (s :: rest) 0) :
    ∃ t, parseDate s = some t ∧ (currentDate - setHoursMidnight tz t) / dayMs = 0 := by
  match hp : parseDate s with
  | none =>
    simp [streakLoop, hp] at h
  | some t =>
    refine ⟨t, rfl, ?_⟩
    by_contra hne
    simp [streakLoop, hp, hne] at h

/-- For a local time at or ahead of UTC, a positive streak means that the latest date string of
the history is today's date. -/
theorem calculateStreak_pos (logs : List LogEntry) (now tz : Int) (htz : 0 ≤ tz ∧ tz < dayMs)
    (hpos : 0 < calculateStreak logs now tz) :
    ∃ latest ∈ logs, dayOfDate latest.date = some (localDay now tz)
      ∧ ∀ log ∈ logs, log.date ≤ latest.date := by
  obtain ⟨hmem, hdesc⟩ := streak_dates_spec (logs.map (fun log => log.date))
  have hval : calculateStreak logs now tz
      = if logs.length = 0 then 0
        else streakLoop (setHoursMidnight tz now) tz
          ((((logs.map (fun log => log.date)).eraseDups).insertionSort
            (fun a b => a ≤ b)).reverse) 0 := rfl
  rw [hval] at hpos
  by_cases hlen : logs.length = 0
  · rw [if_pos hlen] at hpos
    omega
  · rw [if_neg hlen] at hpos
    match hds : (((logs.map (fun log => log.date)).eraseDups).insertionSort
        (fun a b => a ≤ b)).reverse with
    | [] =>
      rw [hds] at hpos
      simp [streakLoop] at hpos
    | s :: rest =>
      rw [hds] at hpos hmem hdesc
      obtain ⟨t, hp, hdiff⟩ := streakLoop_pos _ _ _ _ hpos
      obtain ⟨hday, ht⟩ := dayOfDate_of_parseDate s t hp
      rw [ht, diffDays_eq now tz _ htz] at hdiff
      obtain ⟨latest, hlatest, hdate⟩ := List.mem_map.mp ((hmem s).mp (List.mem_cons_self _ _))
      refine ⟨latest, hlatest, ?_, ?_⟩
      · rw [hdate, hday]
        congr 1
        omega
      · intro log hlog
        have hin : log.date ∈ s :: rest := (hmem _).mpr (List.mem_map.mpr ⟨log, hlog, rfl⟩)
        rw [hdate]
        rcases List.mem_cons.mp hin with h | h
        · rw [h]
        · exact le_of_lt ((List.pairwise_cons.mp hdesc).1 _ h)

end AnalyticsService

/-- Claim C30, the counterexample: at a local time five hours behind UTC, on the evening of
2026-11-06, a single log made half an hour earlier is dated 2026-11-07, the day after the local
today; today holds no log and the latest log date is not today, yet the streak is 1. -/
theorem streak_positive_with_latest_date_tomorrow :
    localDay 1794015000000 (-5 * 3600000) = 20763
      ∧ dayOfDate "2026-11-07" = some 20764
      ∧ ¬ DayHasLog [mkEntry 1 1794013200000 "2026-11-07"] (localDay 1794015000000 (-5 * 3600000))
      ∧ AnalyticsService.calculateStreak [mkEntry 1 1794013200000 "2026-11-07"] 1794015000000
          (-5 * 3600000) = 1 := by
  refine ⟨by decide!, by decide!, ?_, by decide!⟩
  rintro ⟨log, hlog, hday⟩
  simp only [List.mem_singleton] at hlog
  rw [hlog] at hday
  revert hday
  decide!

/-- Claim C30, amended: in a time zone whose offset from UTC is constant (no daylight-saving or
other transitions) and at or ahead of UTC, `calculateStreak` is positive only if the latest log
date is today's; it is 0 whenever today has no log, and whenever some log is dated after
today. -/
theorem streak_positive_only_if_latest_date_is_today (logs : List LogEntry) (now tz : Int)
    (htz : 0 ≤ tz ∧ tz < dayMs) :
    (0 < AnalyticsService.calculateStreak logs now tz →
        ∃ latest ∈ logs, dayOfDate latest.date = some (localDay now tz)
          ∧ ∀ log ∈ logs, log.date ≤ latest.date)
      ∧ (¬ DayHasLog logs (localDay now tz) → AnalyticsService.calculateStreak logs now tz = 0)
      ∧ ((∃ log ∈ logs, ∃ D, dayOfDate log.date = some D ∧ localDay now tz < D) →
          AnalyticsService.calculateStreak logs now tz = 0) := by
  refine ⟨AnalyticsService.calculateStreak_pos logs now tz htz, ?_, ?_⟩
  · intro hno
    by_contra hne
    obtain ⟨latest, hl, hd, _⟩ :=
      AnalyticsService.calculateStreak_pos logs now tz htz (Nat.pos_of_ne_zero hne)
    exact hno ⟨latest, hl, hd⟩
  · rintro ⟨log, hlog, D, hD, hlt⟩
    by_contra hne
    obtain ⟨latest, hl, hd, hmax⟩ :=
      AnalyticsService.calculateStreak_pos logs now tz htz (Nat.pos_of_ne_zero hne)
    rcases lt_or_eq_of_le (hmax log hlog) with h | h
    · have := dayOfDate_lt latest.date log.date _ _ hd hD h
      omega
    · rw [h, hd] at hD
      have := Option.some.inj hD
      omega

/-- At noon UTC of 2026-11-06: logs dated today, yesterday and three days ago have a positive
streak and their latest date is today; a log dated yesterday alone gives 0; logs dated
tomorrow, today and yesterday give 0. -/
theorem streak_positive_only_if_latest_date_is_today_witness :
    ((0 : Int) ≤ 0 ∧ (0 : Int) < dayMs)
      ∧ AnalyticsService.calculateStreak streakLogs streakNow 0 = 2
      ∧ (∃ latest ∈ streakLogs, dayOfDate latest.date = some (localDay streakNow 0)
          ∧ ∀ log ∈ streakLogs, log.date ≤ latest.date)
      ∧ AnalyticsService.calculateStreak [mkEntry 2 1793876400000 "2026-11-05"] streakNow 0 = 0
      ∧ AnalyticsService.calculateStreak futureDatedLogs streakNow 0 = 0 := by
  have h := streak_positive_only_if_latest_date_is_today streakLogs streakNow 0
    ⟨le_refl _, by decide⟩
  have h2 := streak_positive_only_if_latest_date_is_today
    [mkEntry 2 1793876400000 "2026-11-05"] streakNow 0 ⟨le_refl _, by decide⟩
  have h3 := streak_positive_only_if_latest_date_is_today futureDatedLogs streakNow 0
    ⟨le_refl _, by decide⟩
  refine ⟨⟨le_refl _, by decide⟩, by decide!, h.1 (by decide!), h2.2.1 ?_, h3.2.2 ?_⟩
  · rintro ⟨log, hlog, hday⟩
    simp only [List.mem_singleton] at hlog
    rw [hlog] at hday
    revert hday
    decide!
  · exact ⟨mkEntry 3 1794049200000 "2026-11-07", by simp [futureDatedLogs], 20764, by decide!,
      by decide!⟩

/-! ## Safety of the entry points -/

/-- Every type of the table has at least one log. -/
theorem logsOfType_length_pos (logs : List LogEntry) (t : String) (h : t ∈ firstSeenTypes logs) :
    0 < (logsOfType logs t).length := by
  obtain ⟨log, hlog, hty⟩ := (mem_firstSeenTypes logs t).mp h
  apply List.length_pos.mpr
  intro hnil
  have hmem : log ∈ logsOfType logs t := by
    unfold logsOfType
    exact List.mem_filter.mpr ⟨hlog, by simpa using hty⟩
  rw [hnil] at hmem
  simp at hmem

namespace AIAgent

/-- The weekly mean of the analysis is guarded: 5 for an empty week. -/
theorem analysis_avgRecovery_of_empty_week (newest : LogEntry) (older : List LogEntry)
    (now : Int) (h : logsWithin (7 * dayMs) (newest :: older) now = []) :
    (performDeepAnalysis newest older now).avgRecovery = 5 := by
  have h7 : (7 * dayMs : Int) = 7 * 24 * 60 * 60 * 1000 := by norm_num [dayMs]
  unfold logsWithin at h
  rw [h7] at h
  simp only [performDeepAnalysis, h]
  simp

end AIAgent

/-- Claim C23: for every log list and current time the entry points return a result:
`generateInsights` and `analyzeTimePatterns` never fail (also for an absent list), the top entry
of the sorted per-type table exists wherever it is read, the three most recent recoveries of the
trailing 24 hours exist whenever they are compared, every per-type mean is over at least one
log, and the weekly mean is taken only over a non-empty week. -/
theorem analytics_entry_points_never_fail (logs : List LogEntry) (now tz : Int) :
    (∃ out, AnalyticsService.generateInsights (some logs) now tz = Except.ok out)
      ∧ (∃ out, AnalyticsService.generateInsights none now tz = Except.ok out)
      ∧ (∃ label, AnalyticsService.analyzeTimePatterns logs tz = Except.ok label)
      ∧ (logs ≠ [] →
          ∃ best, (AnalyticsService.calculateStats (some logs) now tz).bestReboot = some best)
      ∧ (5 ≤ logs.length → ∃ best, AIAgent.findBestRebootType logs = some best)
      ∧ (3 ≤ (logsWithin dayMs logs now).length → ∀ i, i < 3 →
          ∃ r, (((logsWithin dayMs logs now).take 3).map (fun log => log.postRecovery))[i]?
            = some r)
      ∧ (∀ e ∈ logs.foldl AnalyticsService.recordRecovery [], 0 < e.2.count)
      ∧ (∀ e ∈ logs.foldl AIAgent.recordLog [], 0 < e.2.count)
      ∧ (∀ newest older, logs = newest :: older →
          (AIAgent.performDeepAnalysis newest older now).avgRecovery
            = if logsWithin (7 * dayMs) logs now = [] then 5
              else meanRecovery (logsWithin (7 * dayMs) logs now)) := by
  refine ⟨?_, ⟨_, rfl⟩, ?_, ?_, ?_, ?_, ?_, ?_, ?_⟩
  · match logs with
    | [] => exact ⟨_, rfl⟩
    | first :: rest =>
      obtain ⟨ta, _, _, hgen⟩ := AnalyticsService.generateInsights_eq first rest now tz
      exact ⟨_, hgen⟩
  · by_cases hlen : logs.length < 10
    · exact ⟨_, AnalyticsService.analyzeTimePatterns_short logs tz hlen⟩
    · obtain ⟨hour, _, _, hr⟩ := AnalyticsService.analyzeTimePatterns_long logs tz (by omega)
      exact ⟨_, hr⟩
  · intro hne
    match logs, hne with
    | first :: rest, _ =>
      obtain ⟨best, _, _, _, hbest, _⟩ := AnalyticsService.bestReboot_split first rest now tz
      exact ⟨best, hbest⟩
  · intro hlen
    rw [AIAgent.findBestRebootType_eq logs hlen]
    have hpos : 0 < (jsSort (fun a b => typeMean logs b - typeMean logs a)
        (firstSeenTypes logs)).length := by
      rw [(jsSort_perm _ _).length_eq]
      match logs, hlen with
      | first :: rest, _ =>
        apply List.length_pos.mpr
        intro hnil
        have hmem := (mem_firstSeenTypes (first :: rest) first.type).mpr ⟨first, by simp, rfl⟩
        rw [hnil] at hmem
        simp at hmem
    match hs : jsSort (fun a b => typeMean logs b - typeMean logs a) (firstSeenTypes logs) with
    | [] =>
      rw [hs] at hpos
      simp at hpos
    | t :: ts => exact ⟨⟨t, toFixed1 (typeMean logs t)⟩, by simp⟩
  · intro hlen i hi
    have hi2 : i < (((logsWithin dayMs logs now).take 3).map
        (fun log => log.postRecovery)).length := by
      rw [List.length_map, List.length_take]
      omega
    exact ⟨_, List.getElem?_eq_getElem hi2⟩
  · intro e he
    rw [AnalyticsService.typeRecovery_table] at he
    obtain ⟨t, ht, rfl⟩ := List.mem_map.mp he
    exact logsOfType_length_pos logs t ht
  · intro e he
    rw [AIAgent.typeStats_table] at he
    obtain ⟨t, ht, rfl⟩ := List.mem_map.mp he
    exact logsOfType_length_pos logs t ht
  · intro newest older hlogs
    rw [hlogs]
    by_cases hw : logsWithin (7 * dayMs) (newest :: older) now = []
    · rw [if_pos hw]
      exact AIAgent.analysis_avgRecovery_of_empty_week newest older now hw
    · rw [if_neg hw]
      exact AIAgent.analysis_avgRecovery newest older now hw

/-! ## The standalone bundle's agent against the service's agent -/

/-- Claim C24, the two agents at the failing input: for three logs of the trailing 24 hours
with `preFatigue` 7 and `postRecovery` 10, the newest 60 minutes old, the service alerts
(`take_break`, confidence 85, rule 2) and the bundle, which has neither rule 2 nor rule 3, does
not alert at all; for the chronic sample history 200 minutes after its newest log both alert,
the service with confidence 85 and the bundle with the confidence 72 and the text of rule 1; and
for a best type outside the four listed ones the two recommendations differ. -/
theorem bundle_agent_differs_from_service_agent :
    ((AIAgent.analyzeAndDecide (some restedChronicLogs) 3600000).shouldAlert = true
        ∧ (AIAgent.analyzeAndDecide (some restedChronicLogs) 3600000).confidence = 85
        ∧ (AIAgent.analyzeAndDecide (some restedChronicLogs) 3600000).message
            = "🚨 慢性的な疲労パターンを検知しました。本格的な休息が必要です。"
        ∧ (Bundle.analyzeAndDecide (some restedChronicLogs) 3600000).shouldAlert = false
        ∧ (Bundle.analyzeAndDecide (some restedChronicLogs) 3600000).confidence = 0
        ∧ (Bundle.analyzeAndDecide (some restedChronicLogs) 3600000).message = "")
      ∧ ((AIAgent.analyzeAndDecide (some chronicLogs) 12000000).confidence = 85
        ∧ (Bundle.analyzeAndDecide (some chronicLogs) 12000000).confidence = 72
        ∧ (Bundle.analyzeAndDecide (some chronicLogs) 12000000).message
            = "⚠️ 前回のリブートから3時間20分が経過しています。")
      ∧ ((AIAgent.analyzeAndDecide (some yogaLogs) 12000000).message
          = "⚠️ 前回のリブートから3時間20分が経過しています。\n💡 おすすめ: 🔄 yoga（平均回復度: 6.0）"
        ∧ (Bundle.analyzeAndDecide (some yogaLogs) 12000000).message
          = "⚠️ 前回のリブートから3時間20分が経過しています。\n💡 おすすめ: undefined undefined（平均回復度: 6.0）") := by
  refine ⟨⟨?_, ?_, ?_, ?_, ?_, ?_⟩, ⟨?_, ?_, ?_⟩, ⟨?_, ?_⟩⟩ <;> decide!

namespace Bundle

/-- For a listed reboot type the bundle's tables give the texts of the service's helpers. -/
theorem typeTexts_of_listed (type : String)
    (h : type = "spa" ∨ type = "sleep" ∨ type = "cycling" ∨ type = "meditation") :
    typeEmojis type = AIAgent.getRebootTypeEmoji type
      ∧ typeNames type = AIAgent.getRebootTypeName type := by
  rcases h with h | h | h | h <;> rw [h] <;> decide

/-- Where neither rule 2 nor rule 3 of the service applies and the best reboot type, if any,
is a listed one, the bundle's agent answers with the `shouldAlert`, confidence and message of
the service's agent. -/
theorem analyzeAndDecide_eq_service_without_pattern_rules (newest : LogEntry)
    (older : List LogEntry) (now : Int)
    (hc : (AIAgent.performDeepAnalysis newest older now).fatiguePattern
      ≠ AIAgent.FatiguePattern.chronic)
    (hd : ¬ ((AIAgent.performDeepAnalysis newest older now).fatiguePattern
        = AIAgent.FatiguePattern.declining
      ∧ (AIAgent.performDeepAnalysis newest older now).avgRecovery < 4))
    (hlisted : ∀ best, AIAgent.findBestRebootType (newest :: older) = some best →
      best.type = "spa" ∨ best.type = "sleep" ∨ best.type = "cycling"
        ∨ best.type = "meditation") :
    (analyzeAndDecide (some (newest :: older)) now).shouldAlert
        = (AIAgent.analyzeAndDecide (some (newest :: older)) now).shouldAlert
      ∧ (analyzeAndDecide (some (newest :: older)) now).confidence
        = (AIAgent.analyzeAndDecide (some (newest :: older)) now).confidence
      ∧ (analyzeAndDecide (some (newest :: older)) now).message
        = (AIAgent.analyzeAndDecide (some (newest :: older)) now).message := by
  have h1 : (performDeepAnalysis newest older now).timeSinceLastReboot
      = (AIAgent.performDeepAnalysis newest older now).timeSinceLastReboot := rfl
  have h2 : (performDeepAnalysis newest older now).estimatedFatigue
      = (AIAgent.performDeepAnalysis newest older now).estimatedFatigue := rfl
  have h3 : (performDeepAnalysis newest older now).bestRebootType
      = (AIAgent.performDeepAnalysis newest older now).bestRebootType := rfl
  have h4 : (AIAgent.performDeepAnalysis newest older now).bestRebootType
      = AIAgent.findBestRebootType (newest :: older) := rfl
  have hd2 : ¬ ((AIAgent.performDeepAnalysis newest older now).fatiguePattern
        = AIAgent.FatiguePattern.declining
      ∧ (AIAgent.performDeepAnalysis newest older now).avgRecovery
          < ((AIAgent.config.lowRecoveryThreshold : Int) : ℚ)) := by
    simpa [AIAgent.config] using hd
  show (makeDecision (performDeepAnalysis newest older now)).shouldAlert
        = (AIAgent.makeDecision (AIAgent.performDeepAnalysis newest older now)).shouldAlert
      ∧ (makeDecision (performDeepAnalysis newest older now)).confidence
        = (AIAgent.makeDecision (AIAgent.performDeepAnalysis newest older now)).confidence
      ∧ (makeDecision (performDeepAnalysis newest older now)).message
        = (AIAgent.makeDecision (AIAgent.performDeepAnalysis newest older now)).message
  simp only [makeDecision, AIAgent.makeDecision, AIAgent.ruleLongGap, AIAgent.ruleChronic,
    AIAgent.ruleDeclining, AIAgent.ruleEstimated, h1, h2, h3, if_neg hc, if_neg hd2]
  by_cases hg : (AIAgent.performDeepAnalysis newest older now).timeSinceLastReboot
      > ((AIAgent.config.optimalRebootInterval : Int) : ℚ)
  · simp only [if_pos hg]
    match hb : (AIAgent.performDeepAnalysis newest older now).bestRebootType with
    | none => simp
    | some best =>
      obtain ⟨he, hn⟩ := typeTexts_of_listed best.type (hlisted best (by rw [← h4, hb]))
      simp [he, hn]
  · simp only [if_neg hg]
    by_cases he : (AIAgent.performDeepAnalysis newest older now).estimatedFatigue
        ≥ ((AIAgent.config.fatigueThreshold : Int) : ℚ)
    · simp [he]
    · simp [he]

end Bundle

/-! ## Calendar facts: from a day number to its date -/

/-- The day number of a date given by its March-based year `Y`, its March-based month `mp` and
its day. -/
theorem daysFromCivil_marchBased (Y mp d : Int) (hmp : 0 ≤ mp ∧ mp ≤ 11) :
    daysFromCivil (if (if mp < 10 then mp + 3 else mp - 9) ≤ 2 then Y + 1 else Y)
        (if mp < 10 then mp + 3 else mp - 9) d
      = Y / 400 * 146097 + ((Y - Y / 400 * 400) * 365 + (Y - Y / 400 * 400) / 4
          - (Y - Y / 400 * 400) / 100 + ((153 * mp + 2) / 5 + d - 1)) - 719468 := by
  obtain ⟨h1, h2⟩ := hmp
  interval_cases mp <;> simp [daysFromCivil]

set_option maxHeartbeats 4000000 in
/-- The date of a day number is a date of the calendar, and its day number is that number. -/
theorem civilFromDays_spec (z : Int) :
    (1 ≤ (civilFromDays z).2.1 ∧ (civilFromDays z).2.1 ≤ 12)
      ∧ (1 ≤ (civilFromDays z).2.2
        ∧ (civilFromDays z).2.2 ≤ daysInMonth (civilFromDays z).1 (civilFromDays z).2.1)
      ∧ daysFromCivil (civilFromDays z).1 (civilFromDays z).2.1 (civilFromDays z).2.2 = z := by
  obtain ⟨era, hera⟩ : ∃ era : Int, era = (z + 719468) / 146097 := ⟨_, rfl⟩
  obtain ⟨doe, hdoe⟩ : ∃ doe : Int, doe = z + 719468 - era * 146097 := ⟨_, rfl⟩
  obtain ⟨c, hc⟩ : ∃ c : Int, c = min (doe / 36524) 3 := ⟨_, rfl⟩
  obtain ⟨q, hq⟩ : ∃ q : Int, q = min ((doe - c * 36524) / 1461) 24 := ⟨_, rfl⟩
  obtain ⟨yq, hyq⟩ : ∃ yq : Int, yq = min ((doe - c * 36524 - q * 1461) / 365) 3 := ⟨_, rfl⟩
  obtain ⟨doy, hdoy⟩ : ∃ doy : Int, doy = doe - c * 36524 - q * 1461 - yq * 365 := ⟨_, rfl⟩
  obtain ⟨mp, hmp⟩ : ∃ mp : Int, mp = (5 * doy + 2) / 153 := ⟨_, rfl⟩
  have hdoe0 : 0 ≤ doe ∧ doe < 146097 := by omega
  have hc0 : 0 ≤ c ∧ c ≤ 3 := by omega
  have hq0 : 0 ≤ q ∧ q ≤ 24 := by omega
  have hyq0 : 0 ≤ yq ∧ yq ≤ 3 := by omega
  have hdoy0 : 0 ≤ doy ∧ doy ≤ 365 := by omega
  have hleap : doy = 365 → yq = 3 ∧ (q ≠ 24 ∨ c = 3) := by omega
  have hmp0 : 0 ≤ mp ∧ mp ≤ 11 := by omega
  have hval : civilFromDays z
      = (if (if mp < 10 then mp + 3 else mp - 9) ≤ 2
          then era * 400 + c * 100 + q * 4 + yq + 1 else era * 400 + c * 100 + q * 4 + yq,
        if mp < 10 then mp + 3 else mp - 9, doy - (153 * mp + 2) / 5 + 1) := by
    simp only [civilFromDays, ← hera, ← hdoe, ← hc, ← hq, ← hyq, ← hdoy, ← hmp]
  rw [hval]
  simp only []
  clear hval hc hq hyq
  have hg : (era * 400 + c * 100 + q * 4 + yq) / 400 = era := by omega
  have hnum : era * 400 + c * 100 + q * 4 + yq - era * 400 = c * 100 + q * 4 + yq := by ring
  have hi : (c * 100 + q * 4 + yq) / 4 = c * 25 + q := by omega
  have hj : (c * 100 + q * 4 + yq) / 100 = c := by omega
  refine ⟨?_, ?_, ?_⟩
  · split_ifs <;> omega
  · have hy4 : (era * 400 + c * 100 + q * 4 + yq + 1) % 4 = (yq + 1) % 4 := by omega
    have hy100 : (era * 400 + c * 100 + q * 4 + yq + 1) % 100 = (q * 4 + yq + 1) % 100 := by
      omega
    have hy400 : (era * 400 + c * 100 + q * 4 + yq + 1) % 400
        = (c * 100 + q * 4 + yq + 1) % 400 := by omega
    obtain ⟨hmp1, hmp2⟩ := hmp0
    interval_cases mp <;> simp only [daysInMonth] <;> norm_num <;> (try split_ifs) <;> omega
  · rw [daysFromCivil_marchBased _ _ _ hmp0, hg, hnum, hi, hj]
    omega

/-- The years 0000 to 9999 are the days -719528 to 2932896. -/
theorem civilFromDays_year_range (z : Int) (h : -719528 ≤ z ∧ z ≤ 2932896) :
    0 ≤ (civilFromDays z).1 ∧ (civilFromDays z).1 ≤ 9999 := by
  obtain ⟨hm, hd, hz⟩ := civilFromDays_spec z
  have h31 := daysInMonth_le (civilFromDays z).1 (civilFromDays z).2.1
  have hfirst : daysFromCivil 0 1 1 = -719528 := by decide
  have hlast : daysFromCivil 9999 12 31 = 2932896 := by decide
  constructor
  · by_contra hneg
    have := daysFromCivil_lt_of_year_lt (civilFromDays z).1 (civilFromDays z).2.1
      (civilFromDays z).2.2 0 1 1 hm ⟨hd.1, by omega⟩ (by decide) (by decide) (by omega)
    omega
  · by_contra hbig
    have := daysFromCivil_lt_of_year_lt 9999 12 31 (civilFromDays z).1 (civilFromDays z).2.1
      (civilFromDays z).2.2 (by decide) (by decide) hm hd.1 (by omega)
    omega

/-- A decimal digit is rendered as the character that is read back as that digit. -/
theorem digitOf_digitChar (k : Nat) (h : k < 10) :
    (Nat.digitChar k).isDigit = true ∧ ((Nat.digitChar k).toNat : Int) - 48 = (k : Int) := by
  obtain ⟨h1, h2⟩ := digitChar_isDigit k h
  have hb := isDigit_bounds _ h1
  exact ⟨h1, by omega⟩

/-- A date of the years 0000 to 9999, rendered with padded fields, is read back by `new Date`
as midnight UTC of that date. -/
theorem parseDate_padded (y m d : Nat) (hy : y ≤ 9999) (hm : 1 ≤ m ∧ m ≤ 12)
    (hd : 1 ≤ d ∧ (d : Int) ≤ daysInMonth y m) :
    parseDate (String.mk (pad4 y ++ '-' :: (pad2 m ++ '-' :: pad2 d)))
      = some (daysFromCivil y m d * dayMs) := by
  have hd31 := daysInMonth_le y m
  obtain ⟨a1, a2⟩ := digitOf_digitChar (y / 1000 % 10) (Nat.mod_lt _ (by decide))
  obtain ⟨b1, b2⟩ := digitOf_digitChar (y / 100 % 10) (Nat.mod_lt _ (by decide))
  obtain ⟨c1, c2⟩ := digitOf_digitChar (y / 10 % 10) (Nat.mod_lt _ (by decide))
  obtain ⟨d1, d2⟩ := digitOf_digitChar (y % 10) (Nat.mod_lt _ (by decide))
  obtain ⟨e1, e2⟩ := digitOf_digitChar (m / 10 % 10) (Nat.mod_lt _ (by decide))
  obtain ⟨f1, f2⟩ := digitOf_digitChar (m % 10) (Nat.mod_lt _ (by decide))
  obtain ⟨g1, g2⟩ := digitOf_digitChar (d / 10 % 10) (Nat.mod_lt _ (by decide))
  obtain ⟨i1, i2⟩ := digitOf_digitChar (d % 10) (Nat.mod_lt _ (by decide))
  have hyv : ((y / 1000 % 10 : Nat) : Int) * 1000 + ((y / 100 % 10 : Nat) : Int) * 100
      + ((y / 10 % 10 : Nat) : Int) * 10 + ((y % 10 : Nat) : Int) = (y : Int) := by omega
  have hmv : ((m / 10 % 10 : Nat) : Int) * 10 + ((m % 10 : Nat) : Int) = (m : Int) := by omega
  have hdv : ((d / 10 % 10 : Nat) : Int) * 10 + ((d % 10 : Nat) : Int) = (d : Int) := by omega
  have hvalid : 1 ≤ (m : Int) ∧ (m : Int) ≤ 12 ∧ 1 ≤ (d : Int) ∧ (d : Int) ≤ daysInMonth y m := by
    refine ⟨by omega, by omega, by omega, hd.2⟩
  simp only [parseDate, String.toList, pad4, pad2, List.cons_append, List.nil_append, List.all_cons,
    List.all_nil, a1, b1, c1, d1, e1, f1, g1, i1, Bool.and_self, if_true, a2, b2, c2, d2, e2,
    f2, g2, i2, hyv, hmv, hdv, hvalid, and_self]

/-- Within the years 0000 to 9999, the text of `toISODate` is read back by `new Date` as
midnight UTC of the day that holds the time value. -/
theorem parseDate_toISODate (t : Int) (h : -719528 ≤ t / dayMs ∧ t / dayMs ≤ 2932896) :
    parseDate (toISODate t) = some (t / dayMs * dayMs) := by
  obtain ⟨hm, hd, hz⟩ := civilFromDays_spec (t / dayMs)
  obtain ⟨hy0, hy1⟩ := civilFromDays_year_range (t / dayMs) h
  have hyc : (((civilFromDays (t / dayMs)).1.toNat : Nat) : Int) = (civilFromDays (t / dayMs)).1 :=
    Int.toNat_of_nonneg hy0
  have hmc : (((civilFromDays (t / dayMs)).2.1.toNat : Nat) : Int)
      = (civilFromDays (t / dayMs)).2.1 := Int.toNat_of_nonneg (by omega)
  have hdc : (((civilFromDays (t / dayMs)).2.2.toNat : Nat) : Int)
      = (civilFromDays (t / dayMs)).2.2 := Int.toNat_of_nonneg (by omega)
  have hp := parseDate_padded (civilFromDays (t / dayMs)).1.toNat
    (civilFromDays (t / dayMs)).2.1.toNat (civilFromDays (t / dayMs)).2.2.toNat
    (by omega) (by omega) ⟨by omega, by rw [hyc, hmc, hdc]; exact hd.2⟩
  rw [hyc, hmc, hdc, hz] at hp
  rw [← hp]
  unfold toISODate
  simp only [hy0, hy1, and_self, if_true, List.append_assoc, List.cons_append]

/-- Within the years 0000 to 9999, the date of `toISODate` is the UTC day of the time value. -/
theorem dayOfDate_toISODate (t : Int) (h : -719528 ≤ t / dayMs ∧ t / dayMs ≤ 2932896) :
    dayOfDate (toISODate t) = some (t / dayMs) :=
  (dayOfDate_eq _ _).mpr (parseDate_toISODate t h)

/-! ## Log store: writing and deleting -/

namespace DataService

/-- With a valid draft and an id that no record has, `saveLog` succeeds and inserts the new
record. -/
theorem saveLog_of_fresh_id (records : List LogEntry) (logData : LogData) (now tz ts : Int)
    (hvalid : parseDateTimeLocal tz logData.timestamp = some ts)
    (hfresh : ∀ e ∈ records, e.id ≠ now) :
    saveLog { db := some records } logData now tz
      = Except.ok (⟨now, ts, toISODate ts, logData.duration, logData.type, logData.preFatigue,
            logData.postRecovery⟩,
          { db := some (records.orderedInsert (fun a b => a.id ≤ b.id)
            ⟨now, ts, toISODate ts, logData.duration, logData.type, logData.preFatigue,
              logData.postRecovery⟩) }) := by
  have hany : ¬ (records.any (fun r => r.id == now) = true) := by
    rw [List.any_eq_true]
    rintro ⟨e, he, hid⟩
    exact hfresh e he (by simpa using hid)
  simp only [saveLog, hvalid, hany, if_false, Bool.false_eq_true]

/-- With a valid draft and an id that a record already has, `saveLog` is rejected. -/
theorem saveLog_of_taken_id (records : List LogEntry) (logData : LogData) (now tz ts : Int)
    (hvalid : parseDateTimeLocal tz logData.timestamp = some ts)
    (htaken : ∃ e ∈ records, e.id = now) :
    saveLog { db := some records } logData now tz = Except.error JSError.constraintError := by
  have hany : records.any (fun r => r.id == now) = true := by
    rw [List.any_eq_true]
    obtain ⟨e, he, hid⟩ := htaken
    exact ⟨e, he, by simpa using hid⟩
  simp only [saveLog, hvalid, hany, if_true]

/-- Inserting a record with a fresh id keeps the records in key order. -/
theorem keyOrdered_orderedInsert (records : List LogEntry) (log : LogEntry)
    (hkeys : KeyOrdered records) (hfresh : ∀ e ∈ records, e.id ≠ log.id) :
    KeyOrdered (records.orderedInsert (fun a b => a.id ≤ b.id) log) := by
  induction records with
  | nil => simp [KeyOrdered]
  | cons b l ih =>
    unfold KeyOrdered at hkeys ⊢
    obtain ⟨hb, hl⟩ := List.pairwise_cons.mp hkeys
    have hne : b.id ≠ log.id := hfresh b (List.mem_cons_self _ _)
    rw [List.orderedInsert]
    by_cases hle : log.id ≤ b.id
    · rw [if_pos hle]
      refine List.pairwise_cons.mpr ⟨?_, hkeys⟩
      intro x hx
      rcases List.mem_cons.mp hx with rfl | hx2
      · omega
      · have := hb x hx2
        omega
    · rw [if_neg hle]
      refine List.pairwise_cons.mpr ⟨?_, ih hl (fun e he => hfresh e (List.mem_cons_of_mem _ he))⟩
      intro x hx
      rcases (List.mem_orderedInsert _).mp hx with rfl | hx2
      · omega
      · exact hb x hx2

/-- In a store in key order, deleting the id of a record removes one record. -/
theorem length_filter_id (records : List LogEntry) (logId : Int) (hkeys : KeyOrdered records)
    (hmem : ∃ x ∈ records, x.id = logId) :
    (records.filter (fun r => r.id != logId)).length + 1 = records.length := by
  induction records with
  | nil =>
    obtain ⟨x, hx, _⟩ := hmem
    simp at hx
  | cons a l ih =>
    unfold KeyOrdered at hkeys
    obtain ⟨ha, hl⟩ := List.pairwise_cons.mp hkeys
    by_cases hid : a.id = logId
    · have hall : l.filter (fun r => r.id != logId) = l := by
        rw [List.filter_eq_self]
        intro e he
        have := ha e he
        simp only [bne_iff_ne, ne_eq]
        omega
      rw [List.filter_cons_of_neg (by simp [hid]), hall]
      simp
    · rw [List.filter_cons_of_pos (by simpa using hid)]
      obtain ⟨x, hx, hxid⟩ := hmem
      rcases List.mem_cons.mp hx with rfl | hx2
      · exact absurd hxid hid
      · have := ih hl ⟨x, hx2, hxid⟩
        simp only [List.length_cons]
        omega

end DataService

/-- Claim C21, the counterexample: the store holds a record whose id is the clock value of the
call (a save in the same millisecond); the draft is valid, yet `saveLog` is rejected with a
`ConstraintError` and the store keeps its single record. One millisecond later the same draft
is saved. -/
theorem saveLog_is_rejected_when_the_clock_value_is_taken :
    parseDateTimeLocal 0 (mkDraft "2026-11-06T12:00").timestamp = some 1793966400000
      ∧ DataService.saveLog storeAtNoon (mkDraft "2026-11-06T12:00") 1793966400000 0
          = Except.error JSError.constraintError
      ∧ DataService.getAllLogs storeAtNoon
          = Except.ok [mkEntry 1793966400000 1793962800000 "2026-11-06"]
      ∧ DataService.saveLog storeAtNoon (mkDraft "2026-11-06T12:00") 1793966400001 0
          = Except.ok (mkEntry 1793966400001 1793966400000 "2026-11-06",
              { db := some [mkEntry 1793966400000 1793962800000 "2026-11-06",
                  mkEntry 1793966400001 1793966400000 "2026-11-06"] }) := by
  refine ⟨?_, ?_, ?_, ?_⟩ <;> decide!

/-- Claim C21, amended: for an initialised store in which no record has the clock value of the
call as its id, and a valid draft, `saveLog` succeeds; afterwards `getAllLogs` holds exactly
the entries of before and the new one; the new entry has the parsed timestamp, its date is the
ISO calendar date of that timestamp (read back, it is the UTC day of the timestamp), and its id
differs from the ids of all entries stored before; the records stay in key order. -/
theorem saveLog_adds_one_entry_when_the_clock_value_is_free (records : List LogEntry)
    (logData : DataService.LogData) (now tz ts : Int)
    (hvalid : parseDateTimeLocal tz logData.timestamp = some ts)
    (hfresh : ∀ e ∈ records, e.id ≠ now) :
    ∃ log s' before after,
      DataService.saveLog { db := some records } logData now tz = Except.ok (log, s')
        ∧ DataService.getAllLogs { db := some records } = Except.ok before
        ∧ DataService.getAllLogs s' = Except.ok after
        ∧ after.length = before.length + 1
        ∧ after.Perm (log :: before)
        ∧ log.timestamp = ts
        ∧ log.date = toISODate log.timestamp
        ∧ (-719528 ≤ ts / dayMs ∧ ts / dayMs ≤ 2932896 →
            dayOfDate log.date = some (log.timestamp / dayMs))
        ∧ log.id = now
        ∧ (∀ e ∈ before, e.id ≠ log.id)
        ∧ (KeyOrdered records → ∃ records', s'.db = some records' ∧ KeyOrdered records') := by
  have hsave := DataService.saveLog_of_fresh_id records logData now tz ts hvalid hfresh
  have hperm : (jsSort (fun a b : LogEntry => ((b.timestamp : Int) : ℚ) - ((a.timestamp : Int) : ℚ))
      (records.orderedInsert (fun a b => a.id ≤ b.id)
        ⟨now, ts, toISODate ts, logData.duration, logData.type, logData.preFatigue,
          logData.postRecovery⟩)).Perm
      (⟨now, ts, toISODate ts, logData.duration, logData.type, logData.preFatigue,
          logData.postRecovery⟩
        :: jsSort (fun a b : LogEntry => ((b.timestamp : Int) : ℚ) - ((a.timestamp : Int) : ℚ))
          records) :=
    ((jsSort_perm _ _).trans (List.perm_orderedInsert _ _ _)).trans
      (List.Perm.cons _ (jsSort_perm _ _).symm)
  refine ⟨_, _, _, _, hsave, DataService.getAllLogs_eq records, DataService.getAllLogs_eq _, ?_,
    hperm, rfl, rfl, ?_, rfl, ?_, ?_⟩
  · rw [hperm.length_eq]
    rfl
  · intro hrange
    exact dayOfDate_toISODate ts hrange
  · intro e he
    exact hfresh e ((jsSort_perm _ _).mem_iff.mp he)
  · intro hkeys
    exact ⟨_, rfl, DataService.keyOrdered_orderedInsert records _ hkeys hfresh⟩

/-- The draft of 2026-11-06 12:00 (UTC) saved one millisecond after the record of the store:
two entries afterwards, the new one dated 2026-11-06, the day of its timestamp. -/
theorem saveLog_adds_one_entry_when_the_clock_value_is_free_witness :
    DataService.saveLog storeAtNoon (mkDraft "2026-11-06T12:00") 1793966400001 0
        = Except.ok (mkEntry 1793966400001 1793966400000 "2026-11-06",
            { db := some [mkEntry 1793966400000 1793962800000 "2026-11-06",
                mkEntry 1793966400001 1793966400000 "2026-11-06"] })
      ∧ dayOfDate "2026-11-06" = some (1793966400000 / dayMs)
      ∧ ∃ log s' before after,
          DataService.saveLog storeAtNoon (mkDraft "2026-11-06T12:00") 1793966400001 0
              = Except.ok (log, s')
            ∧ DataService.getAllLogs storeAtNoon = Except.ok before
            ∧ DataService.getAllLogs s' = Except.ok after
            ∧ after.length = before.length + 1 := by
  refine ⟨by decide!, by decide!, ?_⟩
  obtain ⟨log, s', before, after, h1, h2, h3, h4, _⟩ :=
    saveLog_adds_one_entry_when_the_clock_value_is_free
      [mkEntry 1793966400000 1793962800000 "2026-11-06"] (mkDraft "2026-11-06T12:00")
      1793966400001 0 1793966400000 (by decide!) (by decide)
  exact ⟨log, s', before, after, h1, h2, h3, h4⟩

/-- Claim C22: on an initialised store, `deleteLog` succeeds; for an id that no record has the
store is unchanged; otherwise exactly the record with that id is gone and every other record
is kept as it was, in its place; a second call changes nothing; `getAllLogs` afterwards holds
the entries of before without the one of that id. -/
theorem deleteLog_removes_exactly_the_entry_with_that_id (records : List LogEntry)
    (logId : Int) (hkeys : KeyOrdered records) :
    ∃ s' remaining,
      DataService.deleteLog { db := some records } logId = Except.ok s'
        ∧ s'.db = some remaining
        ∧ ((∀ e ∈ records, e.id ≠ logId) → remaining = records)
        ∧ (∀ e, e ∈ remaining ↔ e ∈ records ∧ e.id ≠ logId)
        ∧ remaining.Sublist records
        ∧ ((∃ x ∈ records, x.id = logId) → remaining.length + 1 = records.length)
        ∧ DataService.deleteLog s' logId = Except.ok s'
        ∧ (∃ before after, DataService.getAllLogs { db := some records } = Except.ok before
            ∧ DataService.getAllLogs s' = Except.ok after
            ∧ after.Perm (before.filter (fun r => r.id != logId))) := by
  refine ⟨{ db := some (records.filter (fun r => r.id != logId)) },
    records.filter (fun r => r.id != logId), rfl, rfl, ?_, ?_, List.filter_sublist _, ?_, ?_, ?_⟩
  · intro habsent
    rw [List.filter_eq_self]
    intro e he
    simpa using habsent e he
  · intro e
    simp [List.mem_filter]
  · intro hmem
    exact DataService.length_filter_id records logId hkeys hmem
  · simp only [DataService.deleteLog, List.filter_filter, Bool.and_self]
  · refine ⟨_, _, DataService.getAllLogs_eq records, DataService.getAllLogs_eq _, ?_⟩
    exact (jsSort_perm _ _).trans ((jsSort_perm _ _).filter _).symm

/-- The store of three records: deleting the id 2 leaves the records 1 and 3, deleting it again
or deleting the absent id 7 changes nothing. -/
theorem deleteLog_removes_exactly_the_entry_with_that_id_witness :
    KeyOrdered keyedRecords
      ∧ DataService.deleteLog { db := some keyedRecords } 2
          = Except.ok { db := some [mkEntry 1 1793703600000 "2026-11-03",
              mkEntry 3 1793962800000 "2026-11-06"] }
      ∧ DataService.deleteLog { db := some keyedRecords } 7
          = Except.ok { db := some keyedRecords }
      ∧ ∃ s' remaining,
          DataService.deleteLog { db := some keyedRecords } 2 = Except.ok s'
            ∧ s'.db = some remaining
            ∧ remaining.length + 1 = keyedRecords.length
            ∧ DataService.deleteLog s' 2 = Except.ok s' := by
  have hk : KeyOrdered keyedRecords := by
    simp [KeyOrdered, keyedRecords, mkEntry]
  refine ⟨hk, by decide!, by decide!, ?_⟩
  obtain ⟨s', remaining, h1, h2, _, _, _, h6, h7, _⟩ :=
    deleteLog_removes_exactly_the_entry_with_that_id keyedRecords 2 hk
  exact ⟨s', remaining, h1, h2, h6 ⟨mkEntry 2 1793876400000 "2026-11-05",
    by simp [keyedRecords], rfl⟩, h7⟩

/-! ## Samples of the statements about the rules and the entry points -/

/-- The chronic sample history: the action is `take_break`, so the confidence is 85. -/
theorem decision_fields_go_together_witness :
    (AIAgent.analyzeAndDecide (some chronicLogs) 12000000).action = AIAgent.Action.take_break
      ∧ (AIAgent.analyzeAndDecide (some chronicLogs) 12000000).confidence = 85
      ∧ (AIAgent.analyzeAndDecide (some [mkLog 0 "spa" 5 5]) 12000000).action
          = AIAgent.Action.reboot_now
      ∧ (70 ≤ (AIAgent.analyzeAndDecide (some [mkLog 0 "spa" 5 5]) 12000000).confidence
        ∧ (AIAgent.analyzeAndDecide (some [mkLog 0 "spa" 5 5]) 12000000).confidence ≤ 95) :=
  ⟨by decide!,
    (decision_fields_go_together (some chronicLogs) 12000000).2.2.2.2.2.1 (by decide!),
    by decide!,
    (decision_fields_go_together (some [mkLog 0 "spa" 5 5]) 12000000).2.2.2.2.2.2.1
      (by decide!)⟩

/-- The analysis of the chronic sample history, 200 minutes after its newest log: rules 1 and 2
both hold, the first match in the order R3, R2, R1, R4 is rule 2, and the decision carries its
confidence 85. -/
theorem makeDecision_is_first_match_R3_R2_R1_R4_witness :
    (AIAgent.makeDecision (AIAgent.performDeepAnalysis (mkLog 0 "spa" 8 5)
        [mkLog (-3600000) "sleep" 8 5, mkLog (-7200000) "spa" 9 5] 12000000)).confidence
        = mathRound (firstMatchVerdict (AIAgent.performDeepAnalysis (mkLog 0 "spa" 8 5)
            [mkLog (-3600000) "sleep" 8 5, mkLog (-7200000) "spa" 9 5] 12000000)).confidence
      ∧ mathRound (firstMatchVerdict (AIAgent.performDeepAnalysis (mkLog 0 "spa" 8 5)
            [mkLog (-3600000) "sleep" 8 5, mkLog (-7200000) "spa" 9 5] 12000000)).confidence
          = 85
      ∧ (firstMatchVerdict (AIAgent.performDeepAnalysis (mkLog 0 "spa" 8 5)
            [mkLog (-3600000) "sleep" 8 5, mkLog (-7200000) "spa" 9 5] 12000000)).action
          = AIAgent.Action.take_break :=
  ⟨(makeDecision_is_first_match_R3_R2_R1_R4 (AIAgent.performDeepAnalysis (mkLog 0 "spa" 8 5)
      [mkLog (-3600000) "sleep" 8 5, mkLog (-7200000) "spa" 9 5] 12000000)).2.1,
    by decide!, by decide!⟩

/-- Twelve logs: the sorted per-type tables have their top entry (the type `spa`), and
`generateInsights` returns. -/
theorem analytics_entry_points_never_fail_witness :
    (∃ best, (AnalyticsService.calculateStats (some twelveLogs) 0 0).bestReboot = some best)
      ∧ (∃ best, AIAgent.findBestRebootType twelveLogs = some best)
      ∧ (AnalyticsService.calculateStats (some twelveLogs) 0 0).bestReboot = some "spa"
      ∧ (∃ out, AnalyticsService.generateInsights (some twelveLogs) 0 0 = Except.ok out) :=
  ⟨(analytics_entry_points_never_fail twelveLogs 0 0).2.2.2.1 (by simp [twelveLogs]),
    (analytics_entry_points_never_fail twelveLogs 0 0).2.2.2.2.1 (by simp [twelveLogs]),
    by decide!,
    (analytics_entry_points_never_fail twelveLogs 0 0).1⟩
